import Mathlib

/-! Smart router: rule evaluation and cookie parsing.

A shallow embedding of the Go package `router` (files `cookie.go`, `types.go`,
`router.go`) and a verification of its routing contract.

Modelling conventions.

* A Go `string` is a sequence of bytes: `GoString := List Nat`, each element a byte value.
  String constants of the source are written `str "..."`, their UTF-8 bytes.
* A Go `map[string]string` is an association list with distinct keys.  `headers[key]` is the
  entry stored under `key`; a `range` loop visits the entries in list order, so the order of
  the list stands for the order in which one `range` loop happens to visit the map.  Go draws
  that order anew at every `range`.  `getHeader` holds the only `range` over a map of the
  package and runs it at most once per call, so `getHeader` and `evaluateCondition` on a
  list describe every run of one call; `evaluateRule` and `Evaluate` on one list describe
  the runs in which every call draws the same order, and `evaluateRuleRun`, `EvaluateRun`
  describe all runs: they take a visiting order for each condition that is evaluated.
* Standard-library routines whose code is not part of the repository are either modelled
  from their documented behaviour (`strings`, `net/url`) or taken as a parameter
  (`sort.Slice`, `regexp`, `strings.ToLower`).
-/

namespace SmartRouter

/-! ## Go strings -/

/-- A Go string: its bytes, in order. -/
abbrev GoString := List Nat

/-- UTF-8 encoding of one code point. -/
def utf8Bytes (c : Nat) : List Nat :=
  if c < 0x80 then [c]
  else if c < 0x800 then [0xC0 + c / 64, 0x80 + c % 64]
  else if c < 0x10000 then [0xE0 + c / 4096, 0x80 + c / 64 % 64, 0x80 + c % 64]
  else [0xF0 + c / 262144, 0x80 + c / 4096 % 64, 0x80 + c / 64 % 64, 0x80 + c % 64]

/-- The Go string denoted by a string constant of the source. -/
def str (s : String) : GoString := s.toList.flatMap (fun c => utf8Bytes c.toNat)

/-- The byte of an ASCII character constant. -/
def ch (c : Char) : Nat := c.toNat

/-- Code points with the Unicode White_Space property, the set tested by `unicode.IsSpace`. -/
def whiteSpace : List Nat :=
  [0x09, 0x0A, 0x0B, 0x0C, 0x0D, 0x20, 0x85, 0xA0, 0x1680,
   0x2000, 0x2001, 0x2002, 0x2003, 0x2004, 0x2005, 0x2006, 0x2007, 0x2008, 0x2009, 0x200A,
   0x2028, 0x2029, 0x202F, 0x205F, 0x3000]

/-- The byte sequences that decode to a white-space rune. -/
def spaceEncodings : List GoString := whiteSpace.map utf8Bytes

/-- Remove one leading byte sequence of `table` from `s`, when `s` starts with one. -/
def stripOne (table : List GoString) (s : GoString) : Option GoString :=
  (table.find? (fun e => e.isPrefixOf s)).map (fun e => s.drop e.length)

/-- Remove leading byte sequences of `table` from `s` for as long as there is one
(at most `fuel` of them). -/
def trimAux (table : List GoString) : Nat → GoString → GoString
  | 0, s => s
  | fuel + 1, s =>
    match stripOne table s with
    | some t => trimAux table fuel t
    | none => s

/-- Leading white space removed: runes are decoded from the front while they are white space. -/
def TrimLeftSpace (s : GoString) : GoString := trimAux spaceEncodings s.length s

/-- Trailing white space removed: runes are decoded from the back while they are white space. -/
def TrimRightSpace (s : GoString) : GoString :=
  (trimAux (spaceEncodings.map List.reverse) s.length s.reverse).reverse

/-- Go `strings.TrimSpace`: all leading and trailing white space, as defined by Unicode,
removed. -/
def TrimSpace (s : GoString) : GoString := TrimRightSpace (TrimLeftSpace s)

/-- The text before and the text after the first occurrence of the byte `sep`,
or `none` when `sep` does not occur. -/
def Cut (s : GoString) (sep : Nat) : Option (GoString × GoString) :=
  if sep ∈ s then some (s.takeWhile (fun b => b != sep), (s.dropWhile (fun b => b != sep)).drop 1)
  else none

/-- Go `strings.Split(s, sep)` for a one-byte separator: the pieces of `s` between the
occurrences of `sep` (one more piece than there are separators). -/
def Split (s : GoString) (sep : Nat) : List GoString := s.splitOn sep

/-- Go `strings.SplitN(s, sep, n)` for a one-byte separator and `n ≥ 0`: at most `n` pieces,
the last one being the unsplit remainder. -/
def SplitN (s : GoString) (sep : Nat) : Nat → List GoString
  | 0 => []
  | 1 => [s]
  | n + 2 =>
    match Cut s sep with
    | none => [s]
    | some (a, b) => a :: SplitN b sep (n + 1)

/-- Go `strings.Index(s, sep)` for a one-byte separator: the index of the first occurrence,
`none` standing for -1. -/
def Index (s : GoString) (sep : Nat) : Option Nat :=
  if sep ∈ s then some (s.takeWhile (fun b => b != sep)).length else none

/-- Go `strings.HasPrefix`. -/
def HasPrefix (s pre : GoString) : Bool := pre.isPrefixOf s

/-- Go `strings.HasSuffix`. -/
def HasSuffix (s suf : GoString) : Bool := suf.isSuffixOf s

/-- Go `strings.Contains`: `sub` occurs somewhere within `s`. -/
def Contains (s sub : GoString) : Bool := s.tails.any (fun t => sub.isPrefixOf t)

/-! ## net/url -/

/-- The test `ishex` of net/url. -/
def ishex (c : Nat) : Bool :=
  (ch '0' ≤ c && c ≤ ch '9') || (ch 'a' ≤ c && c ≤ ch 'f') || (ch 'A' ≤ c && c ≤ ch 'F')

/-- The value `unhex` of a hexadecimal digit. -/
def unhex (c : Nat) : Nat :=
  if ch '0' ≤ c && c ≤ ch '9' then c - ch '0'
  else if ch 'a' ≤ c && c ≤ ch 'f' then c - ch 'a' + 10
  else if ch 'A' ≤ c && c ≤ ch 'F' then c - ch 'A' + 10
  else 0

/-- First pass of `unescape`: every `%` is followed by two hexadecimal digits. -/
def escapesWellFormed : GoString → Bool
  | [] => true
  | c :: rest =>
    if c = ch '%' then
      match rest with
      | h :: l :: t => ishex h && ishex l && escapesWellFormed t
      | _ => false
    else escapesWellFormed rest

/-- Second pass of `unescape` in query-component mode: `%XX` becomes the byte `XX`,
`+` becomes a space, every other byte is copied. -/
def unescapeBytes : GoString → GoString
  | [] => []
  | c :: rest =>
    if c = ch '%' then
      match rest with
      | h :: l :: t => (unhex h * 16 + unhex l) :: unescapeBytes t
      | _ => []
    else if c = ch '+' then ch ' ' :: unescapeBytes rest
    else c :: unescapeBytes rest

/-- Go `url.QueryUnescape`; `none` stands for a returned error. -/
def QueryUnescape (s : GoString) : Option GoString :=
  if escapesWellFormed s then some (unescapeBytes s) else none

/-! ## cookie.go -/

/-- The loop of `ParseCookieValue` over the `;`-separated pairs. -/
def parseCookiePairs (name : GoString) : List GoString → GoString × Bool
  | [] => ([], false)
  | pair :: rest =>
    let pair := TrimSpace pair
    match SplitN pair (ch '=') 2 with
    | [p0, p1] =>
      let cookieName := TrimSpace p0
      let cookieValue := TrimSpace p1
      if cookieName = name then
        match QueryUnescape cookieValue with
        | none => (cookieValue, true)
        | some decoded => (decoded, true)
      else parseCookiePairs name rest
    | _ => parseCookiePairs name rest

/-- ParseCookieValue extracts a specific cookie value from a Cookie header string. -/
def ParseCookieValue (cookieHeader name : GoString) : GoString × Bool :=
  if cookieHeader = [] then ([], false)
  else parseCookiePairs name (Split cookieHeader (ch ';'))

/-! ## types.go -/

/-- A Go `map[string]string`; see the conventions at the top of the file. -/
abbrev StringMap := List (GoString × GoString)

/-- The comma-ok lookup `v, ok := m[key]`. -/
def StringMap.get? (m : StringMap) (key : GoString) : Option GoString :=
  (m.find? (fun kv => kv.1 = key)).map Prod.snd

/-- The plain lookup `m[key]`, the empty string when the key is absent. -/
def StringMap.get (m : StringMap) (key : GoString) : GoString :=
  (m.get? key).getD []

/-- Condition defines a single matching rule. -/
structure Condition where
  /-- The field `Type` of the source (a reserved word here). -/
  Type_ : GoString
  Key : GoString
  Operator : GoString
  Value : GoString
deriving DecidableEq, Repr

/-- RoutingRule defines a condition and target for routing. -/
structure RoutingRule where
  Name : GoString
  Priority : Int
  Conditions : List Condition
  Target : GoString
  AddHeaders : StringMap
  RemoveHeaders : List GoString
deriving DecidableEq, Repr

/-- RoutingDecision is the result of evaluating rules. -/
structure RoutingDecision where
  Target : GoString
  MatchedRule : GoString
  AddHeaders : StringMap
  RemoveHeaders : List GoString
deriving DecidableEq, Repr

/-- PluginConfig is the configuration for the router plugin. -/
structure PluginConfig where
  LogLevel : GoString
  DefaultTarget : GoString
  Rules : List RoutingRule
deriving DecidableEq, Repr

/-! ## router.go -/

/-- The standard-library routines used during evaluation whose code lies outside the
repository. -/
structure Lib where
  /-- `regexp.Compile(pattern)`: `none` when the pattern does not compile, otherwise the
  `MatchString` test of the compiled expression. -/
  regexpCompile : GoString → Option (GoString → Bool)
  /-- `strings.ToLower`. -/
  toLower : GoString → GoString

/-- A routine standing for `sort.Slice` on a slice of rules: given the `less` function it
returns the final contents of the slice. -/
abbrev SliceSorter := (RoutingRule → RoutingRule → Bool) → List RoutingRule → List RoutingRule

/-- Router evaluates routing rules against request attributes. -/
structure Router where
  config : PluginConfig
deriving DecidableEq, Repr

/-- The `less` function handed to `sort.Slice` by `NewRouter`. -/
def lessPriority (a b : RoutingRule) : Bool := decide (a.Priority < b.Priority)

/-- NewRouter creates a new router with the given configuration: the rules are copied into
a fresh slice, the copy is sorted by `sort.Slice` and stored in the router's own `config`
value.  Here on values; `NewRouterHeap` below runs the same statements on backing arrays. -/
def NewRouter (sortSlice : SliceSorter) (config : PluginConfig) : Router :=
  let rules := sortSlice lessPriority config.Rules
  { config := { config with Rules := rules } }

/-- The method `matchValue` checks if a value matches using the specified operator. -/
def matchValue (L : Lib) (operator value pattern : GoString) (exists_ : Bool) : Bool :=
  if operator = str "exists" then exists_
  else if operator = str "equals" then decide (value = pattern)
  else if operator = str "contains" then Contains value pattern
  else if operator = str "prefix" then HasPrefix value pattern
  else if operator = str "suffix" then HasSuffix value pattern
  else if operator = str "regex" then
    match L.regexpCompile pattern with
    | none => false
    | some re => re value
  else false

/-- The method `getHeader` gets a header value (case-insensitive).  `headers` lists the map in
the order in which the `range` loop of this call visits it. -/
def getHeader (L : Lib) (headers : StringMap) (key : GoString) : GoString × Bool :=
  match headers.get? key with
  | some v => (v, true)
  | none =>
    let keyLower := L.toLower key
    match headers.find? (fun kv => L.toLower kv.1 = keyLower) with
    | some kv => (kv.2, true)
    | none => ([], false)

/-- The method `getCookie` extracts a cookie value from the Cookie header. -/
def getCookie (headers : StringMap) (name : GoString) : GoString × Bool :=
  match headers.get? (str "cookie") with
  | some cookieHeader => ParseCookieValue cookieHeader name
  | none =>
    match headers.get? (str "Cookie") with
    | some cookieHeader => ParseCookieValue cookieHeader name
    | none => ([], false)

/-- The loop of `getQueryParam` over the `&`-separated pairs. -/
def queryPairs (key : GoString) : List GoString → GoString × Bool
  | [] => ([], false)
  | pair :: rest =>
    match SplitN pair (ch '=') 2 with
    | [p0, p1] => if p0 = key then (p1, true) else queryPairs key rest
    | [p0] => if p0 = key then ([], true) else queryPairs key rest
    | _ => queryPairs key rest

/-- The method `getQueryParam` extracts a query parameter from the path. -/
def getQueryParam (headers : StringMap) (key : GoString) : GoString × Bool :=
  let path := headers.get (str ":path")
  if path = [] then ([], false)
  else
    match Index path (ch '?') with
    | none => ([], false)
    | some idx =>
      let query := path.drop (idx + 1)
      queryPairs key (Split query (ch '&'))

/-- The method `evaluateCondition` evaluates a single condition. -/
def evaluateCondition (L : Lib) (cond : Condition) (headers : StringMap) : Bool :=
  if cond.Type_ = str "header" then
    let r := getHeader L headers cond.Key
    matchValue L cond.Operator r.1 cond.Value r.2
  else if cond.Type_ = str "cookie" then
    let r := getCookie headers cond.Key
    matchValue L cond.Operator r.1 cond.Value r.2
  else if cond.Type_ = str "path" then
    matchValue L cond.Operator (headers.get (str ":path")) cond.Value
      (decide (headers.get (str ":path") ≠ []))
  else if cond.Type_ = str "query" then
    let r := getQueryParam headers cond.Key
    matchValue L cond.Operator r.1 cond.Value r.2
  else false

/-- The loop of `evaluateRule`: `false` at the first condition that does not hold. -/
def allConditions (L : Lib) (headers : StringMap) : List Condition → Bool
  | [] => true
  | condition :: rest =>
    if !evaluateCondition L condition headers then false
    else allConditions L headers rest

/-- The method `evaluateRule` checks if all conditions in a rule match. -/
def evaluateRule (L : Lib) (rule : RoutingRule) (headers : StringMap) : Bool :=
  if allConditions L headers rule.Conditions then decide (rule.Conditions.length > 0)
  else false

/-- The decision returned for a rule that matched. -/
def ruleDecision (rule : RoutingRule) : RoutingDecision :=
  { Target := rule.Target
    MatchedRule := rule.Name
    AddHeaders := rule.AddHeaders
    RemoveHeaders := rule.RemoveHeaders }

/-- The decision returned when no rule matched. -/
def defaultDecision (defaultTarget : GoString) : RoutingDecision :=
  { Target := defaultTarget
    MatchedRule := str ""
    AddHeaders := [(str "X-Routed-By", str "smart-router"), (str "X-Route-Reason", str "default")]
    RemoveHeaders := [] }

/-- The loop of `Evaluate`: the decision of the first rule that matches. -/
def firstMatch (L : Lib) (headers : StringMap) : List RoutingRule → Option RoutingDecision
  | [] => none
  | rule :: rest =>
    if evaluateRule L rule headers then some (ruleDecision rule)
    else firstMatch L headers rest

/-- Evaluate evaluates all rules against the given headers and returns a routing decision. -/
def Evaluate (L : Lib) (r : Router) (headers : StringMap) : RoutingDecision :=
  match firstMatch L headers r.config.Rules with
  | some d => d
  | none => defaultDecision r.config.DefaultTarget

/-! ## sort.Slice -/

/-- The requirement `sort.Slice` places on its `less` function: a transitive ordering in
which being unordered is transitive as well, and no two elements are each less than the
other. -/
def StrictWeakOrder {α : Type} (less : α → α → Bool) : Prop :=
  (∀ a b, less a b = true → less b a = false) ∧
  (∀ a b c, less a b = true → less b c = true → less a c = true) ∧
  (∀ a b c, less a b = false → less b c = false → less a c = false)

/-- What `sort.Slice` documents: the slice ends up holding the same elements in ascending
order as determined by `less`.  Nothing is promised about elements neither of which is less
than the other ("the sort is not guaranteed to be stable"). -/
def SortSliceSpec (sortSlice : SliceSorter) : Prop :=
  ∀ less, StrictWeakOrder less → ∀ xs,
    (sortSlice less xs).Perm xs ∧ (sortSlice less xs).Pairwise (fun a b => less b a = false)

/-- Inner loop of `insertionSort_func`: the element `x` moves left past every predecessor
it is less than.  `before` lists the predecessors, nearest first. -/
def siftLeft {α : Type} (less : α → α → Bool) (x : α) : List α → List α
  | [] => [x]
  | p :: before => if less x p then p :: siftLeft less x before else x :: p :: before

/-- Outer loop of `insertionSort_func`: `sortedRev` is the part already sorted, read
backwards, and the second list the elements still to insert. -/
def insertionLoop {α : Type} (less : α → α → Bool) : List α → List α → List α
  | sortedRev, [] => sortedRev.reverse
  | sortedRev, x :: rest => insertionLoop less (siftLeft less x sortedRev) rest

/-- The insertion sort of package sort, the routine `sort.Slice` runs on a slice of at most
twelve elements (`maxInsertion` in `pdqsort_func`). -/
def insertionSort_func {α : Type} (less : α → α → Bool) (xs : List α) : List α :=
  insertionLoop less [] xs

/-! ## sort.Slice beyond twelve elements

On a slice of more than twelve elements `sort.Slice` runs the pattern-defeating quicksort of
`pdqsort_func` (package sort of Go 1.19 and later, file `zsortfunc.go`).  It is embedded
here on the slice as an array, indices as in the source, for slices of fewer than fifty
elements and for the runs that call neither `heapSort_func` nor `breakPatterns_func`. -/

/-- `data.Less(i, j)` on the slice `data`. -/
def lessAt {α : Type} (less : α → α → Bool) (data : List α) (i j : Nat) : Bool :=
  match data[i]?, data[j]? with
  | some x, some y => less x y
  | _, _ => false

/-- `data.Swap(i, j)` on the slice `data`. -/
def swapAt {α : Type} (data : List α) (i j : Nat) : List α :=
  match data[i]?, data[j]? with
  | some x, some y => (data.set i y).set j x
  | _, _ => data

/-- Inner loop of `insertionSort_func`:
`for j := i; j > a && data.Less(j, j-1); j-- { data.Swap(j, j-1) }`. -/
def insertionInner {α : Type} (less : α → α → Bool) (a : Nat) : Nat → List α → List α
  | 0, data => data
  | j + 1, data =>
    if j + 1 > a && lessAt less data (j + 1) j then
      insertionInner less a j (swapAt data (j + 1) j)
    else data

/-- Outer loop of `insertionSort_func`: `for i := a + 1; i < b; i++`. -/
def insertionOuter {α : Type} (less : α → α → Bool) (a b : Nat) : Nat → Nat → List α → List α
  | 0, _, data => data
  | fuel + 1, i, data =>
    if i < b then insertionOuter less a b fuel (i + 1) (insertionInner less a i data)
    else data

/-- `insertionSort_func(data, a, b)`: sorts `data[a:b]` using insertion sort. -/
def insertionSortRange {α : Type} (less : α → α → Bool) (data : List α) (a b : Nat) : List α :=
  insertionOuter less a b (b - a) (a + 1) data

/-- The hints `choosePivot_func` gives about the slice. -/
inductive sortedHint where
  | unknownHint
  | increasingHint
  | decreasingHint
deriving DecidableEq, Repr

/-- `order2_func(data, a, b, swaps)`: returns `x, y` where `data[x] <= data[y]`. -/
def order2_func {α : Type} (less : α → α → Bool) (data : List α) (a b swaps : Nat) :
    Nat × Nat × Nat :=
  if lessAt less data b a then (b, a, swaps + 1) else (a, b, swaps)

/-- `median_func(data, a, b, c, swaps)`: the index of the median of three elements. -/
def median_func {α : Type} (less : α → α → Bool) (data : List α) (a b c swaps : Nat) :
    Nat × Nat :=
  let r1 := order2_func less data a b swaps
  let r2 := order2_func less data r1.2.1 c r1.2.2
  let r3 := order2_func less data r1.1 r2.1 r2.2.2
  (r3.2.1, r3.2.2)

/-- `choosePivot_func(data, a, b)` on a slice of fewer than fifty elements
(`shortestNinther`): the middle element below eight elements, otherwise the median of
three. -/
def choosePivot_func {α : Type} (less : α → α → Bool) (data : List α) (a b : Nat) :
    Nat × sortedHint :=
  let l := b - a
  let i := a + l / 4 * 1
  let j := a + l / 4 * 2
  let k := a + l / 4 * 3
  let r := if l ≥ 8 then median_func less data i j k 0 else (j, 0)
  if r.2 = 0 then (r.1, sortedHint.increasingHint)
  else if r.2 = 12 then (r.1, sortedHint.decreasingHint)
  else (r.1, sortedHint.unknownHint)

/-- The loop `for i < j { data.Swap(i, j); i++; j-- }` of `reverseRange_func`. -/
def reverseLoop {α : Type} : Nat → List α → Nat → Nat → List α
  | 0, data, _, _ => data
  | fuel + 1, data, i, j =>
    if i < j then reverseLoop fuel (swapAt data i j) (i + 1) (j - 1) else data

/-- `reverseRange_func(data, a, b)`. -/
def reverseRange_func {α : Type} (data : List α) (a b : Nat) : List α :=
  reverseLoop (b - a) data a (b - 1)

/-- The loop `for i < b && !data.Less(i, i-1) { i++ }` of `partialInsertionSort_func`. -/
def sortedRunEnd {α : Type} (less : α → α → Bool) (data : List α) (b : Nat) :
    Nat → Nat → Nat
  | 0, i => i
  | fuel + 1, i =>
    if i < b && !lessAt less data i (i - 1) then sortedRunEnd less data b fuel (i + 1)
    else i

/-- `partialInsertionSort_func(data, a, b)` on a slice of fewer than fifty elements
(`shortestShifting`): such a slice is left as it is, and the answer is whether it is
sorted already. -/
def partialInsertionSort_func {α : Type} (less : α → α → Bool) (data : List α) (a b : Nat) :
    Bool :=
  decide (sortedRunEnd less data b (b - a) (a + 1) = b)

/-- The loop `for i <= j && data.Less(i, a) { i++ }` of `partition_func`. -/
def scanUp {α : Type} (less : α → α → Bool) (data : List α) (a j : Nat) : Nat → Nat → Nat
  | 0, i => i
  | fuel + 1, i =>
    if i ≤ j && lessAt less data i a then scanUp less data a j fuel (i + 1) else i

/-- The loop `for i <= j && !data.Less(j, a) { j-- }` of `partition_func`. -/
def scanDown {α : Type} (less : α → α → Bool) (data : List α) (a i : Nat) : Nat → Nat → Nat
  | 0, j => j
  | fuel + 1, j =>
    if i ≤ j && !lessAt less data j a then scanDown less data a i fuel (j - 1) else j

/-- The closing `for` loop of `partition_func`. -/
def partitionLoop {α : Type} (less : α → α → Bool) (a : Nat) :
    Nat → List α → Nat → Nat → List α × Nat
  | 0, data, _, j => (data, j)
  | fuel + 1, data, i, j =>
    let i := scanUp less data a j (j + 1 - i) i
    let j := scanDown less data a i (j + 1 - i) j
    if i > j then (data, j)
    else partitionLoop less a fuel (swapAt data i j) (i + 1) (j - 1)

/-- `partition_func(data, a, b, pivot)` does one quicksort partition: the elements less
than the pivot come to stand before it, the others after it.  The result is the slice, the
new index of the pivot and whether the slice was partitioned already. -/
def partition_func {α : Type} (less : α → α → Bool) (data : List α) (a b pivot : Nat) :
    List α × Nat × Bool :=
  let data := swapAt data a pivot
  let i := scanUp less data a (b - 1) (b - a) (a + 1)
  let j := scanDown less data a i (b - a) (b - 1)
  if i > j then (swapAt data j a, j, true)
  else
    let r := partitionLoop less a (b - a) (swapAt data i j) (i + 1) (j - 1)
    (swapAt r.1 r.2 a, r.2, false)

/-- The loop `for i <= j && !data.Less(a, i) { i++ }` of `partitionEqual_func`. -/
def scanUpEqual {α : Type} (less : α → α → Bool) (data : List α) (a j : Nat) : Nat → Nat → Nat
  | 0, i => i
  | fuel + 1, i =>
    if i ≤ j && !lessAt less data a i then scanUpEqual less data a j fuel (i + 1) else i

/-- The loop `for i <= j && data.Less(a, j) { j-- }` of `partitionEqual_func`. -/
def scanDownEqual {α : Type} (less : α → α → Bool) (data : List α) (a i : Nat) :
    Nat → Nat → Nat
  | 0, j => j
  | fuel + 1, j =>
    if i ≤ j && lessAt less data a j then scanDownEqual less data a i fuel (j - 1) else j

/-- The `for` loop of `partitionEqual_func`. -/
def partitionEqualLoop {α : Type} (less : α → α → Bool) (a : Nat) :
    Nat → List α → Nat → Nat → List α × Nat
  | 0, data, i, _ => (data, i)
  | fuel + 1, data, i, j =>
    let i := scanUpEqual less data a j (j + 1 - i) i
    let j := scanDownEqual less data a i (j + 1 - i) j
    if i > j then (data, i)
    else partitionEqualLoop less a fuel (swapAt data i j) (i + 1) (j - 1)

/-- `partitionEqual_func(data, a, b, pivot)` partitions `data[a:b]` into the elements equal
to the pivot followed by the elements greater than it. -/
def partitionEqual_func {α : Type} (less : α → α → Bool) (data : List α) (a b pivot : Nat) :
    List α × Nat :=
  partitionEqualLoop less a (b - a + 1) (swapAt data a pivot) (a + 1) (b - 1)

/-- `bits.Len(uint(n))`: the number of binary digits of `n`. -/
def bitsLen : Nat → Nat → Nat
  | 0, _ => 0
  | fuel + 1, n => if n = 0 then 0 else 1 + bitsLen fuel (n / 2)

/-- `pdqsort_func(data, a, b, limit)` on a slice of fewer than fifty elements.  The two
local variables `wasBalanced` and `wasPartitioned` of the loop are arguments.  The answer is
`none` where the run would call `heapSort_func` or `breakPatterns_func`, which are not
embedded, and when the fuel, one unit per turn of the loop, runs out. -/
def pdqsort_func {α : Type} (less : α → α → Bool) :
    Nat → List α → Nat → Nat → Nat → Bool → Bool → Option (List α)
  | 0, _, _, _, _, _, _ => none
  | fuel + 1, data, a, b, limit, wasBalanced, wasPartitioned =>
    let length := b - a
    if length ≤ 12 then some (insertionSortRange less data a b)
    else if limit = 0 then none
    else if !wasBalanced then none
    else
      let choice := choosePivot_func less data a b
      let reversed := decide (choice.2 = sortedHint.decreasingHint)
      let data := if reversed then reverseRange_func data a b else data
      let pivot := if reversed then (b - 1) - (choice.1 - a) else choice.1
      let hint := if reversed then sortedHint.increasingHint else choice.2
      if wasBalanced && wasPartitioned && decide (hint = sortedHint.increasingHint) &&
          partialInsertionSort_func less data a b then some data
      else if decide (a > 0) && !lessAt less data (a - 1) pivot then
        let r := partitionEqual_func less data a b pivot
        pdqsort_func less fuel r.1 r.2 b limit wasBalanced wasPartitioned
      else
        let r := partition_func less data a b pivot
        let mid := r.2.1
        let leftLen := mid - a
        let rightLen := b - mid
        let balanceThreshold := length / 8
        if leftLen < rightLen then
          match pdqsort_func less fuel r.1 a mid limit true true with
          | none => none
          | some data =>
            pdqsort_func less fuel data (mid + 1) b limit (decide (leftLen ≥ balanceThreshold))
              r.2.2
        else
          match pdqsort_func less fuel r.1 (mid + 1) b limit true true with
          | none => none
          | some data =>
            pdqsort_func less fuel data a mid limit (decide (rightLen ≥ balanceThreshold)) r.2.2

/-- `sort.Slice(x, less)` on a slice of fewer than fifty elements: the final contents of
the slice, `none` where `pdqsort_func` gives none. -/
def sortSlicePdq {α : Type} (less : α → α → Bool) (xs : List α) : Option (List α) :=
  if xs.length < 50 then
    pdqsort_func less (xs.length + 1) xs 0 xs.length (bitsLen xs.length xs.length) true true
  else none

/-! ## NewRouter on the heap

Go slices refer to a backing array.  To state what `NewRouter` does to the caller's slice,
this section runs its statements on a store of backing arrays. -/

/-- The store of backing arrays, by address. -/
abbrev Heap := List (List RoutingRule)

/-- The contents of the backing array at `addr` (a slice covering the whole array). -/
def Heap.read (h : Heap) (addr : Nat) : List RoutingRule := h.getD addr []

/-- The zero value of `RoutingRule`. -/
def RoutingRule.zero : RoutingRule :=
  { Name := [], Priority := 0, Conditions := [], Target := [], AddHeaders := [],
    RemoveHeaders := [] }

/-- Go `copy(dst, src)`: the first `min (len dst) (len src)` elements of `dst` overwritten. -/
def copySlice (dst src : List RoutingRule) : List RoutingRule :=
  src.take (min dst.length src.length) ++ dst.drop (min dst.length src.length)

/-- A `PluginConfig` value as it lies in memory: `Rules` is the address of a backing array. -/
structure PluginConfigRef where
  LogLevel : GoString
  DefaultTarget : GoString
  Rules : Nat
deriving DecidableEq, Repr

/-- The configuration a `PluginConfigRef` denotes in a given heap. -/
def PluginConfigRef.deref (c : PluginConfigRef) (h : Heap) : PluginConfig :=
  { LogLevel := c.LogLevel, DefaultTarget := c.DefaultTarget, Rules := h.read c.Rules }

/-- The statements of `NewRouter`, run on the heap: `make` allocates a fresh array, `copy`
fills it, `sort.Slice` permutes it in place, and the local `config` (a copy of the
argument) is pointed at it.  Returns the heap after the call and the router's config. -/
def NewRouterHeap (sortSlice : SliceSorter) (h : Heap) (config : PluginConfigRef) :
    Heap × PluginConfigRef :=
  let rules := h.length
  let h1 : Heap := h ++ [List.replicate (h.read config.Rules).length RoutingRule.zero]
  let h2 : Heap := h1.set rules (copySlice (h1.read rules) (h1.read config.Rules))
  let h3 : Heap := h2.set rules (sortSlice lessPriority (h2.read rules))
  (h3, { config with Rules := rules })

/-! ## Specification vocabulary -/

/-- A rule matches a request: it has at least one condition and each of its conditions
evaluates true. -/
def Matches (L : Lib) (headers : StringMap) (rule : RoutingRule) : Prop :=
  rule.Conditions ≠ [] ∧ ∀ c ∈ rule.Conditions, evaluateCondition L c headers = true

/-- ASCII lower-casing, the effect of `strings.ToLower` on ASCII text. -/
def asciiToLower (s : GoString) : GoString :=
  s.map (fun b => if ch 'A' ≤ b ∧ b ≤ ch 'Z' then b + 32 else b)

/-- A library instance for running examples that use no regular expression:
ASCII lower-casing, and a `regexp.Compile` that rejects every pattern. -/
def exampleLib : Lib := { regexpCompile := fun _ => none, toLower := asciiToLower }

/-- A condition on a header. -/
def headerCond (key op value : String) : Condition :=
  { Type_ := str "header", Key := str key, Operator := str op, Value := str value }

/-- The rule "low-priority" of `TestRouter_Evaluate_Priority`. -/
def ruleLow : RoutingRule :=
  { Name := str "low-priority", Priority := 10,
    Conditions := [headerCond "User-Agent" "contains" "Chrome"],
    Target := str "v1-special", AddHeaders := [], RemoveHeaders := [] }

/-- The rule "high-priority" of `TestRouter_Evaluate_Priority`. -/
def ruleHigh : RoutingRule :=
  { Name := str "high-priority", Priority := 1,
    Conditions := [headerCond "X-Priority" "equals" "high"],
    Target := str "v2-priority", AddHeaders := [], RemoveHeaders := [] }

/-- The configuration of `TestRouter_Evaluate_Priority`. -/
def priorityConfig : PluginConfig :=
  { LogLevel := str "info", DefaultTarget := str "v1", Rules := [ruleLow, ruleHigh] }

/-- The request of `TestRouter_Evaluate_Priority`. -/
def priorityHeaders : StringMap :=
  [(str "User-Agent", str "Chrome/120.0"), (str "X-Priority", str "high")]

/-- A rule like "high-priority" that shares the priority of "low-priority". -/
def ruleTie : RoutingRule := { ruleHigh with Name := str "tie", Priority := 10 }

/-- Two matching rules of equal priority, "low-priority" listed first. -/
def tieConfigA : PluginConfig :=
  { LogLevel := str "info", DefaultTarget := str "v1", Rules := [ruleLow, ruleTie] }

/-- The rules of `tieConfigA` in the other order. -/
def tieConfigB : PluginConfig :=
  { LogLevel := str "info", DefaultTarget := str "v1", Rules := [ruleTie, ruleLow] }

/-- A request no rule of `priorityConfig` matches. -/
def plainHeaders : StringMap := [(str "User-Agent", str "curl/8.0")]

/-- A heap holding the rules of `priorityConfig` in one backing array. -/
def priorityHeap : Heap := [[ruleLow, ruleHigh]]

/-- The in-memory form of `priorityConfig` within `priorityHeap`. -/
def priorityConfigRef : PluginConfigRef :=
  { LogLevel := str "info", DefaultTarget := str "v1", Rules := 0 }

/-- A sorting routine keeps ties in order: elements none of which is less than another
come out in the order they went in. -/
def StableSorter (sortSlice : SliceSorter) : Prop :=
  ∀ (less : RoutingRule → RoutingRule → Bool) (q : RoutingRule → Bool),
    (∀ a b, q a = true → q b = true → less a b = false) →
    ∀ xs, (sortSlice less xs).filter q = xs.filter q

/-! ## Vocabulary for the cookie parser -/

/-- Leading entries of `table` removed, with fuel enough for the whole string. -/
def trimTable (table : List GoString) (s : GoString) : GoString := trimAux table s.length s

/-- A string made of entries of `table` laid end to end. -/
inductive Run (table : List GoString) : GoString → Prop
  | nil : Run table []
  | cons (e w : GoString) : e ∈ table → Run table w → Run table (e ++ w)

/-- The properties of the white-space table the trimming lemmas rest on: no entry is empty,
no entry starts another, and no proper end piece of an entry starts an entry or is started
by one. -/
def GoodTable (table : List GoString) : Prop :=
  [] ∉ table ∧
  (∀ e ∈ table, ∀ f ∈ table, e <+: f → e = f) ∧
  (∀ e ∈ table, ∀ f ∈ table, ∀ k < e.length, 0 < k →
    ¬ (e.drop k <+: f) ∧ ¬ (f <+: e.drop k))

/-- No proper end piece of an entry of `table` starts `t`: appending `t` to a string cannot
complete an entry begun in that string. -/
def NoJoin (table : List GoString) (t : GoString) : Prop :=
  ∀ e ∈ table, ∀ k < e.length, 0 < k → ¬ (e.drop k <+: t)

/-- A run of white space: a string that trimming erases completely. -/
def IsSpaceRun (w : GoString) : Prop := TrimLeftSpace w = []

instance (w : GoString) : Decidable (IsSpaceRun w) :=
  inferInstanceAs (Decidable (TrimLeftSpace w = []))

/-- What one `;`-delimited pair of a Cookie header contributes: the trimmed name and the
trimmed raw value when the trimmed pair contains `=`, nothing otherwise. -/
def pairEntry (pair : GoString) : Option (GoString × GoString) :=
  match Cut (TrimSpace pair) (ch '=') with
  | some (name, value) => some (TrimSpace name, TrimSpace value)
  | none => none

/-- The decoding the specification describes: every `%XX` escape replaced by the byte it
denotes, every other byte left unchanged. -/
def percentDecode : GoString → GoString
  | [] => []
  | [c] => [c]
  | [c, h] => c :: percentDecode [h]
  | c :: h :: l :: t =>
    if c = ch '%' ∧ ishex h = true ∧ ishex l = true then
      (unhex h * 16 + unhex l) :: percentDecode t
    else c :: percentDecode (h :: l :: t)

/-- Every `+` replaced by a space. -/
def plusToSpace (s : GoString) : GoString := s.map (fun b => if b = ch '+' then ch ' ' else b)

/-- One `;`-delimited piece of a Cookie header with its white-space padding marked out:
either a bare token, or a name and a value around an `=`. -/
inductive Segment where
  | bare (pre token post : GoString)
  | pair (pre name mid1 mid2 value post : GoString)

/-- The piece with its padding. -/
def Segment.padded : Segment → GoString
  | .bare pre token post => pre ++ token ++ post
  | .pair pre name mid1 mid2 value post =>
    pre ++ name ++ mid1 ++ ch '=' :: (mid2 ++ value ++ post)

/-- The piece with the padding left out. -/
def Segment.plain : Segment → GoString
  | .bare _ token _ => token
  | .pair _ name _ _ value _ => name ++ ch '=' :: value

/-- The padding is white space, and the token, name and value are free of the separators
that delimit them. -/
def Segment.WellFormed : Segment → Prop
  | .bare pre token post =>
    IsSpaceRun pre ∧ IsSpaceRun post ∧ ch ';' ∉ token ∧ ch '=' ∉ token
  | .pair pre name mid1 mid2 value post =>
    IsSpaceRun pre ∧ IsSpaceRun mid1 ∧ IsSpaceRun mid2 ∧ IsSpaceRun post ∧
    ch ';' ∉ name ∧ ch '=' ∉ name ∧ ch ';' ∉ value

instance (s : Segment) : Decidable s.WellFormed := by
  cases s <;> unfold Segment.WellFormed <;> infer_instance

/-- The Cookie header made of the given pieces, joined with `;`. -/
def joinPairs (pieces : List GoString) : GoString := [ch ';'].intercalate pieces

/-- The padded header of `TestParseCookieValue_Whitespace`, piece by piece. -/
def whitespaceSegments : List Segment :=
  [.pair (str "  ") (str "session") (str " ") (str " ") (str "abc123") (str " "),
   .pair (str "  ") (str "beta") (str " ") (str " ") (str "true") (str "  ")]

/-- The rules of `priorityConfig` in the other order. -/
def priorityConfigRev : PluginConfig :=
  { LogLevel := str "info", DefaultTarget := str "v1", Rules := [ruleHigh, ruleLow] }

/-! ## cookie.go, continued -/

/-- The map assignment `m[key] = value`: any entry under `key` is dropped and the new
entry added. -/
def StringMap.set (m : StringMap) (key value : GoString) : StringMap :=
  (key, value) :: m.filter (fun kv => kv.1 ≠ key)

/-- The loop of `ParseAllCookies` over the `;`-separated pairs, `cookies` being the map
built so far. -/
def parseAllPairs : StringMap → List GoString → StringMap
  | cookies, [] => cookies
  | cookies, pair :: rest =>
    let pair := TrimSpace pair
    match SplitN pair (ch '=') 2 with
    | [p0, p1] =>
      let name := TrimSpace p0
      let value := TrimSpace p1
      match QueryUnescape value with
      | none => parseAllPairs (cookies.set name value) rest
      | some decoded => parseAllPairs (cookies.set name decoded) rest
    | _ => parseAllPairs cookies rest

/-- ParseAllCookies parses all cookies from a Cookie header string. -/
def ParseAllCookies (cookieHeader : GoString) : StringMap :=
  if cookieHeader = [] then []
  else parseAllPairs [] (Split cookieHeader (ch ';'))

/-- HasCookie checks if a specific cookie exists in the Cookie header. -/
def HasCookie (cookieHeader name : GoString) : Bool :=
  (ParseCookieValue cookieHeader name).2

/-! ## router.go, continued -/

/-- Go's `<` on strings: byte-wise lexicographic order. -/
def strLess : GoString → GoString → Bool
  | [], [] => false
  | [], _ :: _ => true
  | _ :: _, [] => false
  | a :: as, b :: bs => if a < b then true else if b < a then false else strLess as bs

/-- Go's `<=` on strings. -/
def strLe (a b : GoString) : Bool := !strLess b a

/-- DetermineRoute is a convenience function for simple routing decisions. -/
def DetermineRoute (headers : StringMap) : GoString :=
  let userAgent := headers.get (str "User-Agent")
  let userAgent := if userAgent = [] then headers.get (str "user-agent") else userAgent
  let geoCountry := headers.get (str "X-Geo-Country")
  let geoCountry := if geoCountry = [] then headers.get (str "x-geo-country") else geoCountry
  let cookieHeader := headers.get (str "Cookie")
  let cookieHeader := if cookieHeader = [] then headers.get (str "cookie") else cookieHeader
  let betaTester := (ParseCookieValue cookieHeader (str "beta-tester")).1
  if Contains userAgent (str "iPhone") && decide (geoCountry = str "DE") &&
      decide (betaTester = str "true") then str "v2"
  else
    let requestHash := headers.get (str "X-Request-Hash")
    let requestHash :=
      if requestHash = [] then headers.get (str "x-request-hash") else requestHash
    if decide (requestHash.length = 1) && strLe (str "0") requestHash &&
        strLe requestHash (str "9") then str "v2"
    else str "v1"

/-! ## A fragment of package regexp

The patterns modelled here are sequences of `^`, `$`, literal letters, digits, `-`, `_`,
`/` and space, and bracketed classes of letters, digits and ranges of them.  Every such
pattern compiles; with the default flags `^` and `$` stand for the beginning and the end
of the text, and `MatchString` reports whether the pattern matches anywhere in the text. -/

/-- One item of a pattern of the fragment. -/
inductive ReItem where
  | bol
  | eol
  | set (ranges : List (Nat × Nat))
deriving DecidableEq, Repr

/-- An ASCII letter or digit. -/
def isAlnum (b : Nat) : Bool :=
  (ch '0' ≤ b && b ≤ ch '9') || (ch 'a' ≤ b && b ≤ ch 'z') || (ch 'A' ≤ b && b ≤ ch 'Z')

/-- A byte that stands for itself in a pattern of the fragment. -/
def isLiteral (b : Nat) : Bool :=
  isAlnum b || b = ch '-' || b = ch '_' || b = ch '/' || b = ch ' '

/-- The members of a bracketed class up to the closing bracket, and the rest of the
pattern; `none` when the class leaves the fragment. -/
def parseClass : GoString → Option (List (Nat × Nat) × GoString)
  | [] => none
  | [a] => if a = ch ']' then some ([], []) else none
  | [a, b] =>
    if a = ch ']' then some ([], [b])
    else if isAlnum a && b = ch ']' then some ([(a, a)], [])
    else none
  | a :: b :: c :: rest =>
    if a = ch ']' then some ([], b :: c :: rest)
    else if isAlnum a && b = ch '-' then
      if isAlnum c && a ≤ c then (parseClass rest).map (fun r => ((a, c) :: r.1, r.2))
      else none
    else if isAlnum a then (parseClass (b :: c :: rest)).map (fun r => ((a, a) :: r.1, r.2))
    else none

/-- The items of a pattern of the fragment; `none` when the pattern leaves the fragment. -/
def parsePattern : Nat → GoString → Option (List ReItem)
  | _, [] => some []
  | 0, _ :: _ => none
  | fuel + 1, c :: rest =>
    if c = ch '^' then (parsePattern fuel rest).map (fun is => ReItem.bol :: is)
    else if c = ch '$' then (parsePattern fuel rest).map (fun is => ReItem.eol :: is)
    else if c = ch '[' then
      match parseClass rest with
      | some (ranges, rest2) =>
        if ranges = [] then none
        else (parsePattern fuel rest2).map (fun is => ReItem.set ranges :: is)
      | none => none
    else if isLiteral c then
      (parsePattern fuel rest).map (fun is => ReItem.set [(c, c)] :: is)
    else none

/-- The byte lies in one of the ranges. -/
def inRanges (ranges : List (Nat × Nat)) (b : Nat) : Bool :=
  ranges.any (fun r => r.1 ≤ b && b ≤ r.2)

/-- The items match a leading part of `text`; `atStart` tells whether `text` is the whole
subject. -/
def matchHere : List ReItem → Bool → GoString → Bool
  | [], _, _ => true
  | ReItem.bol :: is, atStart, text => atStart && matchHere is atStart text
  | ReItem.eol :: is, atStart, text => text.isEmpty && matchHere is atStart text
  | ReItem.set _ :: _, _, [] => false
  | ReItem.set ranges :: is, _, c :: t => inRanges ranges c && matchHere is false t

/-- The items match at some position of `text`. -/
def searchFrom (items : List ReItem) : Bool → GoString → Bool
  | atStart, [] => matchHere items atStart []
  | atStart, c :: t => matchHere items atStart (c :: t) || searchFrom items false t

/-- Compile and `MatchString` for the patterns of the fragment; `none` for a pattern
outside the fragment, about which nothing is said. -/
def regexpFragment (pattern : GoString) : Option (GoString → Bool) :=
  (parsePattern pattern.length pattern).map (fun items text => searchFrom items true text)

/-- The library compiles the patterns of the fragment and matches them as modelled. -/
def AgreesWithFragment (L : Lib) : Prop :=
  ∀ pattern m, regexpFragment pattern = some m → L.regexpCompile pattern = some m

/-- A library instance for running examples whose patterns lie in the fragment. -/
def fragmentLib : Lib := { regexpCompile := regexpFragment, toLower := asciiToLower }

/-! ## Vocabulary for the later cookie claims -/

/-- The valid pairs of a Cookie header, in order: for every `;`-delimited pair that
contains `=`, its trimmed name and its trimmed raw value. -/
def cookieEntries (h : GoString) : List (GoString × GoString) :=
  (Split h (ch ';')).filterMap pairEntry

/-- The decoded form of a raw cookie value: its `url.QueryUnescape`, or the raw value
itself when that fails. -/
def decodeValue (raw : GoString) : GoString := (QueryUnescape raw).getD raw

/-- A condition on a query parameter. -/
def queryCond (key op value : String) : Condition :=
  { Type_ := str "query", Key := str key, Operator := str op, Value := str value }

/-- A request that consists of a path only. -/
def pathOnly (path : String) : StringMap := [(str ":path", str path)]

/-- The pattern of the canary rule: one decimal digit and nothing else. -/
def digitPattern : GoString := str "^[0-9]$"

/-- The header condition of `TestRouter_Evaluate_RegexOperator` on an arbitrary header. -/
def digitCond (key : GoString) : Condition :=
  { Type_ := str "header", Key := key, Operator := str "regex", Value := digitPattern }

/-- The items of `digitPattern`. -/
def digitItems : List ReItem := [ReItem.bol, ReItem.set [(ch '0', ch '9')], ReItem.eol]

/-- A header read under its canonical name and, when that is absent or empty, under its
lower-case name. -/
def readHeader (headers : StringMap) (canonical lower : GoString) : GoString :=
  if headers.get canonical = [] then headers.get lower else headers.get canonical

/-- The canonical names of the headers `DetermineRoute` reads. -/
def canonicalNames : List GoString :=
  [str "User-Agent", str "X-Geo-Country", str "Cookie", str "X-Request-Hash"]

/-- The same map with every key in lower case. -/
def lowerKeys (headers : StringMap) : StringMap :=
  headers.map (fun kv => (asciiToLower kv.1, kv.2))

/-- A rule like "high-priority" whose name is the empty string. -/
def ruleNameless : RoutingRule := { ruleHigh with Name := [] }

/-- A configuration whose only rule has no name. -/
def namelessConfig : PluginConfig :=
  { LogLevel := str "info", DefaultTarget := str "v1", Rules := [ruleNameless] }

/-- A rule on a header whose key is written in lower case. -/
def ruleMode : RoutingRule :=
  { Name := str "mode-a", Priority := 1,
    Conditions := [headerCond "x-mode" "equals" "a"],
    Target := str "v2", AddHeaders := [], RemoveHeaders := [] }

/-- A configuration with the rule `ruleMode`. -/
def modeConfig : PluginConfig :=
  { LogLevel := str "info", DefaultTarget := str "v1", Rules := [ruleMode] }

/-- A map holding two case variants of `x-mode`, neither in lower case, visited in one
order. -/
def modeHeaders1 : StringMap := [(str "X-Mode", str "a"), (str "X-MODE", str "b")]

/-- The same map visited in the other order. -/
def modeHeaders2 : StringMap := [(str "X-MODE", str "b"), (str "X-Mode", str "a")]

/-- The request of `TestRouter_Evaluate_Priority`, visited in the other order. -/
def priorityHeadersRev : StringMap :=
  [(str "X-Priority", str "high"), (str "User-Agent", str "Chrome/120.0")]

/-! ## Vocabulary for the last claims -/

/-- The condition types `evaluateCondition` knows. -/
def knownTypes : List GoString := [str "header", str "cookie", str "path", str "query"]

/-- The operators `matchValue` knows. -/
def knownOperators : List GoString :=
  [str "exists", str "equals", str "contains", str "prefix", str "suffix", str "regex"]

/-- A condition on the request path. -/
def pathCond (key op value : GoString) : Condition :=
  { Type_ := str "path", Key := key, Operator := op, Value := value }

/-- The beta-testers rule of the configuration that mirrors `DetermineRoute`; its name and
header changes are left open. -/
def betaRule (name : GoString) (add : StringMap) (remove : List GoString) : RoutingRule :=
  { Name := name, Priority := 1,
    Conditions :=
      [{ Type_ := str "header", Key := str "User-Agent", Operator := str "contains",
         Value := str "iPhone" },
       { Type_ := str "header", Key := str "X-Geo-Country", Operator := str "equals",
         Value := str "DE" },
       { Type_ := str "cookie", Key := str "beta-tester", Operator := str "equals",
         Value := str "true" }],
    Target := str "v2", AddHeaders := add, RemoveHeaders := remove }

/-- The canary rule of the configuration that mirrors `DetermineRoute`. -/
def canaryRule (name : GoString) (add : StringMap) (remove : List GoString) : RoutingRule :=
  { Name := name, Priority := 2,
    Conditions := [digitCond (str "X-Request-Hash")],
    Target := str "v2", AddHeaders := add, RemoveHeaders := remove }

/-- The configuration that mirrors `DetermineRoute`: default target "v1" and the two
rules. -/
def routeConfig (logLevel : GoString) (beta canary : RoutingRule) : PluginConfig :=
  { LogLevel := logLevel, DefaultTarget := str "v1", Rules := [beta, canary] }

/-- The request of `TestDetermineRoute_BetaTester`. -/
def betaTesterHeaders : StringMap :=
  [(str "User-Agent", str "Mozilla/5.0 (iPhone; CPU iPhone OS 17_0)"),
   (str "X-Geo-Country", str "DE"),
   (str "Cookie", str "session=abc123; beta-tester=true")]

/-- The request of `TestDetermineRoute_CanaryHash`. -/
def canaryHeaders : StringMap :=
  [(str "User-Agent", str "Chrome/120.0"), (str "X-Request-Hash", str "5")]

/-! ## Runs of the rule engine

`getHeader` holds the only `range` loop over the header map and `evaluateCondition` calls it
at most once, so one run of `Evaluate` draws at most one visiting order for each condition
it evaluates.  A lookup `headers[key]` does not depend on the order. -/

/-- The visiting orders of one run of `Evaluate`: `plan i j` lists the header map in the
order drawn while condition `j` of the rule at position `i` of the router's rule list is
evaluated. -/
abbrev VisitPlan := Nat → Nat → StringMap

/-- Every order of the plan is an order of the map `headers`. -/
def VisitPlan.Visits (plan : VisitPlan) (headers : StringMap) : Prop :=
  ∀ i j, (plan i j).Perm headers

/-- The loop of `evaluateRule` in a run that visits the map in the order `orders j` while it
evaluates the condition at position `j`. -/
def allConditionsRun (L : Lib) (orders : Nat → StringMap) : Nat → List Condition → Bool
  | _, [] => true
  | j, condition :: rest =>
    if !evaluateCondition L condition (orders j) then false
    else allConditionsRun L orders (j + 1) rest

/-- The method `evaluateRule` in a run with the visiting orders `orders`. -/
def evaluateRuleRun (L : Lib) (rule : RoutingRule) (orders : Nat → StringMap) : Bool :=
  if allConditionsRun L orders 0 rule.Conditions then decide (rule.Conditions.length > 0)
  else false

/-- The loop of `Evaluate` in a run with the visiting orders `plan`, from the rule at
position `i` on. -/
def firstMatchRun (L : Lib) (plan : VisitPlan) : Nat → List RoutingRule → Option RoutingDecision
  | _, [] => none
  | i, rule :: rest =>
    if evaluateRuleRun L rule (plan i) then some (ruleDecision rule)
    else firstMatchRun L plan (i + 1) rest

/-- The method `Evaluate` in a run with the visiting orders `plan`. -/
def EvaluateRun (L : Lib) (r : Router) (plan : VisitPlan) : RoutingDecision :=
  match firstMatchRun L plan 0 r.config.Rules with
  | some d => d
  | none => defaultDecision r.config.DefaultTarget

/-- The rule `ruleMode` under the name "first". -/
def twinFirst : RoutingRule := { ruleMode with Name := str "first" }

/-- A rule with the condition of `twinFirst` and the next priority. -/
def twinSecond : RoutingRule := { ruleMode with Name := str "second", Priority := 2 }

/-- Two rules with the same condition and different priorities. -/
def twinConfig : PluginConfig :=
  { LogLevel := str "info", DefaultTarget := str "v1", Rules := [twinFirst, twinSecond] }

/-- A run on the map of `modeHeaders1`: the lookup of the first rule meets `X-MODE` first,
the lookups of the later rules meet `X-Mode` first. -/
def twinPlan : VisitPlan := fun i _ => if i = 0 then modeHeaders2 else modeHeaders1

/-- A rule that asks the header `x-mode` to equal "a" and to equal "b". -/
def ruleBoth : RoutingRule :=
  { Name := str "both", Priority := 1,
    Conditions := [headerCond "x-mode" "equals" "a", headerCond "x-mode" "equals" "b"],
    Target := str "v2", AddHeaders := [], RemoveHeaders := [] }

/-- The rule `ruleBoth` with its conditions in the other order. -/
def ruleBothRev : RoutingRule :=
  { ruleBoth with
    Conditions := [headerCond "x-mode" "equals" "b", headerCond "x-mode" "equals" "a"] }

/-- A configuration with the rule `ruleBoth`. -/
def bothConfig : PluginConfig :=
  { LogLevel := str "info", DefaultTarget := str "v1", Rules := [ruleBoth] }

/-- A run on the map of `modeHeaders1`: the lookup of the first condition of a rule meets
`X-Mode` first, the lookups of its later conditions meet `X-MODE` first. -/
def splitPlan : VisitPlan := fun _ j => if j = 0 then modeHeaders1 else modeHeaders2

/-- A run on the request of `TestRouter_Evaluate_Priority`: the lookups of the first rule
visit the map in one order, those of the later rules in the other. -/
def samplePlan : VisitPlan := fun i _ => if i = 0 then priorityHeadersRev else priorityHeaders

/-- The rules of `TestRouter_Evaluate_Priority` and the rule "tie", which shares the
priority of "low-priority" and stands behind "high-priority". -/
def shadowedTieConfigA : PluginConfig :=
  { LogLevel := str "info", DefaultTarget := str "v1", Rules := [ruleLow, ruleTie, ruleHigh] }

/-- The rules of `shadowedTieConfigA` in another order. -/
def shadowedTieConfigB : PluginConfig :=
  { LogLevel := str "info", DefaultTarget := str "v1", Rules := [ruleTie, ruleHigh, ruleLow] }

/-- `sort.Slice` as embedded by `sortSlicePdq`; the slice stays as it is where that
embedding has no answer. -/
def goSortSlice : SliceSorter := fun less xs => (sortSlicePdq less xs).getD xs

/-- The rule number `i` of `thirteenConfig`, named "r" followed by two digits. -/
def numberedRule (i : Nat) (priority : Int) : RoutingRule :=
  { Name := [ch 'r', ch '0' + i / 10, ch '0' + i % 10], Priority := priority,
    Conditions := [headerCond "X-Priority" "equals" "high"],
    Target := str "v2", AddHeaders := [], RemoveHeaders := [] }

/-- Thirteen rules: twelve of priority 1, numbered 0 to 11, and then one of priority 0. -/
def thirteenConfig : PluginConfig :=
  { LogLevel := str "info", DefaultTarget := str "v1",
    Rules := (List.range 12).map (fun i => numberedRule i 1) ++ [numberedRule 12 0] }

/-- A rule with the conditions of "low-priority" and of "high-priority". -/
def rulePair : RoutingRule :=
  { ruleLow with
    Name := str "pair",
    Conditions := [headerCond "User-Agent" "contains" "Chrome",
                   headerCond "X-Priority" "equals" "high"] }

/-- The rule `rulePair` with its conditions in the other order. -/
def rulePairRev : RoutingRule :=
  { rulePair with
    Conditions := [headerCond "X-Priority" "equals" "high",
                   headerCond "User-Agent" "contains" "Chrome"] }

/-- The run in which every lookup visits the map in the order of the list `headers`. -/
def steadyPlan (headers : StringMap) : VisitPlan := fun _ _ => headers

/-! # Theorems -/

/-! ## Rules and the first match -/

theorem allConditions_iff (L : Lib) (headers : StringMap) (conds : List Condition) :
    allConditions L headers conds = true ↔ ∀ c ∈ conds, evaluateCondition L c headers = true := by
  induction conds with
  | nil => simp [allConditions]
  | cons c cs ih =>
    cases hc : evaluateCondition L c headers <;> simp [allConditions, hc, ih]

theorem evaluateRule_iff (L : Lib) (headers : StringMap) (rule : RoutingRule) :
    evaluateRule L rule headers = true ↔ Matches L headers rule := by
  unfold evaluateRule Matches
  rw [← allConditions_iff]
  cases allConditions L headers rule.Conditions <;> simp [List.length_pos]

theorem evaluateRule_false_iff (L : Lib) (headers : StringMap) (rule : RoutingRule) :
    evaluateRule L rule headers = false ↔ ¬ Matches L headers rule := by
  rw [← evaluateRule_iff]; simp

theorem firstMatch_none_iff (L : Lib) (headers : StringMap) (rules : List RoutingRule) :
    firstMatch L headers rules = none ↔ ∀ r ∈ rules, ¬ Matches L headers r := by
  induction rules with
  | nil => simp [firstMatch]
  | cons r rs ih =>
    cases hr : evaluateRule L r headers
    · have := (evaluateRule_false_iff L headers r).1 hr
      simp [firstMatch, hr, ih, this]
    · have := (evaluateRule_iff L headers r).1 hr
      simp [firstMatch, hr, this]

theorem firstMatch_split (L : Lib) (headers : StringMap) (rules : List RoutingRule)
    (d : RoutingDecision) (h : firstMatch L headers rules = some d) :
    ∃ pre rule post, rules = pre ++ rule :: post ∧ (∀ x ∈ pre, ¬ Matches L headers x) ∧
      Matches L headers rule ∧ d = ruleDecision rule := by
  induction rules with
  | nil => simp [firstMatch] at h
  | cons r rs ih =>
    cases hr : evaluateRule L r headers
    · simp only [firstMatch, hr, Bool.false_eq_true, if_false] at h
      obtain ⟨pre, rule, post, hsplit, hpre, hrule, hd⟩ := ih h
      refine ⟨r :: pre, rule, post, by simp [hsplit], ?_, hrule, hd⟩
      intro x hx
      rcases List.mem_cons.1 hx with rfl | hx
      · exact (evaluateRule_false_iff L headers x).1 hr
      · exact hpre x hx
    · simp only [firstMatch, hr, if_true, Option.some.injEq] at h
      exact ⟨[], r, rs, rfl, by simp, (evaluateRule_iff L headers r).1 hr, h.symm⟩

theorem firstMatch_isSome (L : Lib) (headers : StringMap) (rules : List RoutingRule)
    (h : ∃ r ∈ rules, Matches L headers r) : ∃ d, firstMatch L headers rules = some d := by
  cases hf : firstMatch L headers rules with
  | some d => exact ⟨d, rfl⟩
  | none =>
    obtain ⟨r, hr, hm⟩ := h
    exact absurd hm ((firstMatch_none_iff L headers rules).1 hf r hr)

/-! ## Sorting -/

theorem lessPriority_strictWeak : StrictWeakOrder lessPriority := by
  refine ⟨?_, ?_, ?_⟩
  · intro a b h
    simp only [lessPriority, decide_eq_true_eq, decide_eq_false_iff_not, not_lt] at *
    omega
  · intro a b c h1 h2
    simp only [lessPriority, decide_eq_true_eq] at *
    omega
  · intro a b c h1 h2
    simp only [lessPriority, decide_eq_false_iff_not, not_lt] at *
    omega

theorem siftLeft_perm {α : Type} (less : α → α → Bool) (x : α) (acc : List α) :
    (siftLeft less x acc).Perm (x :: acc) := by
  induction acc with
  | nil => simp [siftLeft]
  | cons p before ih =>
    by_cases h : less x p = true
    · simp only [siftLeft, h, if_true]
      exact (List.Perm.cons p ih).trans (List.Perm.swap x p before)
    · simp [siftLeft, h]

theorem insertionLoop_perm {α : Type} (less : α → α → Bool) (xs acc : List α) :
    (insertionLoop less acc xs).Perm (acc ++ xs) := by
  induction xs generalizing acc with
  | nil => simp [insertionLoop]
  | cons x rest ih =>
    simp only [insertionLoop]
    refine (ih _).trans ?_
    refine (List.Perm.append_right rest (siftLeft_perm less x acc)).trans ?_
    exact List.perm_middle.symm

theorem siftLeft_sorted {α : Type} (less : α → α → Bool) (hless : StrictWeakOrder less)
    (x : α) (acc : List α) (h : acc.Pairwise (fun a b => less a b = false)) :
    (siftLeft less x acc).Pairwise (fun a b => less a b = false) := by
  induction acc with
  | nil => simp [siftLeft]
  | cons p before ih =>
    rw [List.pairwise_cons] at h
    by_cases hx : less x p = true
    · simp only [siftLeft, hx, if_true]
      rw [List.pairwise_cons]
      refine ⟨?_, ih h.2⟩
      intro b hb
      rcases List.mem_cons.1 ((siftLeft_perm less x before).mem_iff.1 hb) with rfl | hb
      · exact hless.1 _ _ hx
      · exact h.1 b hb
    · have hx2 : less x p = false := by simpa using hx
      simp only [siftLeft, hx2, Bool.false_eq_true, if_false]
      rw [List.pairwise_cons, List.pairwise_cons]
      refine ⟨?_, h.1, h.2⟩
      intro b hb
      rcases List.mem_cons.1 hb with rfl | hb
      · exact hx2
      · exact hless.2.2 _ _ _ hx2 (h.1 b hb)

theorem insertionLoop_sorted {α : Type} (less : α → α → Bool) (hless : StrictWeakOrder less)
    (xs acc : List α) (h : acc.Pairwise (fun a b => less a b = false)) :
    (insertionLoop less acc xs).Pairwise (fun a b => less b a = false) := by
  induction xs generalizing acc with
  | nil => simpa [insertionLoop, List.pairwise_reverse] using h
  | cons x rest ih =>
    simp only [insertionLoop]
    exact ih _ (siftLeft_sorted less hless x acc h)

theorem insertionSort_spec : SortSliceSpec insertionSort_func := by
  intro less hless xs
  refine ⟨?_, ?_⟩
  · simpa [insertionSort_func] using insertionLoop_perm less xs []
  · exact insertionLoop_sorted less hless xs [] List.Pairwise.nil

theorem siftLeft_filter {α : Type} (less : α → α → Bool) (q : α → Bool)
    (hq : ∀ a b, q a = true → q b = true → less a b = false) (x : α) (acc : List α) :
    (siftLeft less x acc).filter q = (x :: acc).filter q := by
  induction acc with
  | nil => simp [siftLeft]
  | cons p before ih =>
    by_cases hx : less x p = true
    · simp only [siftLeft, hx, if_true]
      by_cases hqx : q x = true
      · have hqp : q p = false := by
          cases hp : q p
          · rfl
          · rw [hq x p hqx hp] at hx; exact absurd hx (by simp)
        simp [List.filter_cons, hqp, ih]
      · have hqx2 : q x = false := by simpa using hqx
        simp [List.filter_cons, hqx2, ih]
    · simp [siftLeft, hx]

theorem insertionLoop_filter {α : Type} (less : α → α → Bool) (q : α → Bool)
    (hq : ∀ a b, q a = true → q b = true → less a b = false) (xs acc : List α) :
    (insertionLoop less acc xs).filter q = (acc.reverse ++ xs).filter q := by
  induction xs generalizing acc with
  | nil => simp [insertionLoop]
  | cons x rest ih =>
    simp only [insertionLoop]
    rw [ih, List.filter_append, List.filter_reverse, siftLeft_filter less q hq]
    simp [List.filter_cons]
    split <;> simp

/-- Insertion sort is stable: elements none of which is less than another keep their
order. -/
theorem insertionSort_stable {α : Type} (less : α → α → Bool) (q : α → Bool)
    (hq : ∀ a b, q a = true → q b = true → less a b = false) (xs : List α) :
    (insertionSort_func less xs).filter q = xs.filter q := by
  simpa [insertionSort_func] using insertionLoop_filter less q hq xs []

theorem newRouter_rules_spec (sortSlice : SliceSorter) (hspec : SortSliceSpec sortSlice)
    (config : PluginConfig) :
    (NewRouter sortSlice config).config.Rules.Perm config.Rules ∧
    (NewRouter sortSlice config).config.Rules.Pairwise (fun a b => a.Priority ≤ b.Priority) := by
  obtain ⟨hp, hs⟩ := hspec lessPriority lessPriority_strictWeak config.Rules
  refine ⟨hp, hs.imp ?_⟩
  intro a b h
  simpa [lessPriority] using h

/-- The decision of a router with at least one matching rule comes from a matching rule of
least priority. -/
theorem evaluate_least (L : Lib) (sortSlice : SliceSorter) (hspec : SortSliceSpec sortSlice)
    (config : PluginConfig) (headers : StringMap)
    (h : ∃ rule ∈ config.Rules, Matches L headers rule) :
    ∃ w ∈ config.Rules, Matches L headers w ∧
      Evaluate L (NewRouter sortSlice config) headers = ruleDecision w ∧
      ∀ r ∈ config.Rules, Matches L headers r → w.Priority ≤ r.Priority := by
  obtain ⟨hperm, hsorted⟩ := newRouter_rules_spec sortSlice hspec config
  have h2 : ∃ r ∈ (NewRouter sortSlice config).config.Rules, Matches L headers r := by
    obtain ⟨r, hr, hm⟩ := h
    exact ⟨r, hperm.mem_iff.2 hr, hm⟩
  obtain ⟨d, hd⟩ := firstMatch_isSome L headers _ h2
  obtain ⟨pre, w, post, hsplit, hpre, hw, hdw⟩ := firstMatch_split L headers _ d hd
  refine ⟨w, hperm.mem_iff.1 (by rw [hsplit]; simp), hw, ?_, ?_⟩
  · simp [Evaluate, hd, hdw]
  · intro r hr hm
    have hr2 := hperm.mem_iff.2 hr
    rw [hsplit] at hr2 hsorted
    rcases List.mem_append.1 hr2 with hr3 | hr3
    · exact absurd hm (hpre r hr3)
    · rcases List.mem_cons.1 hr3 with rfl | hr4
      · exact le_refl _
      · exact (List.pairwise_cons.1 (List.pairwise_append.1 hsorted).2.1).1 r hr4

theorem matches_ruleLow : Matches exampleLib priorityHeaders ruleLow :=
  (evaluateRule_iff exampleLib priorityHeaders ruleLow).1 (by decide)

theorem matches_ruleHigh : Matches exampleLib priorityHeaders ruleHigh :=
  (evaluateRule_iff exampleLib priorityHeaders ruleHigh).1 (by decide)

theorem matches_ruleTie : Matches exampleLib priorityHeaders ruleTie :=
  (evaluateRule_iff exampleLib priorityHeaders ruleTie).1 (by decide)

/-- A router none of whose configured rules matches returns the default decision. -/
theorem evaluate_default (L : Lib) (sortSlice : SliceSorter) (hspec : SortSliceSpec sortSlice)
    (config : PluginConfig) (headers : StringMap)
    (h : ∀ rule ∈ config.Rules, ¬ Matches L headers rule) :
    Evaluate L (NewRouter sortSlice config) headers = defaultDecision config.DefaultTarget := by
  obtain ⟨hperm, -⟩ := newRouter_rules_spec sortSlice hspec config
  have hnone : firstMatch L headers (NewRouter sortSlice config).config.Rules = none :=
    (firstMatch_none_iff L headers _).2 (fun r hr => h r (hperm.mem_iff.1 hr))
  unfold Evaluate
  rw [hnone]
  rfl

theorem insertionSort_stableSorter : StableSorter insertionSort_func :=
  fun less q hq xs => insertionSort_stable less q hq xs

theorem getElem?_mid {α : Type} (p : List α) (y x : α) (t : List α) :
    (p ++ y :: x :: t)[p.length]? = some y ∧ (p ++ y :: x :: t)[p.length + 1]? = some x := by
  constructor
  · rw [List.getElem?_append_right (le_refl _)]
    simp
  · rw [List.getElem?_append_right (by omega)]
    simp

theorem swapAt_mid {α : Type} (p : List α) (y x : α) (t : List α) :
    swapAt (p ++ y :: x :: t) (p.length + 1) p.length = p ++ x :: y :: t := by
  obtain ⟨h1, h2⟩ := getElem?_mid p y x t
  unfold swapAt
  rw [h1, h2]
  simp only
  rw [List.set_append_right _ _ (by omega), List.set_append_right _ _ (by omega)]
  simp

theorem lessAt_mid {α : Type} (less : α → α → Bool) (p : List α) (y x : α) (t : List α) :
    lessAt less (p ++ y :: x :: t) (p.length + 1) p.length = less x y := by
  obtain ⟨h1, h2⟩ := getElem?_mid p y x t
  unfold lessAt
  rw [h1, h2]

theorem insertionInner_eq {α : Type} (less : α → α → Bool) (p : List α) (x : α) (t : List α) :
    insertionInner less 0 p.length (p ++ x :: t) = (siftLeft less x p.reverse).reverse ++ t := by
  induction p using List.reverseRecOn generalizing t with
  | nil => simp [insertionInner, siftLeft]
  | append_singleton p y ih =>
    have hlen : (p ++ [y]).length = p.length + 1 := by simp
    have hdata : p ++ [y] ++ x :: t = p ++ y :: x :: t := by simp
    rw [hlen, hdata, insertionInner, lessAt_mid, swapAt_mid, List.reverse_append]
    by_cases hx : less x y = true
    · simp [hx, siftLeft, ih]
    · simp [hx, siftLeft]

theorem siftLeft_length {α : Type} (less : α → α → Bool) (x : α) (l : List α) :
    (siftLeft less x l).length = l.length + 1 := by
  induction l with
  | nil => rfl
  | cons p before ih => unfold siftLeft; split <;> simp [ih]

theorem insertionOuter_eq {α : Type} (less : α → α → Bool) (fuel : Nat) (s rest : List α)
    (hfuel : rest.length ≤ fuel) :
    insertionOuter less 0 (s ++ rest).length fuel s.length (s ++ rest) =
      insertionLoop less s.reverse rest := by
  induction fuel generalizing s rest with
  | zero =>
    have : rest = [] := List.length_eq_zero.1 (by omega)
    subst this
    simp [insertionOuter, insertionLoop]
  | succ fuel ih =>
    cases rest with
    | nil => simp [insertionOuter, insertionLoop]
    | cons x rest =>
      have hlt : s.length < (s ++ x :: rest).length := by simp
      rw [insertionOuter, if_pos hlt, insertionInner_eq, insertionLoop]
      have h2 := ih (siftLeft less x s.reverse).reverse rest (by simpa using hfuel)
      simp only [List.length_append, List.length_reverse, siftLeft_length, List.length_cons,
        List.reverse_reverse] at h2 ⊢
      rw [← h2]
      congr 1
      omega

/-- On a whole slice the insertion sort on the array is the insertion sort on the list. -/
theorem insertionSortRange_eq {α : Type} (less : α → α → Bool) (xs : List α) :
    insertionSortRange less xs 0 xs.length = insertionSort_func less xs := by
  cases xs with
  | nil => rfl
  | cons x rest =>
    have h := insertionOuter_eq less (x :: rest).length [x] rest (by simp)
    simpa [insertionSortRange, insertionSort_func, insertionLoop, siftLeft] using h

/-- On a slice of at most twelve elements `sort.Slice` is the insertion sort. -/
theorem sortSlicePdq_short {α : Type} (less : α → α → Bool) (xs : List α)
    (hlen : xs.length ≤ 12) : sortSlicePdq less xs = some (insertionSort_func less xs) := by
  have h50 : xs.length < 50 := by omega
  unfold sortSlicePdq
  rw [if_pos h50, pdqsort_func]
  simp only [Nat.sub_zero, if_pos hlen, insertionSortRange_eq]

theorem goSortSlice_short (less : RoutingRule → RoutingRule → Bool) (xs : List RoutingRule)
    (hlen : xs.length ≤ 12) : goSortSlice less xs = insertionSort_func less xs := by
  unfold goSortSlice
  rw [sortSlicePdq_short less xs hlen]
  rfl

theorem heap_read_append_lt (h : Heap) (x : List RoutingRule) (addr : Nat)
    (hlt : addr < h.length) : Heap.read (h ++ [x]) addr = Heap.read h addr := by
  simp [Heap.read, List.getD_eq_getElem?_getD, List.getElem?_append_left hlt]

theorem heap_read_last (h : Heap) (x : List RoutingRule) :
    Heap.read (h ++ [x]) h.length = x := by
  simp [Heap.read, List.getD_eq_getElem?_getD]

theorem heap_set_last (h : Heap) (x y : List RoutingRule) :
    (h ++ [x]).set h.length y = h ++ [y] := by
  induction h with
  | nil => rfl
  | cons a t ih => simp [ih]

theorem copySlice_fresh (xs : List RoutingRule) :
    copySlice (List.replicate xs.length RoutingRule.zero) xs = xs := by
  simp [copySlice]

/-! ## The routing contract -/

/-- C5, as stated, fails: on thirteen rules, twelve of priority 1 and then one of priority
0, `sort.Slice` leaves rule 6 before rule 0, two rules of equal priority that entered in the
other order. -/
theorem C5_sort_slice_is_not_stable :
    (numberedRule 0 1).Priority = (numberedRule 6 1).Priority ∧
    [numberedRule 0 1, numberedRule 6 1].Sublist thirteenConfig.Rules ∧
    (sortSlicePdq lessPriority thirteenConfig.Rules).isSome = true ∧
    ¬ [numberedRule 0 1, numberedRule 6 1].Sublist
        (NewRouter goSortSlice thirteenConfig).config.Rules ∧
    [numberedRule 6 1, numberedRule 0 1].Sublist
      (NewRouter goSortSlice thirteenConfig).config.Rules := by
  decide

/-- Under a stable sorting routine two rules of equal priority keep their input order in
the router's rule list. -/
theorem newRouter_keeps_ties (sortSlice : SliceSorter) (hstable : StableSorter sortSlice)
    (config : PluginConfig) (a b : RoutingRule) (heq : a.Priority = b.Priority)
    (hsub : [a, b].Sublist config.Rules) :
    [a, b].Sublist (NewRouter sortSlice config).config.Rules := by
  have hq : ∀ x y : RoutingRule, decide (x.Priority = a.Priority) = true →
      decide (y.Priority = a.Priority) = true → lessPriority x y = false := by
    intro x y hx hy
    simp only [decide_eq_true_eq] at hx hy
    simp [lessPriority, hx, hy]
  have hf := hstable lessPriority (fun r => decide (r.Priority = a.Priority)) hq config.Rules
  have h1 : ([a, b].filter (fun r => decide (r.Priority = a.Priority))).Sublist
      (config.Rules.filter (fun r => decide (r.Priority = a.Priority))) := hsub.filter _
  have h2 : [a, b].filter (fun r => decide (r.Priority = a.Priority)) = [a, b] := by
    simp [List.filter_cons, heq]
  rw [h2, ← hf] at h1
  exact h1.trans (List.filter_sublist _)

/-- C5, amended: in the router's rule list a rule of strictly lower priority stands before
every rule of higher priority and never after it; two rules of equal priority keep their
input order when the sorting routine is stable, and under `sort.Slice` when the config has
at most twelve rules. -/
theorem C5_priority_order (sortSlice : SliceSorter) (hspec : SortSliceSpec sortSlice)
    (config : PluginConfig) (a b : RoutingRule) (ha : a ∈ config.Rules)
    (hb : b ∈ config.Rules) :
    (a.Priority < b.Priority →
      [a, b].Sublist (NewRouter sortSlice config).config.Rules ∧
      ¬ [b, a].Sublist (NewRouter sortSlice config).config.Rules) ∧
    (StableSorter sortSlice → a.Priority = b.Priority → [a, b].Sublist config.Rules →
      [a, b].Sublist (NewRouter sortSlice config).config.Rules) ∧
    (config.Rules.length ≤ 12 → a.Priority = b.Priority → [a, b].Sublist config.Rules →
      [a, b].Sublist (NewRouter goSortSlice config).config.Rules) := by
  obtain ⟨hperm, hsorted⟩ := newRouter_rules_spec sortSlice hspec config
  refine ⟨?_, ?_, ?_⟩
  · intro hlt
    refine ⟨?_, ?_⟩
    · obtain ⟨l1, l2, hsplit⟩ := List.append_of_mem (hperm.mem_iff.2 ha)
      have hb2 := hperm.mem_iff.2 hb
      rw [hsplit] at hb2 hsorted ⊢
      have hs := List.pairwise_append.1 hsorted
      rcases List.mem_append.1 hb2 with hb3 | hb3
      · have := hs.2.2 b hb3 a (List.mem_cons_self _ _)
        omega
      · rcases List.mem_cons.1 hb3 with rfl | hb4
        · omega
        · exact ((List.Sublist.cons₂ a (List.singleton_sublist.2 hb4))).trans
            (List.sublist_append_right l1 (a :: l2))
    · intro hsub
      have := hsorted.sublist hsub
      simp only [List.pairwise_cons, List.mem_singleton, forall_eq] at this
      omega
  · intro hstable heq hsub
    exact newRouter_keeps_ties sortSlice hstable config a b heq hsub
  · intro hlen heq hsub
    have hgo : NewRouter goSortSlice config = NewRouter insertionSort_func config := by
      simp only [NewRouter, goSortSlice_short lessPriority config.Rules hlen]
    rw [hgo]
    exact newRouter_keeps_ties insertionSort_func insertionSort_stableSorter config a b heq hsub

/-- C5 amended: at `TestRouter_Evaluate_Priority` the rule of priority 1 comes to stand
before the rule of priority 10, and the two rules of `tieConfigA`, equal in priority, keep
their input order, under insertion sort and under `sort.Slice`. -/
theorem C5_priority_order_witness :
    (ruleHigh ∈ priorityConfig.Rules ∧ ruleLow ∈ priorityConfig.Rules ∧
      ruleHigh.Priority < ruleLow.Priority) ∧
    ([ruleHigh, ruleLow].Sublist (NewRouter insertionSort_func priorityConfig).config.Rules ∧
      ¬ [ruleLow, ruleHigh].Sublist (NewRouter insertionSort_func priorityConfig).config.Rules) ∧
    (ruleLow ∈ tieConfigA.Rules ∧ ruleTie ∈ tieConfigA.Rules ∧
      StableSorter insertionSort_func ∧ tieConfigA.Rules.length ≤ 12 ∧
      ruleLow.Priority = ruleTie.Priority ∧ [ruleLow, ruleTie].Sublist tieConfigA.Rules) ∧
    [ruleLow, ruleTie].Sublist (NewRouter insertionSort_func tieConfigA).config.Rules ∧
    [ruleLow, ruleTie].Sublist (NewRouter goSortSlice tieConfigA).config.Rules :=
  ⟨⟨by decide, by decide, by decide⟩,
   (C5_priority_order insertionSort_func insertionSort_spec priorityConfig ruleHigh ruleLow
     (by decide) (by decide)).1 (by decide),
   ⟨by decide, by decide, insertionSort_stableSorter, by decide, rfl, List.Sublist.refl _⟩,
   (C5_priority_order insertionSort_func insertionSort_spec tieConfigA ruleLow ruleTie
     (by decide) (by decide)).2.1 insertionSort_stableSorter rfl (List.Sublist.refl _),
   (C5_priority_order insertionSort_func insertionSort_spec tieConfigA ruleLow ruleTie
     (by decide) (by decide)).2.2 (by decide) rfl (List.Sublist.refl _)⟩

/-- C6: the rule list of the router built by `NewRouter` is a permutation of the config's
rules in non-decreasing priority, held in a fresh backing array; the default target and log
level are the config's; the caller's rule sequence, like every array that existed before the
call, is unchanged. -/
theorem C6_newRouter_sorts_a_copy (sortSlice : SliceSorter) (hspec : SortSliceSpec sortSlice)
    (h : Heap) (config : PluginConfigRef) (hvalid : config.Rules < h.length) :
    (NewRouterHeap sortSlice h config).2.deref (NewRouterHeap sortSlice h config).1 =
      (NewRouter sortSlice (config.deref h)).config ∧
    ((NewRouterHeap sortSlice h config).2.deref (NewRouterHeap sortSlice h config).1).Rules.Perm
      (config.deref h).Rules ∧
    ((NewRouterHeap sortSlice h config).2.deref
      (NewRouterHeap sortSlice h config).1).Rules.Pairwise
      (fun a b => a.Priority ≤ b.Priority) ∧
    (NewRouterHeap sortSlice h config).2.DefaultTarget = config.DefaultTarget ∧
    (NewRouterHeap sortSlice h config).2.LogLevel = config.LogLevel ∧
    config.deref (NewRouterHeap sortSlice h config).1 = config.deref h ∧
    ∀ addr, addr < h.length → Heap.read (NewRouterHeap sortSlice h config).1 addr = h.read addr := by
  have hheap : (NewRouterHeap sortSlice h config).1 =
      h ++ [sortSlice lessPriority (h.read config.Rules)] := by
    simp only [NewRouterHeap]
    rw [heap_set_last, heap_read_last, heap_read_last, heap_read_append_lt h _ _ hvalid,
      copySlice_fresh, heap_set_last]
  have hcfg : (NewRouterHeap sortSlice h config).2 = { config with Rules := h.length } := rfl
  have hderef : (NewRouterHeap sortSlice h config).2.deref (NewRouterHeap sortSlice h config).1 =
      (NewRouter sortSlice (config.deref h)).config := by
    rw [hheap, hcfg]
    simp [PluginConfigRef.deref, NewRouter, heap_read_last]
  obtain ⟨hperm, hsorted⟩ := newRouter_rules_spec sortSlice hspec (config.deref h)
  refine ⟨hderef, ?_, ?_, rfl, rfl, ?_, ?_⟩
  · rw [hderef]; exact hperm
  · rw [hderef]; exact hsorted
  · rw [hheap]
    simp [PluginConfigRef.deref, heap_read_append_lt h _ _ hvalid]
  · intro addr hlt
    rw [hheap]
    exact heap_read_append_lt h _ _ hlt

/-- C6 at `TestRouter_Evaluate_Priority`: the router holds the two rules sorted, the
caller's array still holds them in input order. -/
theorem C6_newRouter_sorts_a_copy_witness :
    priorityConfigRef.Rules < priorityHeap.length ∧
    (NewRouterHeap insertionSort_func priorityHeap priorityConfigRef).1 =
      [[ruleLow, ruleHigh], [ruleHigh, ruleLow]] ∧
    ((NewRouterHeap insertionSort_func priorityHeap priorityConfigRef).2.deref
      (NewRouterHeap insertionSort_func priorityHeap priorityConfigRef).1).Rules.Perm
      (priorityConfigRef.deref priorityHeap).Rules ∧
    priorityConfigRef.deref (NewRouterHeap insertionSort_func priorityHeap priorityConfigRef).1 =
      priorityConfigRef.deref priorityHeap :=
  have hthm := C6_newRouter_sorts_a_copy insertionSort_func insertionSort_spec priorityHeap
    priorityConfigRef (by decide)
  ⟨by decide, by decide, hthm.2.1, hthm.2.2.2.2.2.1⟩

/-! ## Trimming -/

theorem spaceEncodings_good : GoodTable spaceEncodings := by
  unfold GoodTable
  decide

theorem spaceEncodings_rev_good : GoodTable (spaceEncodings.map List.reverse) := by
  unfold GoodTable
  decide

theorem stripOne_none_iff (T : List GoString) (s : GoString) :
    stripOne T s = none ↔ ∀ e ∈ T, ¬ e <+: s := by
  simp [stripOne, List.find?_eq_none]

theorem stripOne_some (T : List GoString) (s t : GoString) (h : stripOne T s = some t) :
    ∃ e ∈ T, s = e ++ t := by
  unfold stripOne at h
  cases hf : T.find? (fun e => e.isPrefixOf s) with
  | none => simp [hf] at h
  | some e =>
    simp only [hf, Option.map_some', Option.some.injEq] at h
    have hp : e <+: s := by
      have := List.find?_some hf
      simpa using this
    obtain ⟨r, hr⟩ := hp
    refine ⟨e, List.mem_of_find?_eq_some hf, ?_⟩
    rw [← h, ← hr]
    simp

theorem stripOne_entry (T : List GoString) (hT : GoodTable T) (e s : GoString) (he : e ∈ T) :
    stripOne T (e ++ s) = some s := by
  cases hs : stripOne T (e ++ s) with
  | none =>
    exact absurd (List.prefix_append e s) ((stripOne_none_iff T _).1 hs e he)
  | some t =>
    obtain ⟨f, hf, hft⟩ := stripOne_some T _ t hs
    have hcmp : f <+: e ∨ e <+: f :=
      List.prefix_or_prefix_of_prefix (hft ▸ List.prefix_append f t) (List.prefix_append e s)
    have hfe : f = e := by
      rcases hcmp with h1 | h1
      · exact hT.2.1 f hf e he h1
      · exact (hT.2.1 e he f hf h1).symm
    subst hfe
    rw [List.append_cancel_left hft]

theorem trimAux_fuel (T : List GoString) (hT : GoodTable T) (n m : Nat) (s : GoString)
    (hn : s.length ≤ n) (hm : s.length ≤ m) : trimAux T n s = trimAux T m s := by
  induction n generalizing m s with
  | zero =>
    have hs : s = [] := List.length_eq_zero.1 (Nat.le_zero.1 hn)
    subst hs
    cases m with
    | zero => rfl
    | succ m =>
      have : stripOne T [] = none := by
        rw [stripOne_none_iff]
        intro e he hp
        exact hT.1 (List.prefix_nil.1 hp ▸ he)
      simp [trimAux, this]
  | succ n ih =>
    cases m with
    | zero =>
      have hs : s = [] := List.length_eq_zero.1 (Nat.le_zero.1 hm)
      subst hs
      have : stripOne T [] = none := by
        rw [stripOne_none_iff]
        intro e he hp
        exact hT.1 (List.prefix_nil.1 hp ▸ he)
      simp [trimAux, this]
    | succ m =>
      cases hs : stripOne T s with
      | none => simp [trimAux, hs]
      | some t =>
        obtain ⟨e, he, hst⟩ := stripOne_some T s t hs
        have hne : e ≠ [] := fun h0 => hT.1 (h0 ▸ he)
        have hlen : t.length < s.length := by
          rw [hst, List.length_append]
          have := List.length_pos.2 hne
          omega
        simp only [trimAux, hs]
        exact ih m t (by omega) (by omega)

theorem trimTable_of_none (T : List GoString) (s : GoString) (h : stripOne T s = none) :
    trimTable T s = s := by
  unfold trimTable
  cases hl : s.length with
  | zero => rfl
  | succ n => simp [trimAux, h]

theorem trimTable_entry (T : List GoString) (hT : GoodTable T) (e s : GoString) (he : e ∈ T) :
    trimTable T (e ++ s) = trimTable T s := by
  have hne : e ≠ [] := fun h0 => hT.1 (h0 ▸ he)
  have hpos := List.length_pos.2 hne
  unfold trimTable
  have hl : (e ++ s).length = (e.length + s.length - 1) + 1 := by
    rw [List.length_append]; omega
  rw [hl]
  simp only [trimAux, stripOne_entry T hT e s he]
  exact trimAux_fuel T hT _ _ s (by omega) (le_refl _)

theorem trimTable_run (T : List GoString) (hT : GoodTable T) (w s : GoString) (hw : Run T w) :
    trimTable T (w ++ s) = trimTable T s := by
  induction hw with
  | nil => rfl
  | cons e w he _ ih => rw [List.append_assoc, trimTable_entry T hT e _ he, ih]

theorem run_append (T : List GoString) (a b : GoString) (ha : Run T a) (hb : Run T b) :
    Run T (a ++ b) := by
  induction ha with
  | nil => simpa using hb
  | cons e w he _ ih => rw [List.append_assoc]; exact Run.cons e _ he ih

theorem trimTable_decomp (T : List GoString) (hT : GoodTable T) (s : GoString) :
    ∃ w, Run T w ∧ s = w ++ trimTable T s ∧ stripOne T (trimTable T s) = none := by
  generalize hlen : s.length = n
  induction n using Nat.strong_induction_on generalizing s with
  | _ n ih =>
    cases hs : stripOne T s with
    | none =>
      refine ⟨[], Run.nil, ?_, ?_⟩
      · simp [trimTable_of_none T s hs]
      · rw [trimTable_of_none T s hs]; exact hs
    | some t =>
      obtain ⟨e, he, hst⟩ := stripOne_some T s t hs
      have hne : e ≠ [] := fun h0 => hT.1 (h0 ▸ he)
      have hlt : t.length < n := by
        rw [← hlen, hst, List.length_append]
        have := List.length_pos.2 hne
        omega
      obtain ⟨w, hw, hdec, htight⟩ := ih t.length hlt t rfl
      have htrim : trimTable T s = trimTable T t := by
        rw [hst, trimTable_entry T hT e t he]
      refine ⟨e ++ w, Run.cons e w he hw, ?_, ?_⟩
      · rw [htrim, List.append_assoc, ← hdec, hst]
      · rw [htrim]; exact htight

theorem stripOne_append_none (T : List GoString) (s t : GoString) (hs : stripOne T s = none)
    (hne : s ≠ []) (ht : NoJoin T t) : stripOne T (s ++ t) = none := by
  rw [stripOne_none_iff] at hs ⊢
  intro e he hp
  by_cases hle : e.length ≤ s.length
  · exact hs e he (List.prefix_of_prefix_length_le hp (List.prefix_append s t) hle)
  · have hse : s <+: e :=
      List.prefix_of_prefix_length_le (List.prefix_append s t) hp (by omega)
    obtain ⟨u, hu⟩ := hse
    have hut : u <+: t := by
      rw [← hu] at hp
      exact (List.prefix_append_right_inj s).1 hp
    have hdrop : e.drop s.length = u := by rw [← hu]; simp
    refine ht e he s.length (by omega) (List.length_pos.2 hne) ?_
    rw [hdrop]; exact hut

theorem noJoin_nil (T : List GoString) : NoJoin T [] := by
  intro e _ k hk _ hp
  have := List.prefix_nil.1 hp
  have hl : (e.drop k).length = 0 := by rw [this]; rfl
  rw [List.length_drop] at hl
  omega

theorem noJoin_entry (T : List GoString) (hT : GoodTable T) (f t : GoString) (hf : f ∈ T) :
    NoJoin T (f ++ t) := by
  intro e he k hk hpos hp
  have h3 := hT.2.2 e he f hf k hk hpos
  rcases List.prefix_or_prefix_of_prefix hp (List.prefix_append f t) with h | h
  · exact h3.1 h
  · exact h3.2 h

theorem noJoin_byte (T : List GoString) (c : Nat) (t : GoString) (hc : ∀ e ∈ T, c ∉ e) :
    NoJoin T (c :: t) := by
  intro e he k hk _ hp
  obtain ⟨r, hr⟩ := hp
  have hne : e.drop k ≠ [] := by
    intro h0
    have hl : (e.drop k).length = 0 := by rw [h0]; rfl
    rw [List.length_drop] at hl
    omega
  cases hd : e.drop k with
  | nil => exact hne hd
  | cons b u =>
    rw [hd] at hr
    have hbc : b = c := by
      simp only [List.cons_append, List.cons.injEq] at hr
      exact hr.1
    have hmem : b ∈ e := List.mem_of_mem_drop (hd ▸ List.mem_cons_self b u)
    exact hc e he (hbc ▸ hmem)

theorem noJoin_run_then (T : List GoString) (hT : GoodTable T) (w t : GoString) (hw : Run T w)
    (ht : NoJoin T t) : NoJoin T (w ++ t) := by
  cases hw with
  | nil => simpa using ht
  | cons e w he _ => rw [List.append_assoc]; exact noJoin_entry T hT e _ he

theorem stripOne_append_byte (T : List GoString) (hT : GoodTable T) (c : Nat)
    (hc : ∀ e ∈ T, c ∉ e) (s t : GoString) (hs : stripOne T s = none) :
    stripOne T (s ++ c :: t) = none := by
  by_cases hne : s = []
  · subst hne
    rw [stripOne_none_iff]
    intro e he hp
    cases e with
    | nil => exact hT.1 he
    | cons b u =>
      obtain ⟨r, hr⟩ := hp
      simp only [List.nil_append, List.cons_append, List.cons.injEq] at hr
      exact hc _ he (hr.1 ▸ List.mem_cons_self b u)
  · exact stripOne_append_none T s _ hs hne (noJoin_byte T c t hc)

theorem trimLeft_eq (s : GoString) : TrimLeftSpace s = trimTable spaceEncodings s := rfl

theorem trimRight_eq (s : GoString) :
    TrimRightSpace s = (trimTable (spaceEncodings.map List.reverse) s.reverse).reverse := by
  simp [TrimRightSpace, trimTable]

theorem run_reverse (w : GoString) (hw : Run spaceEncodings w) :
    Run (spaceEncodings.map List.reverse) w.reverse := by
  induction hw with
  | nil => exact Run.nil
  | cons e w he _ ih =>
    rw [List.reverse_append]
    refine run_append _ _ _ ih ?_
    have := Run.cons e.reverse [] (List.mem_map_of_mem List.reverse he) Run.nil
    simpa using this

theorem run_of_reverse (v : GoString) (hv : Run (spaceEncodings.map List.reverse) v) :
    Run spaceEncodings v.reverse := by
  induction hv with
  | nil => exact Run.nil
  | cons e w he _ ih =>
    rw [List.reverse_append]
    refine run_append _ _ _ ih ?_
    obtain ⟨f, hf, hfe⟩ := List.mem_map.1 he
    have := Run.cons f [] hf Run.nil
    rw [← hfe]
    simpa using this

theorem isSpaceRun_iff (w : GoString) : IsSpaceRun w ↔ Run spaceEncodings w := by
  constructor
  · intro h
    obtain ⟨v, hv, hdec, -⟩ := trimTable_decomp spaceEncodings spaceEncodings_good w
    have h0 : trimTable spaceEncodings w = [] := h
    rw [h0, List.append_nil] at hdec
    rw [hdec]; exact hv
  · intro h
    have := trimTable_run spaceEncodings spaceEncodings_good w [] h
    rw [List.append_nil] at this
    exact this

/-- White space around a core that neither starts nor ends with white space is exactly
what `TrimSpace` removes. -/
theorem trimSpace_core (lw c rw : GoString) (hl : Run spaceEncodings lw)
    (hr : Run spaceEncodings rw) (hc1 : stripOne spaceEncodings c = none)
    (hc2 : stripOne (spaceEncodings.map List.reverse) c.reverse = none) :
    TrimSpace (lw ++ c ++ rw) = c := by
  unfold TrimSpace
  rw [trimLeft_eq, List.append_assoc, trimTable_run _ spaceEncodings_good lw _ hl]
  by_cases hne : c = []
  · subst hne
    have h1 := trimTable_run _ spaceEncodings_good rw [] hr
    rw [List.append_nil] at h1
    rw [List.nil_append, h1]
    rfl
  · have hnj : NoJoin spaceEncodings rw := by
      have := noJoin_run_then _ spaceEncodings_good rw [] hr (noJoin_nil _)
      simpa using this
    rw [trimTable_of_none _ _ (stripOne_append_none _ c rw hc1 hne hnj), trimRight_eq,
      List.reverse_append, trimTable_run _ spaceEncodings_rev_good _ _ (run_reverse rw hr),
      trimTable_of_none _ _ hc2, List.reverse_reverse]

/-- Every string is its trimmed core with white space on both sides. -/
theorem trimSpace_decomp (s : GoString) :
    ∃ lw rw, Run spaceEncodings lw ∧ Run spaceEncodings rw ∧ s = lw ++ TrimSpace s ++ rw ∧
      stripOne spaceEncodings (TrimSpace s) = none ∧
      stripOne (spaceEncodings.map List.reverse) (TrimSpace s).reverse = none := by
  obtain ⟨lw, hlw, hdec, htight⟩ := trimTable_decomp spaceEncodings spaceEncodings_good s
  obtain ⟨v, hv, hdec2, htight2⟩ := trimTable_decomp (spaceEncodings.map List.reverse)
    spaceEncodings_rev_good (trimTable spaceEncodings s).reverse
  have hts : TrimSpace s =
      (trimTable (spaceEncodings.map List.reverse) (trimTable spaceEncodings s).reverse).reverse := by
    unfold TrimSpace
    rw [trimRight_eq, trimLeft_eq]
  have ht : trimTable spaceEncodings s = TrimSpace s ++ v.reverse := by
    rw [hts, ← List.reverse_append, ← hdec2, List.reverse_reverse]
  refine ⟨lw, v.reverse, hlw, run_of_reverse v hv, ?_, ?_, ?_⟩
  · rw [List.append_assoc, ← ht]; exact hdec
  · rw [stripOne_none_iff] at htight ⊢
    intro e he hp
    exact htight e he (ht ▸ hp.trans (List.prefix_append _ _))
  · rw [hts, List.reverse_reverse]; exact htight2

theorem trimSpace_pad (w1 s w2 : GoString) (h1 : IsSpaceRun w1) (h2 : IsSpaceRun w2) :
    TrimSpace (w1 ++ s ++ w2) = TrimSpace s := by
  obtain ⟨lw, rw, hlw, hrw, hdec, ht1, ht2⟩ := trimSpace_decomp s
  have hrun1 := run_append _ _ _ ((isSpaceRun_iff w1).1 h1) hlw
  have hrun2 := run_append _ _ _ hrw ((isSpaceRun_iff w2).1 h2)
  have := trimSpace_core (w1 ++ lw) (TrimSpace s) (rw ++ w2) hrun1 hrun2 ht1 ht2
  rw [← this]
  congr 1
  conv_lhs => rw [hdec]
  simp [List.append_assoc]

theorem trimSpace_trimLeft (x : GoString) : TrimSpace (TrimLeftSpace x) = TrimSpace x := by
  obtain ⟨lw, -, -, htight⟩ := trimTable_decomp spaceEncodings spaceEncodings_good x
  unfold TrimSpace
  rw [trimLeft_eq (TrimLeftSpace x), trimLeft_eq x, trimTable_of_none _ _ htight]

theorem trimSpace_trimRight (y : GoString) : TrimSpace (TrimRightSpace y) = TrimSpace y := by
  obtain ⟨lw, rw, hlw, hrw, hdec, ht1, ht2⟩ := trimSpace_decomp y
  have hR : TrimRightSpace y = if TrimSpace y = [] then [] else lw ++ TrimSpace y := by
    rw [trimRight_eq]
    conv_lhs => rw [hdec]
    rw [List.reverse_append, trimTable_run _ spaceEncodings_rev_good _ _ (run_reverse rw hrw),
      List.reverse_append]
    by_cases hne : TrimSpace y = []
    · have h1 := trimTable_run _ spaceEncodings_rev_good lw.reverse [] (run_reverse lw hlw)
      rw [List.append_nil] at h1
      simp only [hne, List.reverse_nil, List.nil_append, h1, if_true]
      rfl
    · have hnj : NoJoin (spaceEncodings.map List.reverse) lw.reverse := by
        have := noJoin_run_then _ spaceEncodings_rev_good lw.reverse []
          (run_reverse lw hlw) (noJoin_nil _)
        simpa using this
      have hne2 : (TrimSpace y).reverse ≠ [] := by simpa using hne
      rw [trimTable_of_none _ _ (stripOne_append_none _ _ _ ht2 hne2 hnj)]
      simp [hne]
  rw [hR]
  by_cases hne : TrimSpace y = []
  · simp only [hne, if_true]
    rfl
  · simp only [hne, if_false]
    have := trimSpace_core lw (TrimSpace y) [] hlw Run.nil ht1 ht2
    simpa using this

/-- Trimming a string with a separator byte that no white space contains trims the text
to the left of the byte on its left and the text to its right on its right. -/
theorem trimSpace_around_byte (c : Nat) (hc : ∀ e ∈ spaceEncodings, c ∉ e) (x y : GoString) :
    TrimSpace (x ++ c :: y) = TrimLeftSpace x ++ c :: TrimRightSpace y := by
  obtain ⟨lx, hlx, hdx, htx⟩ := trimTable_decomp spaceEncodings spaceEncodings_good x
  obtain ⟨v, hv, hdy, hty⟩ := trimTable_decomp (spaceEncodings.map List.reverse)
    spaceEncodings_rev_good y.reverse
  have hcR : ∀ e ∈ spaceEncodings.map List.reverse, c ∉ e := by
    intro e he hce
    obtain ⟨f, hf, hfe⟩ := List.mem_map.1 he
    rw [← hfe] at hce
    exact hc f hf (List.mem_reverse.1 hce)
  have hy : y = TrimRightSpace y ++ v.reverse := by
    rw [trimRight_eq, ← List.reverse_append, ← hdy, List.reverse_reverse]
  have h1 : stripOne spaceEncodings (TrimLeftSpace x ++ c :: TrimRightSpace y) = none :=
    stripOne_append_byte _ spaceEncodings_good c hc _ _ htx
  have h2 : stripOne (spaceEncodings.map List.reverse)
      (TrimLeftSpace x ++ c :: TrimRightSpace y).reverse = none := by
    have hrev : (TrimLeftSpace x ++ c :: TrimRightSpace y).reverse =
        (TrimRightSpace y).reverse ++ c :: (TrimLeftSpace x).reverse := by simp
    rw [hrev]
    refine stripOne_append_byte _ spaceEncodings_rev_good c hcR _ _ ?_
    rw [trimRight_eq, List.reverse_reverse]; exact hty
  have := trimSpace_core lx _ v.reverse hlx (run_of_reverse v hv) h1 h2
  rw [← this]
  congr 1
  conv_lhs => rw [hdx, hy]
  simp [List.append_assoc, trimLeft_eq]

/-! ## The cookie parser, pair by pair -/

theorem cut_of_not_mem (s : GoString) (sep : Nat) (h : sep ∉ s) : Cut s sep = none := by
  simp [Cut, h]

theorem cut_append_cons (a b : GoString) (sep : Nat) (h : sep ∉ a) :
    Cut (a ++ sep :: b) sep = some (a, b) := by
  have hmem : sep ∈ a ++ sep :: b := by simp
  have htake : ∀ a : GoString, sep ∉ a →
      (a ++ sep :: b).takeWhile (fun x => x != sep) = a ∧
      (a ++ sep :: b).dropWhile (fun x => x != sep) = sep :: b := by
    intro a
    induction a with
    | nil => intro _; simp [List.takeWhile, List.dropWhile]
    | cons x t ih =>
      intro hx
      have hx1 : x ≠ sep := fun h0 => hx (h0 ▸ List.mem_cons_self x t)
      have hx2 : sep ∉ t := fun h0 => hx (List.mem_cons_of_mem x h0)
      obtain ⟨i1, i2⟩ := ih hx2
      have hx3 : (x != sep) = true := by simpa using hx1
      simp [List.takeWhile, List.dropWhile, hx3, i1, i2]
  obtain ⟨h1, h2⟩ := htake a h
  simp only [Cut, hmem, if_true, h1, h2]
  rfl

theorem cut_some (s a b : GoString) (sep : Nat) (h : Cut s sep = some (a, b)) :
    s = a ++ sep :: b ∧ sep ∉ a := by
  unfold Cut at h
  by_cases hmem : sep ∈ s
  · simp only [hmem, if_true, Option.some.injEq, Prod.mk.injEq] at h
    obtain ⟨ha, hb⟩ := h
    have hna : sep ∉ a := by
      rw [← ha]
      intro hin
      have := List.mem_takeWhile_imp hin
      simp at this
    refine ⟨?_, hna⟩
    obtain ⟨l1, l2, hsplit, hnot⟩ := List.append_of_mem hmem |>.imp fun l1 h' =>
      h'.imp fun l2 h'' => (⟨h'', trivial⟩ : s = l1 ++ sep :: l2 ∧ True)
    have hts : s = s.takeWhile (fun x => x != sep) ++ s.dropWhile (fun x => x != sep) :=
      (List.takeWhile_append_dropWhile _ s).symm
    cases hd : s.dropWhile (fun x => x != sep) with
    | nil =>
      rw [hd, List.append_nil] at hts
      rw [ha] at hts
      exact absurd (hts ▸ hmem) hna
    | cons y t =>
      have hy : (fun x => x != sep) y = false := by
        have := List.head_dropWhile_not (fun x => x != sep) s
        simp only [hd] at this
        simpa using this (by simp)
      have hy2 : y = sep := by simpa using hy
      rw [hd] at hb hts
      simp only [List.drop_one, List.tail_cons] at hb
      rw [ha, hy2, hb] at hts
      exact hts
  · simp [hmem] at h

theorem splitN_two (s : GoString) (sep : Nat) :
    SplitN s sep 2 = match Cut s sep with
      | none => [s]
      | some (a, b) => [a, b] := by
  unfold SplitN
  cases Cut s sep with
  | none => rfl
  | some ab => rfl

theorem parseCookiePairs_cons (n pair : GoString) (rest : List GoString) :
    parseCookiePairs n (pair :: rest) =
      match pairEntry pair with
      | some (name, value) =>
        if name = n then ((QueryUnescape value).getD value, true)
        else parseCookiePairs n rest
      | none => parseCookiePairs n rest := by
  rw [parseCookiePairs, splitN_two]
  unfold pairEntry
  cases hc : Cut (TrimSpace pair) (ch '=') with
  | none => rfl
  | some ab =>
    obtain ⟨a, b⟩ := ab
    simp only
    by_cases hn : TrimSpace a = n
    · simp only [hn, if_true]
      cases QueryUnescape (TrimSpace b) <;> rfl
    · simp only [hn, if_false]

theorem parseCookieValue_eq_loop (h n : GoString) :
    ParseCookieValue h n = parseCookiePairs n (Split h (ch ';')) := by
  unfold ParseCookieValue
  by_cases h0 : h = []
  · subst h0
    simp only [if_true]
    rfl
  · simp only [h0, if_false]

theorem parseCookiePairs_found_iff (n : GoString) (pairs : List GoString) :
    (parseCookiePairs n pairs).2 = true ↔ ∃ p ∈ pairs, ∃ v, pairEntry p = some (n, v) := by
  induction pairs with
  | nil => simp [parseCookiePairs]
  | cons p rest ih =>
    rw [parseCookiePairs_cons]
    cases hp : pairEntry p with
    | none => simp [ih, hp]
    | some nv =>
      obtain ⟨name, value⟩ := nv
      by_cases hn : name = n
      · subst hn
        simp [hp]
      · have hn2 : ∀ v, ¬ (name = n ∧ value = v) := fun v h => hn h.1
        simp [hn, ih, hp]

theorem parseCookiePairs_not_found (n : GoString) (pairs : List GoString)
    (h : (parseCookiePairs n pairs).2 = false) : parseCookiePairs n pairs = ([], false) := by
  induction pairs with
  | nil => rfl
  | cons p rest ih =>
    rw [parseCookiePairs_cons] at h ⊢
    cases hp : pairEntry p with
    | none =>
      simp only [hp] at h ⊢
      exact ih h
    | some nv =>
      obtain ⟨name, value⟩ := nv
      by_cases hn : name = n
      · simp [hp, hn] at h
      · simp only [hp, hn, if_false] at h ⊢
        exact ih h

theorem pairEntry_some_iff (p n v : GoString) :
    pairEntry p = some (n, v) ↔
      ∃ name raw, Cut (TrimSpace p) (ch '=') = some (name, raw) ∧ TrimSpace name = n ∧
        TrimSpace raw = v := by
  unfold pairEntry
  cases Cut (TrimSpace p) (ch '=') with
  | none => simp
  | some ab =>
    obtain ⟨a, b⟩ := ab
    constructor
    · intro h
      simp only [Option.some.injEq, Prod.mk.injEq] at h
      exact ⟨a, b, rfl, h.1, h.2⟩
    · rintro ⟨name, raw, hc, h1, h2⟩
      simp only [Option.some.injEq, Prod.mk.injEq] at hc
      rw [hc.1, hc.2]
      simp only [h1, h2]

/-- The first pair that carries the name decides the result. -/
theorem parseCookiePairs_first (n : GoString) (pairs : List GoString)
    (h : (parseCookiePairs n pairs).2 = true) :
    ∃ pre pair post v, pairs = pre ++ pair :: post ∧
      (∀ p ∈ pre, ∀ w, pairEntry p ≠ some (n, w)) ∧ pairEntry pair = some (n, v) ∧
      parseCookiePairs n pairs = ((QueryUnescape v).getD v, true) := by
  induction pairs with
  | nil => simp [parseCookiePairs] at h
  | cons p rest ih =>
    rw [parseCookiePairs_cons] at h ⊢
    cases hp : pairEntry p with
    | none =>
      simp only [hp] at h ⊢
      obtain ⟨pre, pair, post, v, hsplit, hpre, hpair, hres⟩ := ih h
      refine ⟨p :: pre, pair, post, v, by simp [hsplit], ?_, hpair, hres⟩
      intro q hq w
      rcases List.mem_cons.1 hq with rfl | hq
      · simp [hp]
      · exact hpre q hq w
    | some nv =>
      obtain ⟨name, value⟩ := nv
      by_cases hn : name = n
      · subst hn
        exact ⟨[], p, rest, value, rfl, by simp, hp, by simp⟩
      · simp only [hp, hn, if_false] at h ⊢
        obtain ⟨pre, pair, post, v, hsplit, hpre, hpair, hres⟩ := ih h
        refine ⟨p :: pre, pair, post, v, by simp [hsplit], ?_, hpair, hres⟩
        intro q hq w
        rcases List.mem_cons.1 hq with rfl | hq
        · rw [hp]
          intro heq
          simp only [Option.some.injEq, Prod.mk.injEq] at heq
          exact hn heq.1
        · exact hpre q hq w

/-! ## Decoding -/

theorem percentDecode_cons_ne (c : Nat) (r : GoString) (hc : c ≠ ch '%') :
    percentDecode (c :: r) = c :: percentDecode r := by
  match r with
  | [] => rfl
  | [h] => rfl
  | h :: l :: t => simp [percentDecode, hc]

theorem ishex_ne_plus (b : Nat) (h : ishex b = true) : b ≠ ch '+' := by
  intro h0
  subst h0
  revert h
  decide

theorem escapesWellFormed_cons_ne (c : Nat) (rest : GoString) (hc : c ≠ ch '%') :
    escapesWellFormed (c :: rest) = escapesWellFormed rest := by
  conv_lhs => unfold escapesWellFormed
  rw [if_neg hc]

theorem unescapeBytes_cons_plus (rest : GoString) :
    unescapeBytes (ch '+' :: rest) = ch ' ' :: unescapeBytes rest := by
  conv_lhs => unfold unescapeBytes
  rw [if_neg (by decide), if_pos rfl]

theorem unescapeBytes_cons_ne (c : Nat) (rest : GoString) (hc : c ≠ ch '%')
    (hp : c ≠ ch '+') : unescapeBytes (c :: rest) = c :: unescapeBytes rest := by
  conv_lhs => unfold unescapeBytes
  rw [if_neg hc, if_neg hp]

/-- On a well-formed input the decoding of `url.QueryUnescape` is the percent-decoding of
the input with every `+` first turned into a space. -/
theorem unescapeBytes_eq (n : Nat) (s : GoString) (hlen : s.length ≤ n)
    (hwf : escapesWellFormed s = true) :
    unescapeBytes s = percentDecode (plusToSpace s) := by
  induction n generalizing s with
  | zero =>
    have hs : s = [] := List.length_eq_zero.1 (Nat.le_zero.1 hlen)
    subst hs
    rfl
  | succ n ih =>
    cases s with
    | nil => rfl
    | cons c rest =>
      by_cases hc : c = ch '%'
      · subst hc
        match rest, hwf, hlen with
        | [], hwf, _ => simp [escapesWellFormed] at hwf
        | [_], hwf, _ => simp [escapesWellFormed] at hwf
        | h :: l :: t, hwf, hlen =>
          simp only [escapesWellFormed, if_true, Bool.and_eq_true] at hwf
          obtain ⟨⟨hh, hl⟩, ht⟩ := hwf
          have hlen2 : t.length ≤ n := by
            simp only [List.length_cons] at hlen
            omega
          have hpct : (if ch '%' = ch '+' then ch ' ' else ch '%') = ch '%' := by decide
          have hh2 : (if h = ch '+' then ch ' ' else h) = h := by simp [ishex_ne_plus h hh]
          have hl2 : (if l = ch '+' then ch ' ' else l) = l := by simp [ishex_ne_plus l hl]
          simp only [unescapeBytes, if_true, plusToSpace, List.map_cons, hpct, hh2, hl2,
            percentDecode, hh, hl, and_self]
          rw [ih t hlen2 ht]
          rfl
      · have hlen2 : rest.length ≤ n := by
          simp only [List.length_cons] at hlen
          omega
        have hwf2 : escapesWellFormed rest = true := by
          rw [escapesWellFormed_cons_ne c rest hc] at hwf
          exact hwf
        by_cases hp : c = ch '+'
        · subst hp
          have h1 : unescapeBytes (ch '+' :: rest) = ch ' ' :: unescapeBytes rest := by
            exact unescapeBytes_cons_plus rest
          have h2 : plusToSpace (ch '+' :: rest) = ch ' ' :: plusToSpace rest := by
            simp [plusToSpace]
          rw [h1, h2, percentDecode_cons_ne _ _ (by decide), ih rest hlen2 hwf2]
        · have h1 : unescapeBytes (c :: rest) = c :: unescapeBytes rest := by
            exact unescapeBytes_cons_ne c rest hc hp
          have h2 : plusToSpace (c :: rest) = c :: plusToSpace rest := by
            simp [plusToSpace, hp]
          rw [h1, h2, percentDecode_cons_ne _ _ hc, ih rest hlen2 hwf2]

theorem queryUnescape_getD (v : GoString) :
    (QueryUnescape v).getD v =
      if escapesWellFormed v = true then percentDecode (plusToSpace v) else v := by
  unfold QueryUnescape
  by_cases h : escapesWellFormed v = true
  · simp only [h, if_true, Option.getD_some]
    exact unescapeBytes_eq v.length v (le_refl _) h
  · simp only [h, if_false, Option.getD_none]
    simp

/-! ## Padding -/

theorem run_not_mem (c : Nat) (hc : ∀ e ∈ spaceEncodings, c ∉ e) (w : GoString)
    (hw : Run spaceEncodings w) : c ∉ w := by
  induction hw with
  | nil => simp
  | cons e w he _ ih =>
    intro h
    rcases List.mem_append.1 h with h | h
    · exact hc e he h
    · exact ih h

theorem space_no_eq : ∀ e ∈ spaceEncodings, ch '=' ∉ e := by decide

theorem space_no_semicolon : ∀ e ∈ spaceEncodings, ch ';' ∉ e := by decide

theorem trimSpace_not_mem (c : Nat) (s : GoString) (h : c ∉ s) : c ∉ TrimSpace s := by
  obtain ⟨lw, rw, -, -, hdec, -, -⟩ := trimSpace_decomp s
  intro hin
  apply h
  rw [hdec]
  simp [hin]

theorem trimLeft_not_mem (c : Nat) (s : GoString) (h : c ∉ s) : c ∉ TrimLeftSpace s := by
  obtain ⟨lw, -, hdec, -⟩ := trimTable_decomp spaceEncodings spaceEncodings_good s
  intro hin
  apply h
  rw [hdec]
  exact List.mem_append_right _ hin

theorem pairEntry_named (x y : GoString) (hx : ch '=' ∉ x) :
    pairEntry (x ++ ch '=' :: y) = some (TrimSpace x, TrimSpace y) := by
  unfold pairEntry
  rw [trimSpace_around_byte (ch '=') space_no_eq x y,
    cut_append_cons _ _ _ (trimLeft_not_mem _ _ hx)]
  simp only [trimSpace_trimLeft, trimSpace_trimRight]

theorem pairEntry_bare (s : GoString) (hs : ch '=' ∉ s) : pairEntry s = none := by
  unfold pairEntry
  rw [cut_of_not_mem _ _ (trimSpace_not_mem _ _ hs)]

theorem pairEntry_padded (seg : Segment) (hwf : seg.WellFormed) :
    pairEntry seg.padded = pairEntry seg.plain := by
  cases seg with
  | bare pre token post =>
    obtain ⟨h1, h2, -, h4⟩ := hwf
    have hpre := run_not_mem _ space_no_eq pre ((isSpaceRun_iff pre).1 h1)
    have hpost := run_not_mem _ space_no_eq post ((isSpaceRun_iff post).1 h2)
    rw [Segment.padded, Segment.plain, pairEntry_bare _ h4, pairEntry_bare]
    simp [hpre, hpost, h4]
  | pair pre name mid1 mid2 value post =>
    obtain ⟨h1, h2, h3, h4, -, h6, -⟩ := hwf
    have hpre := run_not_mem _ space_no_eq pre ((isSpaceRun_iff pre).1 h1)
    have hmid := run_not_mem _ space_no_eq mid1 ((isSpaceRun_iff mid1).1 h2)
    rw [Segment.padded, Segment.plain, pairEntry_named _ _ h6, pairEntry_named,
      trimSpace_pad pre name mid1 h1 h2, trimSpace_pad mid2 value post h3 h4]
    simp [hpre, hmid, h6]

theorem segment_no_semicolon (seg : Segment) (hwf : seg.WellFormed) :
    ch ';' ∉ seg.padded ∧ ch ';' ∉ seg.plain := by
  cases seg with
  | bare pre token post =>
    obtain ⟨h1, h2, h3, -⟩ := hwf
    have hpre := run_not_mem _ space_no_semicolon pre ((isSpaceRun_iff pre).1 h1)
    have hpost := run_not_mem _ space_no_semicolon post ((isSpaceRun_iff post).1 h2)
    simp [Segment.padded, Segment.plain, hpre, hpost, h3]
  | pair pre name mid1 mid2 value post =>
    obtain ⟨h1, h2, h3, h4, h5, -, h7⟩ := hwf
    have hpre := run_not_mem _ space_no_semicolon pre ((isSpaceRun_iff pre).1 h1)
    have hm1 := run_not_mem _ space_no_semicolon mid1 ((isSpaceRun_iff mid1).1 h2)
    have hm2 := run_not_mem _ space_no_semicolon mid2 ((isSpaceRun_iff mid2).1 h3)
    have hpost := run_not_mem _ space_no_semicolon post ((isSpaceRun_iff post).1 h4)
    have hne : ch ';' ≠ ch '=' := by decide
    simp [Segment.padded, Segment.plain, hpre, hm1, hm2, hpost, h5, h7, hne]

theorem parseCookiePairs_congr (n : GoString) (ps qs : List GoString)
    (h : ps.map pairEntry = qs.map pairEntry) :
    parseCookiePairs n ps = parseCookiePairs n qs := by
  induction ps generalizing qs with
  | nil =>
    cases qs with
    | nil => rfl
    | cons q qs => simp at h
  | cons p ps ih =>
    cases qs with
    | nil => simp at h
    | cons q qs =>
      simp only [List.map_cons, List.cons.injEq] at h
      rw [parseCookiePairs_cons, parseCookiePairs_cons, h.1, ih qs h.2]

/-! ## The cookie contract -/

/-- C8: `ParseCookieValue h n` reports found exactly when some `;`-delimited pair of `h`,
once trimmed, contains `=` and the trimmed text before its first `=` is `n`; when not found
the result is the empty string and false; the empty header finds no name. -/
theorem C8_found_iff_named_pair (h n : GoString) :
    ((ParseCookieValue h n).2 = true ↔
      ∃ pair ∈ Split h (ch ';'), ch '=' ∈ TrimSpace pair ∧
        TrimSpace ((TrimSpace pair).takeWhile (fun b => b != ch '=')) = n) ∧
    ((ParseCookieValue h n).2 = false → ParseCookieValue h n = ([], false)) ∧
    ParseCookieValue [] n = ([], false) := by
  refine ⟨?_, ?_, rfl⟩
  · rw [parseCookieValue_eq_loop, parseCookiePairs_found_iff]
    constructor
    · rintro ⟨p, hp, v, hv⟩
      obtain ⟨name, raw, hcut, hname, -⟩ := (pairEntry_some_iff p n v).1 hv
      obtain ⟨hsplit, hnot⟩ := cut_some _ _ _ _ hcut
      refine ⟨p, hp, ?_, ?_⟩
      · rw [hsplit]; simp
      · have htake : (TrimSpace p).takeWhile (fun b => b != ch '=') = name := by
          have hc := cut_append_cons name raw (ch '=') hnot
          rw [← hsplit] at hc
          unfold Cut at hc
          split at hc
          · simp only [Option.some.injEq, Prod.mk.injEq] at hc
            exact hc.1
          · exact absurd hc (by simp)
        rw [htake]; exact hname
    · rintro ⟨p, hp, hmem, hname⟩
      refine ⟨p, hp, TrimSpace (((TrimSpace p).dropWhile (fun b => b != ch '=')).drop 1), ?_⟩
      rw [pairEntry_some_iff]
      exact ⟨_, _, by simp [Cut, hmem], hname, rfl⟩
  · intro hnf
    rw [parseCookieValue_eq_loop] at hnf ⊢
    exact parseCookiePairs_not_found n _ hnf

/-- C9, as stated, fails: a `+` in the raw value is not left unchanged, it comes back as
a space. -/
theorem C9_plus_is_decoded_to_space :
    ParseCookieValue (str "data=a+b") (str "data") = (str "a b", true) ∧
    percentDecode (TrimSpace (str "a+b")) = str "a+b" ∧
    (ParseCookieValue (str "data=a+b") (str "data")).1 ≠ percentDecode (TrimSpace (str "a+b")) := by
  decide

/-- C9, amended: when the name is found, the value returned comes from the first pair that
carries the name; it is the trimmed raw value with every `+` turned into a space and every
`%XX` escape replaced by its byte when every `%` of it is followed by two hexadecimal
digits, and the trimmed raw value itself otherwise. -/
theorem C9_value_is_query_unescaped (h n : GoString)
    (hfound : (ParseCookieValue h n).2 = true) :
    ∃ pre pair post name raw,
      Split h (ch ';') = pre ++ pair :: post ∧
      (∀ p ∈ pre, ∀ w, pairEntry p ≠ some (n, w)) ∧
      Cut (TrimSpace pair) (ch '=') = some (name, raw) ∧ TrimSpace name = n ∧
      ParseCookieValue h n =
        (if escapesWellFormed (TrimSpace raw) = true
          then percentDecode (plusToSpace (TrimSpace raw)) else TrimSpace raw, true) := by
  rw [parseCookieValue_eq_loop] at hfound ⊢
  obtain ⟨pre, pair, post, v, hsplit, hpre, hpair, hres⟩ := parseCookiePairs_first n _ hfound
  obtain ⟨name, raw, hcut, hname, hraw⟩ := (pairEntry_some_iff pair n v).1 hpair
  refine ⟨pre, pair, post, name, raw, hsplit, hpre, hcut, hname, ?_⟩
  rw [hres, queryUnescape_getD, hraw]

/-- C9 amended, at the header of `TestParseCookieValue_URLEncoded`. -/
theorem C9_value_is_query_unescaped_witness :
    (ParseCookieValue (str "data=hello%20world; encoded=%3D%3D") (str "encoded")).2 = true ∧
    (∃ pre pair post name raw,
      Split (str "data=hello%20world; encoded=%3D%3D") (ch ';') = pre ++ pair :: post ∧
      (∀ p ∈ pre, ∀ w, pairEntry p ≠ some (str "encoded", w)) ∧
      Cut (TrimSpace pair) (ch '=') = some (name, raw) ∧ TrimSpace name = str "encoded" ∧
      ParseCookieValue (str "data=hello%20world; encoded=%3D%3D") (str "encoded") =
        (if escapesWellFormed (TrimSpace raw) = true
          then percentDecode (plusToSpace (TrimSpace raw)) else TrimSpace raw, true)) ∧
    ParseCookieValue (str "data=hello%20world; encoded=%3D%3D") (str "encoded")
      = (str "==", true) ∧
    ParseCookieValue (str "data=hello%20world") (str "data") = (str "hello world", true) ∧
    ParseCookieValue (str "data=50%; x=1") (str "data") = (str "50%", true) :=
  ⟨by decide,
   C9_value_is_query_unescaped (str "data=hello%20world; encoded=%3D%3D") (str "encoded")
     (by decide),
   by decide, by decide, by decide⟩

/-- C10: white space put around the `;`-delimited pairs of a Cookie header, around the
cookie names and around the raw values does not change what `ParseCookieValue` returns for
any name. -/
theorem C10_padding_is_ignored (segs : List Segment) (n : GoString)
    (hwf : ∀ seg ∈ segs, seg.WellFormed) :
    ParseCookieValue (joinPairs (segs.map Segment.padded)) n =
      ParseCookieValue (joinPairs (segs.map Segment.plain)) n := by
  cases hs : segs with
  | nil => rfl
  | cons seg0 rest =>
    rw [← hs, parseCookieValue_eq_loop, parseCookieValue_eq_loop]
    have hne1 : segs.map Segment.padded ≠ [] := by simp [hs]
    have hne2 : segs.map Segment.plain ≠ [] := by simp [hs]
    have hsp1 : Split (joinPairs (segs.map Segment.padded)) (ch ';') =
        segs.map Segment.padded := by
      refine List.splitOn_intercalate _ (ch ';') ?_ hne1
      intro l hl
      obtain ⟨seg, hseg, rfl⟩ := List.mem_map.1 hl
      exact (segment_no_semicolon seg (hwf seg hseg)).1
    have hsp2 : Split (joinPairs (segs.map Segment.plain)) (ch ';') =
        segs.map Segment.plain := by
      refine List.splitOn_intercalate _ (ch ';') ?_ hne2
      intro l hl
      obtain ⟨seg, hseg, rfl⟩ := List.mem_map.1 hl
      exact (segment_no_semicolon seg (hwf seg hseg)).2
    rw [hsp1, hsp2]
    apply parseCookiePairs_congr
    rw [List.map_map, List.map_map]
    apply List.map_congr_left
    intro seg hseg
    exact pairEntry_padded seg (hwf seg hseg)

/-- C10 at the header of `TestParseCookieValue_Whitespace` and the same header without
padding. -/
theorem C10_padding_is_ignored_witness :
    (∀ seg ∈ whitespaceSegments, seg.WellFormed) ∧
    joinPairs (whitespaceSegments.map Segment.padded) =
      str "  session = abc123 ;  beta = true  " ∧
    joinPairs (whitespaceSegments.map Segment.plain) = str "session=abc123;beta=true" ∧
    ParseCookieValue (joinPairs (whitespaceSegments.map Segment.padded)) (str "session") =
      ParseCookieValue (joinPairs (whitespaceSegments.map Segment.plain)) (str "session") ∧
    ParseCookieValue (str "  session = abc123 ;  beta = true  ") (str "session")
      = (str "abc123", true) ∧
    ParseCookieValue (str "  session = abc123 ;  beta = true  ") (str "beta")
      = (str "true", true) :=
  ⟨by decide, by decide, by decide,
   C10_padding_is_ignored whitespaceSegments (str "session") (by decide),
   by decide, by decide⟩

/-! ## All cookies -/

theorem find?_filter_ne (m : StringMap) (k n : GoString) (hk : ¬ k = n) :
    (m.filter (fun kv => kv.1 ≠ k)).find? (fun kv => kv.1 = n) =
      m.find? (fun kv => kv.1 = n) := by
  induction m with
  | nil => rfl
  | cons kv t ih =>
    by_cases h1 : kv.1 = k
    · have h2 : ¬ kv.1 = n := fun h => hk (h1 ▸ h)
      rw [List.filter_cons_of_neg (by simpa using h1),
        List.find?_cons_of_neg _ (by simpa using h2)]
      exact ih
    · rw [List.filter_cons_of_pos (by simpa using h1)]
      by_cases h2 : kv.1 = n
      · rw [List.find?_cons_of_pos _ (by simpa using h2),
          List.find?_cons_of_pos _ (by simpa using h2)]
      · rw [List.find?_cons_of_neg _ (by simpa using h2),
          List.find?_cons_of_neg _ (by simpa using h2)]
        exact ih

theorem get?_set (m : StringMap) (k v n : GoString) :
    (m.set k v).get? n = if k = n then some v else m.get? n := by
  by_cases hk : k = n
  · subst hk
    simp [StringMap.set, StringMap.get?]
  · simp only [StringMap.set, StringMap.get?, hk, if_false]
    rw [List.find?_cons_of_neg _ (by simpa using hk), find?_filter_ne m k n hk]

theorem parseAllPairs_cons (m : StringMap) (pair : GoString) (rest : List GoString) :
    parseAllPairs m (pair :: rest) =
      match pairEntry pair with
      | some (name, value) => parseAllPairs (m.set name (decodeValue value)) rest
      | none => parseAllPairs m rest := by
  rw [parseAllPairs, splitN_two]
  unfold pairEntry decodeValue
  cases hc : Cut (TrimSpace pair) (ch '=') with
  | none => rfl
  | some ab =>
    obtain ⟨a, b⟩ := ab
    simp only
    cases QueryUnescape (TrimSpace b) <;> rfl

theorem parseAllCookies_eq_loop (h : GoString) :
    ParseAllCookies h = parseAllPairs [] (Split h (ch ';')) := by
  unfold ParseAllCookies
  by_cases h0 : h = []
  · subst h0
    simp only [if_true]
    rfl
  · simp only [h0, if_false]

/-- The value stored under a name is the decoded value of the last valid pair with that
name, or what the map held before when there is none. -/
theorem parseAllPairs_get? (n : GoString) (pairs : List GoString) (m : StringMap) :
    (parseAllPairs m pairs).get? n =
      match ((pairs.filterMap pairEntry).filter (fun e => e.1 = n)).getLast? with
      | some e => some (decodeValue e.2)
      | none => m.get? n := by
  induction pairs generalizing m with
  | nil => rfl
  | cons p rest ih =>
    rw [parseAllPairs_cons]
    cases hp : pairEntry p with
    | none => simp only [List.filterMap_cons, hp]; exact ih m
    | some nv =>
      obtain ⟨name, value⟩ := nv
      simp only [List.filterMap_cons, hp]
      rw [ih]
      by_cases hn : name = n
      · subst hn
        simp only [List.filter_cons, decide_True, if_true]
        cases hl : (List.filter (fun e => decide (e.1 = name))
            (List.filterMap pairEntry rest)) with
        | nil => simp [get?_set]
        | cons e es =>
          rw [List.getLast?_cons_cons]
          cases hg : (e :: es).getLast? with
          | none => simp at hg
          | some x => rfl
      · simp only [List.filter_cons, hn, decide_False, Bool.false_eq_true, if_false]
        cases (List.filter (fun e => decide (e.1 = n))
            (List.filterMap pairEntry rest)).getLast? with
        | none => simp [get?_set, hn]
        | some e => rfl

theorem parseCookiePairs_eq_find (n : GoString) (pairs : List GoString) :
    parseCookiePairs n pairs =
      match (pairs.filterMap pairEntry).find? (fun e => e.1 = n) with
      | some e => (decodeValue e.2, true)
      | none => ([], false) := by
  induction pairs with
  | nil => rfl
  | cons p rest ih =>
    rw [parseCookiePairs_cons]
    cases hp : pairEntry p with
    | none => simp only [List.filterMap_cons, hp]; exact ih
    | some nv =>
      obtain ⟨name, value⟩ := nv
      simp only [List.filterMap_cons, hp]
      by_cases hn : name = n
      · subst hn
        simp [decodeValue]
      · simp only [hn, if_false]
        rw [List.find?_cons_of_neg _ (by simpa using hn)]
        exact ih

theorem getLast?_filter_isSome {α : Type} (p : α → Bool) (l : List α) :
    ((l.filter p).getLast?).isSome = (l.find? p).isSome := by
  cases hf : l.filter p with
  | nil =>
    have : l.find? p = none := by
      rw [List.find?_eq_none]
      intro x hx hpx
      have : x ∈ l.filter p := List.mem_filter.2 ⟨hx, hpx⟩
      rw [hf] at this
      simp at this
    simp [this]
  | cons a t =>
    have ha : a ∈ l.filter p := by rw [hf]; simp
    have hsome : (l.find? p).isSome = true := by
      rw [List.find?_isSome]
      exact ⟨a, (List.mem_filter.1 ha).1, (List.mem_filter.1 ha).2⟩
    rw [hsome]
    cases hl : (a :: t).getLast? with
    | none => simp at hl
    | some e => rfl

theorem find?_of_filter_singleton {α : Type} (p : α → Bool) (l : List α) (e : α)
    (h : l.filter p = [e]) : l.find? p = some e := by
  induction l with
  | nil => simp at h
  | cons a t ih =>
    by_cases hpa : p a = true
    · rw [List.filter_cons_of_pos hpa] at h
      simp only [List.cons.injEq] at h
      rw [List.find?_cons_of_pos _ hpa, h.1]
    · rw [List.filter_cons_of_neg hpa] at h
      rw [List.find?_cons_of_neg _ hpa]
      exact ih h

/-- C11: a `;`-delimited pair without `=` is discarded: when no pair containing `=` has
the name `n`, `ParseCookieValue` reports not found and `ParseAllCookies` has no entry for
`n`, bare tokens notwithstanding. -/
theorem C11_bare_token_is_discarded (h n : GoString)
    (hno : ∀ pair ∈ Split h (ch ';'), ch '=' ∈ pair →
      TrimSpace ((TrimSpace pair).takeWhile (fun b => b != ch '=')) ≠ n) :
    ParseCookieValue h n = ([], false) ∧ (ParseAllCookies h).get? n = none := by
  have hnone : ∀ p ∈ Split h (ch ';'), ∀ v, pairEntry p ≠ some (n, v) := by
    intro p hp v hv
    obtain ⟨name, raw, hcut, hname, -⟩ := (pairEntry_some_iff p n v).1 hv
    obtain ⟨hsplit, hnot⟩ := cut_some _ _ _ _ hcut
    have hmem : ch '=' ∈ p := by
      by_contra hcon
      have := trimSpace_not_mem _ _ hcon
      rw [hsplit] at this
      simp at this
    have htake : (TrimSpace p).takeWhile (fun b => b != ch '=') = name := by
      have hc := cut_append_cons name raw (ch '=') hnot
      rw [← hsplit] at hc
      unfold Cut at hc
      split at hc
      · simp only [Option.some.injEq, Prod.mk.injEq] at hc
        exact hc.1
      · exact absurd hc (by simp)
    exact hno p hp hmem (by rw [htake]; exact hname)
  have hfilter : ((Split h (ch ';')).filterMap pairEntry).filter (fun e => e.1 = n) = [] := by
    rw [List.filter_eq_nil_iff]
    intro e he
    obtain ⟨p, hp, hpe⟩ := List.mem_filterMap.1 he
    intro hen
    simp only [decide_eq_true_eq] at hen
    exact hnone p hp e.2 (by rw [hpe, ← hen])
  refine ⟨?_, ?_⟩
  · rw [parseCookieValue_eq_loop]
    apply parseCookiePairs_not_found
    cases hf : (parseCookiePairs n (Split h (ch ';'))).2 with
    | false => rfl
    | true =>
      obtain ⟨p, hp, v, hv⟩ := (parseCookiePairs_found_iff n _).1 hf
      exact absurd hv (hnone p hp v)
  · rw [parseAllCookies_eq_loop, parseAllPairs_get?, hfilter]
    rfl

/-- C11 at the header of `TestParseCookieValue_MalformedCookies`: the bare token `session`
is not a cookie, `beta` is. -/
theorem C11_bare_token_is_discarded_witness :
    (∀ pair ∈ Split (str "session; beta=true") (ch ';'), ch '=' ∈ pair →
      TrimSpace ((TrimSpace pair).takeWhile (fun b => b != ch '=')) ≠ str "session") ∧
    str "session" ∈ (Split (str "session; beta=true") (ch ';')).map TrimSpace ∧
    (ParseCookieValue (str "session; beta=true") (str "session") = ([], false) ∧
      (ParseAllCookies (str "session; beta=true")).get? (str "session") = none) ∧
    ParseCookieValue (str "session; beta=true") (str "beta") = (str "true", true) ∧
    ParseAllCookies (str "session; beta=true") = [(str "beta", str "true")] :=
  ⟨by decide, by decide,
   C11_bare_token_is_discarded (str "session; beta=true") (str "session") (by decide),
   by decide, by decide⟩

/-- C12: `ParseAllCookies` applies the per-pair rule of `ParseCookieValue`: a name is a key
of the map exactly when `ParseCookieValue` finds it; the map holds the decoded value of the
last valid pair with the name, `ParseCookieValue` returns that of the first, so the two
agree when exactly one valid pair has the name; the empty header gives the empty map. -/
theorem C12_all_cookies_agree (h n : GoString) :
    (((ParseAllCookies h).get? n).isSome = true ↔ (ParseCookieValue h n).2 = true) ∧
    (ParseAllCookies h).get? n =
      (((cookieEntries h).filter (fun e => e.1 = n)).getLast?).map
        (fun e => decodeValue e.2) ∧
    ParseCookieValue h n =
      (match (cookieEntries h).find? (fun e => e.1 = n) with
        | some e => (decodeValue e.2, true)
        | none => ([], false)) ∧
    (∀ e, (cookieEntries h).filter (fun e => e.1 = n) = [e] →
      (ParseAllCookies h).get? n = some (ParseCookieValue h n).1) ∧
    ParseAllCookies [] = [] := by
  have hall : (ParseAllCookies h).get? n =
      (((cookieEntries h).filter (fun e => e.1 = n)).getLast?).map
        (fun e => decodeValue e.2) := by
    rw [parseAllCookies_eq_loop, parseAllPairs_get?]
    unfold cookieEntries
    cases (List.filter (fun e => decide (e.1 = n))
      (List.filterMap pairEntry (Split h (ch ';')))).getLast? <;> rfl
  have hone : ParseCookieValue h n =
      (match (cookieEntries h).find? (fun e => e.1 = n) with
        | some e => (decodeValue e.2, true)
        | none => ([], false)) := by
    rw [parseCookieValue_eq_loop, parseCookiePairs_eq_find]
    rfl
  refine ⟨?_, hall, hone, ?_, rfl⟩
  · rw [hall, hone, Option.isSome_map', getLast?_filter_isSome]
    cases (cookieEntries h).find? (fun e => e.1 = n) <;> simp
  · intro e he
    rw [hall, hone, he, find?_of_filter_singleton _ _ e he]
    rfl

/-! ## Query parameters and headers -/

theorem queryPairs_eq_find (k : GoString) (pairs : List GoString) :
    queryPairs k pairs =
      match pairs.find? (fun pair => pair.takeWhile (fun b => b != ch '=') = k) with
      | some pair => ((pair.dropWhile (fun b => b != ch '=')).drop 1, true)
      | none => ([], false) := by
  induction pairs with
  | nil => rfl
  | cons p rest ih =>
    rw [queryPairs, splitN_two]
    unfold Cut
    by_cases hmem : ch '=' ∈ p
    · simp only [hmem, if_true]
      by_cases hk : p.takeWhile (fun b => b != ch '=') = k
      · rw [List.find?_cons_of_pos _ (by simpa using hk)]
        simp only [hk, if_true]
      · rw [List.find?_cons_of_neg _ (by simpa using hk)]
        simp only [hk, if_false]
        exact ih
    · simp only [hmem, if_false]
      have htake : p.takeWhile (fun b => b != ch '=') = p := by
        rw [List.takeWhile_eq_self_iff]
        intro x hx
        have : x ≠ ch '=' := fun h0 => hmem (h0 ▸ hx)
        simpa using this
      have hdrop : p.dropWhile (fun b => b != ch '=') = [] := by
        rw [List.dropWhile_eq_nil_iff]
        intro x hx
        have : x ≠ ch '=' := fun h0 => hmem (h0 ▸ hx)
        simpa using this
      by_cases hk : p = k
      · rw [List.find?_cons_of_pos _ (by rw [htake]; simpa using hk)]
        simp only [hk, if_true]
        rw [← hk, hdrop]
        rfl
      · rw [List.find?_cons_of_neg _ (by rw [htake]; simpa using hk)]
        simp only [hk, if_false]
        exact ih

theorem drop_after_first (s : GoString) (sep : Nat) :
    s.drop ((s.takeWhile (fun b => b != sep)).length + 1) =
      (s.dropWhile (fun b => b != sep)).drop 1 := by
  have h := List.takeWhile_append_dropWhile (fun b => b != sep) s
  have h2 : s.drop (s.takeWhile (fun b => b != sep)).length =
      s.dropWhile (fun b => b != sep) := by
    have h3 := List.drop_left (s.takeWhile (fun b => b != sep))
      (s.dropWhile (fun b => b != sep))
    rw [h] at h3
    exact h3
  rw [← List.drop_drop, h2]

/-- What `getQueryParam` returns, in terms of the pairs of the query string. -/
theorem getQueryParam_eq (headers : StringMap) (k : GoString) :
    getQueryParam headers k =
      if ch '?' ∈ headers.get (str ":path") then
        match (Split (((headers.get (str ":path")).dropWhile (fun b => b != ch '?')).drop 1)
            (ch '&')).find? (fun pair => pair.takeWhile (fun b => b != ch '=') = k) with
        | some pair => ((pair.dropWhile (fun b => b != ch '=')).drop 1, true)
        | none => ([], false)
      else ([], false) := by
  unfold getQueryParam
  by_cases hp : headers.get (str ":path") = []
  · simp [hp]
  · simp only [hp, if_false, Index]
    by_cases hq : ch '?' ∈ headers.get (str ":path")
    · simp only [hq, if_true]
      rw [drop_after_first, queryPairs_eq_find]
    · simp only [hq, if_false]

theorem getHeader_found_iff (L : Lib) (headers : StringMap) (key : GoString) :
    (getHeader L headers key).2 = true ↔
      ∃ kv ∈ headers, L.toLower kv.1 = L.toLower key := by
  unfold getHeader
  cases hg : headers.get? key with
  | some v =>
    simp only [true_iff]
    unfold StringMap.get? at hg
    cases hf : headers.find? (fun kv => kv.1 = key) with
    | none => simp [hf] at hg
    | some kv =>
      have h1 := List.find?_some hf
      simp only [decide_eq_true_eq] at h1
      exact ⟨kv, List.mem_of_find?_eq_some hf, by rw [h1]⟩
  | none =>
    simp only
    cases hf : headers.find? (fun kv => L.toLower kv.1 = L.toLower key) with
    | none =>
      simp only [Bool.false_eq_true, false_iff]
      rintro ⟨kv, hkv, hl⟩
      have := List.find?_eq_none.1 hf kv hkv
      simp [hl] at this
    | some kv =>
      have h1 := List.find?_some hf
      simp only [decide_eq_true_eq] at h1
      simp only [true_iff]
      exact ⟨kv, List.mem_of_find?_eq_some hf, h1⟩

theorem getHeader_exact (L : Lib) (headers : StringMap) (key v : GoString)
    (h : headers.get? key = some v) : getHeader L headers key = (v, true) := by
  unfold getHeader
  rw [h]

theorem getHeader_not_found (L : Lib) (headers : StringMap) (key : GoString)
    (h : (getHeader L headers key).2 = false) : getHeader L headers key = ([], false) := by
  unfold getHeader at h ⊢
  cases hg : headers.get? key with
  | some v => simp [hg] at h
  | none =>
    simp only [hg] at h ⊢
    cases hf : headers.find? (fun kv => L.toLower kv.1 = L.toLower key) with
    | none => rfl
    | some kv => simp [hf] at h

theorem evaluateCondition_header (L : Lib) (headers : StringMap)
    (key op value : GoString) :
    evaluateCondition L { Type_ := str "header", Key := key, Operator := op, Value := value }
      headers =
      matchValue L op (getHeader L headers key).1 value (getHeader L headers key).2 := by
  simp [evaluateCondition]

/-- C13: `getQueryParam` finds nothing in a path without `?`; otherwise it splits the text
after the first `?` on `&` and answers from the leftmost pair whose name is the key, with
the text after the first `=` of that pair, empty for a bare pair. -/
theorem C13_query_param_lookup (headers : StringMap) (k : GoString) :
    (ch '?' ∉ headers.get (str ":path") → getQueryParam headers k = ([], false)) ∧
    (ch '?' ∈ headers.get (str ":path") →
      getQueryParam headers k =
        match (Split (((headers.get (str ":path")).dropWhile (fun b => b != ch '?')).drop 1)
            (ch '&')).find? (fun pair => pair.takeWhile (fun b => b != ch '=') = k) with
        | some pair => ((pair.dropWhile (fun b => b != ch '=')).drop 1, true)
        | none => ([], false)) ∧
    getQueryParam (pathOnly "/api/test?flag&beta=a=b") (str "flag") = ([], true) ∧
    getQueryParam (pathOnly "/api/test?flag&beta=a=b") (str "beta") = (str "a=b", true) ∧
    evaluateCondition exampleLib (queryCond "beta" "equals" "true")
      (pathOnly "/api/test?beta=true") = true ∧
    evaluateCondition exampleLib (queryCond "beta" "equals" "true")
      (pathOnly "/api/test?beta=false") = false ∧
    evaluateCondition exampleLib (queryCond "beta" "equals" "true")
      (pathOnly "/api/test") = false ∧
    evaluateCondition exampleLib (queryCond "beta" "equals" "true")
      (pathOnly "/api/test?other=value") = false := by
  refine ⟨?_, ?_, by decide, by decide, by decide, by decide, by decide, by decide⟩
  · intro h
    rw [getQueryParam_eq, if_neg h]
  · intro h
    rw [getQueryParam_eq, if_pos h]

/-- The value `getHeader` returns when the exact key is absent: that of the first entry, in
the order the map is visited, whose key equals the requested key after lower-casing both. -/
theorem getHeader_first (L : Lib) (key : GoString) (pre post : StringMap)
    (kv : GoString × GoString) (hnone : StringMap.get? (pre ++ kv :: post) key = none)
    (hpre : ∀ x ∈ pre, L.toLower x.1 ≠ L.toLower key)
    (hkv : L.toLower kv.1 = L.toLower key) :
    getHeader L (pre ++ kv :: post) key = (kv.2, true) := by
  have hf : (pre ++ kv :: post).find? (fun x => decide (L.toLower x.1 = L.toLower key)) =
      some kv := by
    rw [List.find?_append]
    have h1 : pre.find? (fun x => decide (L.toLower x.1 = L.toLower key)) = none := by
      rw [List.find?_eq_none]
      intro x hx
      simpa using hpre x hx
    rw [h1, Option.none_or, List.find?_cons_of_pos]
    simpa using hkv
  unfold getHeader
  rw [hnone]
  simp only [hf]

/-- C14: `getHeader` reports found exactly when some key of the map equals the requested
key after lower-casing both.  When the map holds the requested key in its exact casing the
value is the one stored under that key.  Otherwise the value is that of the first entry, in
the order the map is visited, whose key equals the requested key after lower-casing both,
and the empty string when nothing is found. -/
theorem C14_header_lookup (L : Lib) (headers : StringMap) (key : GoString) :
    ((getHeader L headers key).2 = true ↔
      ∃ kv ∈ headers, L.toLower kv.1 = L.toLower key) ∧
    (∀ v, headers.get? key = some v → getHeader L headers key = (v, true)) ∧
    (headers.get? key = none → ∀ pre kv post, headers = pre ++ kv :: post →
      (∀ x ∈ pre, L.toLower x.1 ≠ L.toLower key) → L.toLower kv.1 = L.toLower key →
      getHeader L headers key = (kv.2, true)) ∧
    ((getHeader L headers key).2 = false → getHeader L headers key = ([], false)) := by
  refine ⟨getHeader_found_iff L headers key, fun v h => getHeader_exact L headers key v h,
    ?_, getHeader_not_found L headers key⟩
  intro hnone pre kv post hsplit hpre hkv
  subst hsplit
  exact getHeader_first L key pre post kv hnone hpre hkv

/-- C15: a header condition with operator `exists` is true exactly when some key of the map
equals the condition's key up to letter case, whatever value is stored, the empty string
included, and whatever the condition's `Value`. -/
theorem C15_exists_operator (L : Lib) (headers : StringMap) (key value : GoString) :
    (evaluateCondition L
        { Type_ := str "header", Key := key, Operator := str "exists", Value := value }
        headers = true ↔ ∃ kv ∈ headers, L.toLower kv.1 = L.toLower key) ∧
    (∀ v, (key, v) ∈ headers → evaluateCondition L
        { Type_ := str "header", Key := key, Operator := str "exists", Value := value }
        headers = true) ∧
    ((∀ kv ∈ headers, L.toLower kv.1 ≠ L.toLower key) → evaluateCondition L
        { Type_ := str "header", Key := key, Operator := str "exists", Value := value }
        headers = false) ∧
    (∀ value2, evaluateCondition L
        { Type_ := str "header", Key := key, Operator := str "exists", Value := value2 }
        headers = evaluateCondition L
        { Type_ := str "header", Key := key, Operator := str "exists", Value := value }
        headers) := by
  have hval : ∀ w, evaluateCondition L
      { Type_ := str "header", Key := key, Operator := str "exists", Value := w } headers =
      (getHeader L headers key).2 := by
    intro w
    rw [evaluateCondition_header]
    simp [matchValue]
  refine ⟨?_, ?_, ?_, ?_⟩
  · rw [hval, getHeader_found_iff]
  · intro v hv
    rw [hval, getHeader_found_iff]
    exact ⟨(key, v), hv, rfl⟩
  · intro habs
    rw [hval]
    cases hf : (getHeader L headers key).2 with
    | false => rfl
    | true =>
      obtain ⟨kv, hkv, hl⟩ := (getHeader_found_iff L headers key).1 hf
      exact absurd hl (habs kv hkv)
  · intro value2
    rw [hval, hval]

/-! ## Operators -/

theorem matchValue_regex (L : Lib) (value pattern : GoString) (e : Bool) :
    matchValue L (str "regex") value pattern e =
      match L.regexpCompile pattern with
      | none => false
      | some re => re value := by
  unfold matchValue
  rw [if_neg (by decide), if_neg (by decide), if_neg (by decide), if_neg (by decide),
    if_neg (by decide), if_pos rfl]

theorem matchValue_equals (L : Lib) (value pattern : GoString) (e : Bool) :
    matchValue L (str "equals") value pattern e = decide (value = pattern) := by
  unfold matchValue
  rw [if_neg (by decide), if_pos rfl]

theorem digitPattern_items :
    parsePattern digitPattern.length digitPattern = some digitItems := by decide

theorem searchFrom_digit_later (t : GoString) : searchFrom digitItems false t = false := by
  induction t with
  | nil => rfl
  | cons c t ih =>
    rw [searchFrom, ih, Bool.or_false]
    rfl

theorem searchFrom_digit (v : GoString) :
    searchFrom digitItems true v = true ↔ ∃ d, v = [d] ∧ ch '0' ≤ d ∧ d ≤ ch '9' := by
  cases v with
  | nil => simp [searchFrom, digitItems, matchHere]
  | cons c t =>
    rw [searchFrom, searchFrom_digit_later, Bool.or_false]
    cases t with
    | nil => simp [digitItems, matchHere, inRanges]
    | cons c2 t2 => simp [digitItems, matchHere, inRanges]

theorem regexpFragment_digit :
    regexpFragment digitPattern = some (fun text => searchFrom digitItems true text) := by
  unfold regexpFragment
  rw [digitPattern_items]
  rfl

theorem agreesWithFragment_fragmentLib : AgreesWithFragment fragmentLib :=
  fun _ _ h => h

/-- C16: a header condition with operator `regex` and pattern `^[0-9]$` is true exactly
when the header is found and its value is one ASCII digit; a missing header does not
match. -/
theorem C16_single_digit_regex (L : Lib) (hL : AgreesWithFragment L) (headers : StringMap)
    (key : GoString) :
    (evaluateCondition L (digitCond key) headers = true ↔
      ∃ d, getHeader L headers key = ([d], true) ∧ ch '0' ≤ d ∧ d ≤ ch '9') ∧
    ((getHeader L headers key).2 = false →
      evaluateCondition L (digitCond key) headers = false) := by
  have hval : evaluateCondition L (digitCond key) headers =
      searchFrom digitItems true (getHeader L headers key).1 := by
    unfold digitCond
    rw [evaluateCondition_header, matchValue_regex, hL _ _ regexpFragment_digit]
  have hiff : evaluateCondition L (digitCond key) headers = true ↔
      ∃ d, getHeader L headers key = ([d], true) ∧ ch '0' ≤ d ∧ d ≤ ch '9' := by
    rw [hval, searchFrom_digit]
    constructor
    · rintro ⟨d, hd, h1, h2⟩
      refine ⟨d, ?_, h1, h2⟩
      cases hf : (getHeader L headers key).2 with
      | false =>
        have := getHeader_not_found L headers key hf
        rw [this] at hd
        simp at hd
      | true =>
        rw [← hd, ← hf]
    · rintro ⟨d, hd, h1, h2⟩
      exact ⟨d, by rw [hd], h1, h2⟩
  refine ⟨hiff, ?_⟩
  intro hnf
  cases he : evaluateCondition L (digitCond key) headers with
  | false => rfl
  | true =>
    obtain ⟨d, hd, -, -⟩ := hiff.1 he
    rw [hd] at hnf
    simp at hnf

/-- C16 at the values of `TestRouter_Evaluate_RegexOperator`. -/
theorem C16_single_digit_regex_witness :
    AgreesWithFragment fragmentLib ∧
    ((evaluateCondition fragmentLib (digitCond (str "X-Request-Hash"))
        [(str "X-Request-Hash", str "5")] = true ↔
      ∃ d, getHeader fragmentLib [(str "X-Request-Hash", str "5")] (str "X-Request-Hash")
        = ([d], true) ∧ ch '0' ≤ d ∧ d ≤ ch '9') ∧
    ((getHeader fragmentLib [(str "X-Request-Hash", str "5")] (str "X-Request-Hash")).2 = false →
      evaluateCondition fragmentLib (digitCond (str "X-Request-Hash"))
        [(str "X-Request-Hash", str "5")] = false)) ∧
    evaluateCondition fragmentLib (digitCond (str "X-Request-Hash"))
      [(str "X-Request-Hash", str "5")] = true ∧
    evaluateCondition fragmentLib (digitCond (str "X-Request-Hash"))
      [(str "X-Request-Hash", str "0")] = true ∧
    evaluateCondition fragmentLib (digitCond (str "X-Request-Hash"))
      [(str "X-Request-Hash", str "9")] = true ∧
    evaluateCondition fragmentLib (digitCond (str "X-Request-Hash"))
      [(str "X-Request-Hash", str "a")] = false ∧
    evaluateCondition fragmentLib (digitCond (str "X-Request-Hash"))
      [(str "X-Request-Hash", str "10")] = false ∧
    evaluateCondition fragmentLib (digitCond (str "X-Request-Hash"))
      [(str "X-Request-Hash", str "")] = false ∧
    evaluateCondition fragmentLib (digitCond (str "X-Request-Hash")) [] = false :=
  ⟨agreesWithFragment_fragmentLib,
   C16_single_digit_regex fragmentLib agreesWithFragment_fragmentLib
     [(str "X-Request-Hash", str "5")] (str "X-Request-Hash"),
   by decide, by decide, by decide, by decide, by decide, by decide, by decide⟩

/-- C17, as stated, fails: a matching rule whose name is the empty string gives a decision
with an empty `MatchedRule` that is not the default path. -/
theorem C17_nameless_rule_looks_like_default :
    Matches exampleLib priorityHeaders ruleNameless ∧
    (Evaluate exampleLib (NewRouter insertionSort_func namelessConfig)
      priorityHeaders).MatchedRule = [] ∧
    (Evaluate exampleLib (NewRouter insertionSort_func namelessConfig)
      priorityHeaders).Target = str "v2-priority" ∧
    (Evaluate exampleLib (NewRouter insertionSort_func namelessConfig)
      priorityHeaders).Target ≠ namelessConfig.DefaultTarget :=
  ⟨(evaluateRule_iff exampleLib priorityHeaders ruleNameless).1 (by decide),
   by decide, by decide, by decide⟩

/-- C17, amended: when every configured rule has a non-empty name, `MatchedRule` is empty
exactly on the default path: an empty `MatchedRule` means no rule matched and the target is
the default target, a matching rule means a non-empty `MatchedRule`, and no matching rule
means an empty one. -/
theorem C17_matched_rule_marks_default (L : Lib) (sortSlice : SliceSorter)
    (hspec : SortSliceSpec sortSlice) (config : PluginConfig) (headers : StringMap)
    (hnames : ∀ rule ∈ config.Rules, rule.Name ≠ []) :
    ((Evaluate L (NewRouter sortSlice config) headers).MatchedRule = [] →
      (∀ rule ∈ config.Rules, ¬ Matches L headers rule) ∧
      (Evaluate L (NewRouter sortSlice config) headers).Target = config.DefaultTarget) ∧
    ((∃ rule ∈ config.Rules, Matches L headers rule) →
      (Evaluate L (NewRouter sortSlice config) headers).MatchedRule ≠ []) ∧
    ((∀ rule ∈ config.Rules, ¬ Matches L headers rule) →
      (Evaluate L (NewRouter sortSlice config) headers).MatchedRule = []) := by
  have hmatch : (∃ rule ∈ config.Rules, Matches L headers rule) →
      (Evaluate L (NewRouter sortSlice config) headers).MatchedRule ≠ [] := by
    intro h
    obtain ⟨w, hw, -, he, -⟩ := evaluate_least L sortSlice hspec config headers h
    rw [he]
    exact hnames w hw
  have hdefault : (∀ rule ∈ config.Rules, ¬ Matches L headers rule) →
      Evaluate L (NewRouter sortSlice config) headers =
        defaultDecision config.DefaultTarget :=
    evaluate_default L sortSlice hspec config headers
  refine ⟨?_, hmatch, ?_⟩
  · intro hempty
    have hno : ∀ rule ∈ config.Rules, ¬ Matches L headers rule :=
      fun r hr hm => hmatch ⟨r, hr, hm⟩ hempty
    exact ⟨hno, by rw [hdefault hno]; rfl⟩
  · intro hno
    rw [hdefault hno]
    rfl

/-- C17 amended, at `TestRouter_Evaluate_Priority`. -/
theorem C17_matched_rule_marks_default_witness :
    (∀ rule ∈ priorityConfig.Rules, rule.Name ≠ []) ∧
    (Evaluate exampleLib (NewRouter insertionSort_func priorityConfig)
      priorityHeaders).MatchedRule ≠ [] ∧
    (Evaluate exampleLib (NewRouter insertionSort_func priorityConfig)
      plainHeaders).MatchedRule = [] :=
  have hthm := C17_matched_rule_marks_default exampleLib insertionSort_func insertionSort_spec
    priorityConfig priorityHeaders (by decide)
  ⟨by decide, hthm.2.1 ⟨ruleLow, by decide, matches_ruleLow⟩, by decide⟩

/-! ## DetermineRoute -/

theorem determineRoute_eq (headers : StringMap) :
    DetermineRoute headers =
      if (Contains (readHeader headers (str "User-Agent") (str "user-agent")) (str "iPhone") &&
          decide (readHeader headers (str "X-Geo-Country") (str "x-geo-country") = str "DE") &&
          decide ((ParseCookieValue (readHeader headers (str "Cookie") (str "cookie"))
            (str "beta-tester")).1 = str "true")) = true then str "v2"
      else if (decide ((readHeader headers (str "X-Request-Hash")
            (str "x-request-hash")).length = 1) &&
          strLe (str "0") (readHeader headers (str "X-Request-Hash") (str "x-request-hash")) &&
          strLe (readHeader headers (str "X-Request-Hash") (str "x-request-hash")) (str "9"))
          = true then str "v2"
      else str "v1" := rfl

theorem single_digit_iff (h : GoString) :
    (decide (h.length = 1) && strLe (str "0") h && strLe h (str "9")) = true ↔
      ∃ d, h = [d] ∧ ch '0' ≤ d ∧ d ≤ ch '9' := by
  cases h with
  | nil => simp
  | cons d t =>
    cases t with
    | cons d2 t2 => simp
    | nil =>
      have h0 : str "0" = [ch '0'] := by decide
      have h9 : str "9" = [ch '9'] := by decide
      rw [h0, h9]
      simp only [List.length_singleton, decide_True, Bool.true_and, strLe, strLess,
        Bool.and_eq_true, Bool.not_eq_true', List.cons.injEq, and_true, exists_eq_left']
      constructor
      · rintro ⟨h1, h2⟩
        constructor
        · by_contra hc
          have hlt : d < ch '0' := by omega
          simp [hlt] at h1
        · by_contra hc
          have hlt : ch '9' < d := by omega
          simp [hlt] at h2
      · rintro ⟨h1, h2⟩
        have hn1 : ¬ d < ch '0' := by omega
        have hn2 : ¬ ch '9' < d := by omega
        simp [hn1, hn2]

theorem canonical_lower_facts :
    ∀ a ∈ canonicalNames, ∀ c ∈ canonicalNames,
      (asciiToLower a = asciiToLower c → a = c) ∧ asciiToLower a ≠ c ∧
      a ≠ asciiToLower c := by decide

theorem lowerKeys_get (m : StringMap) (hm : ∀ kv ∈ m, kv.1 ∈ canonicalNames) (c : GoString)
    (hc : c ∈ canonicalNames) :
    (lowerKeys m).get (asciiToLower c) = m.get c ∧ (lowerKeys m).get c = [] ∧
      m.get (asciiToLower c) = [] := by
  induction m with
  | nil => exact ⟨rfl, rfl, rfl⟩
  | cons kv t ih =>
    have hkv : kv.1 ∈ canonicalNames := hm kv (List.mem_cons_self _ _)
    obtain ⟨i1, i2, i3⟩ := ih (fun x hx => hm x (List.mem_cons_of_mem _ hx))
    obtain ⟨f1, f2, f3⟩ := canonical_lower_facts kv.1 hkv c hc
    simp only [StringMap.get, StringMap.get?, lowerKeys, List.map_cons] at i1 i2 i3 ⊢
    refine ⟨?_, ?_, ?_⟩
    · by_cases hk : kv.1 = c
      · rw [List.find?_cons_of_pos _ (by simp [hk]), List.find?_cons_of_pos _ (by simp [hk])]
        rfl
      · have hk2 : ¬ asciiToLower kv.1 = asciiToLower c := fun h => hk (f1 h)
        rw [List.find?_cons_of_neg _ (by simpa using hk2),
          List.find?_cons_of_neg _ (by simpa using hk)]
        exact i1
    · rw [List.find?_cons_of_neg _ (by simpa using f2)]
      exact i2
    · rw [List.find?_cons_of_neg _ (by simpa using f3)]
      exact i3

theorem readHeader_lowerKeys (m : StringMap) (hm : ∀ kv ∈ m, kv.1 ∈ canonicalNames)
    (c : GoString) (hc : c ∈ canonicalNames) :
    readHeader (lowerKeys m) c (asciiToLower c) = readHeader m c (asciiToLower c) := by
  obtain ⟨h1, h2, h3⟩ := lowerKeys_get m hm c hc
  unfold readHeader
  rw [h1, h2, h3]
  by_cases h0 : m.get c = []
  · simp [h0]
  · simp [h0]

/-- C18: `DetermineRoute` returns "v2" exactly when the User-Agent contains "iPhone", the
country is "DE" and the beta-tester cookie is "true", or the request hash is one character
between "0" and "9", and "v1" otherwise; each header is read under its canonical name and,
when that is absent or empty, under its lower-case name, so a map with lower-case names
gets the result of the same map with canonical names. -/
theorem C18_determine_route (headers : StringMap) :
    (DetermineRoute headers = str "v2" ↔
      (Contains (readHeader headers (str "User-Agent") (str "user-agent")) (str "iPhone")
          = true ∧
        readHeader headers (str "X-Geo-Country") (str "x-geo-country") = str "DE" ∧
        (ParseCookieValue (readHeader headers (str "Cookie") (str "cookie"))
          (str "beta-tester")).1 = str "true") ∨
      ∃ d, readHeader headers (str "X-Request-Hash") (str "x-request-hash") = [d] ∧
        ch '0' ≤ d ∧ d ≤ ch '9') ∧
    (DetermineRoute headers ≠ str "v2" → DetermineRoute headers = str "v1") ∧
    ((∀ kv ∈ headers, kv.1 ∈ canonicalNames) →
      DetermineRoute (lowerKeys headers) = DetermineRoute headers) := by
  have hne : str "v1" ≠ str "v2" := by decide
  refine ⟨?_, ?_, ?_⟩
  · rw [determineRoute_eq, ← single_digit_iff]
    by_cases h1 : (Contains (readHeader headers (str "User-Agent") (str "user-agent"))
          (str "iPhone") &&
        decide (readHeader headers (str "X-Geo-Country") (str "x-geo-country") = str "DE") &&
        decide ((ParseCookieValue (readHeader headers (str "Cookie") (str "cookie"))
          (str "beta-tester")).1 = str "true")) = true
    · rw [if_pos h1]
      simp only [Bool.and_eq_true, decide_eq_true_eq] at h1
      simp only [true_iff]
      exact Or.inl ⟨h1.1.1, h1.1.2, h1.2⟩
    · rw [if_neg h1]
      by_cases h2 : (decide ((readHeader headers (str "X-Request-Hash")
            (str "x-request-hash")).length = 1) &&
          strLe (str "0") (readHeader headers (str "X-Request-Hash") (str "x-request-hash")) &&
          strLe (readHeader headers (str "X-Request-Hash") (str "x-request-hash")) (str "9"))
          = true
      · rw [if_pos h2]
        simp only [true_iff]
        exact Or.inr h2
      · rw [if_neg h2]
        constructor
        · intro h; exact absurd h hne
        · rintro (⟨a, b, c⟩ | h)
          · exact absurd (by simp [a, b, c]) h1
          · exact absurd h h2
  · intro h
    rw [determineRoute_eq] at h ⊢
    split at h
    · exact absurd rfl h
    · split at h
      · exact absurd rfl h
      · rename_i h1 h2
        rw [if_neg h1, if_neg h2]
  · intro hkeys
    have hua := readHeader_lowerKeys headers hkeys (str "User-Agent") (by decide)
    have hgeo := readHeader_lowerKeys headers hkeys (str "X-Geo-Country") (by decide)
    have hck := readHeader_lowerKeys headers hkeys (str "Cookie") (by decide)
    have hrh := readHeader_lowerKeys headers hkeys (str "X-Request-Hash") (by decide)
    have l1 : asciiToLower (str "User-Agent") = str "user-agent" := by decide
    have l2 : asciiToLower (str "X-Geo-Country") = str "x-geo-country" := by decide
    have l3 : asciiToLower (str "Cookie") = str "cookie" := by decide
    have l4 : asciiToLower (str "X-Request-Hash") = str "x-request-hash" := by decide
    rw [l1] at hua
    rw [l2] at hgeo
    rw [l3] at hck
    rw [l4] at hrh
    rw [determineRoute_eq, determineRoute_eq, hua, hgeo, hck, hrh]

/-! ## The order in which a map is visited -/

theorem find?_perm {α : Type} (p : α → Bool) (l1 l2 : List α) (hperm : l1.Perm l2)
    (huniq : ∀ a ∈ l1, ∀ b ∈ l1, p a = true → p b = true → a = b) :
    l1.find? p = l2.find? p := by
  cases h1 : l1.find? p with
  | none =>
    symm
    rw [List.find?_eq_none] at h1 ⊢
    intro x hx
    exact h1 x (hperm.mem_iff.2 hx)
  | some a =>
    have ha : a ∈ l1 := List.mem_of_find?_eq_some h1
    have hpa : p a = true := List.find?_some h1
    cases h2 : l2.find? p with
    | none =>
      rw [List.find?_eq_none] at h2
      exact absurd hpa (h2 a (hperm.mem_iff.1 ha))
    | some b =>
      have hb : b ∈ l1 := hperm.mem_iff.2 (List.mem_of_find?_eq_some h2)
      rw [huniq a ha b hb hpa (List.find?_some h2)]

theorem get?_perm (h1 h2 : StringMap) (hperm : h1.Perm h2)
    (hnodup : (h1.map Prod.fst).Nodup) (key : GoString) : h1.get? key = h2.get? key := by
  unfold StringMap.get?
  rw [find?_perm _ h1 h2 hperm]
  intro a ha b hb hpa hpb
  simp only [decide_eq_true_eq] at hpa hpb
  exact List.inj_on_of_nodup_map hnodup ha hb (by rw [hpa, hpb])

theorem getHeader_perm (L : Lib) (h1 h2 : StringMap) (hperm : h1.Perm h2)
    (hnodup : (h1.map Prod.fst).Nodup)
    (hcase : ∀ a ∈ h1, ∀ b ∈ h1, L.toLower a.1 = L.toLower b.1 → a.1 = b.1)
    (key : GoString) : getHeader L h1 key = getHeader L h2 key := by
  have hf : h1.find? (fun kv => decide (L.toLower kv.1 = L.toLower key)) =
      h2.find? (fun kv => decide (L.toLower kv.1 = L.toLower key)) := by
    apply find?_perm _ h1 h2 hperm
    intro a ha b hb hpa hpb
    simp only [decide_eq_true_eq] at hpa hpb
    exact List.inj_on_of_nodup_map hnodup ha hb (hcase a ha b hb (by rw [hpa, hpb]))
  unfold getHeader
  rw [get?_perm h1 h2 hperm hnodup key]
  simp only [hf]

theorem evaluateCondition_perm (L : Lib) (h1 h2 : StringMap) (hperm : h1.Perm h2)
    (hnodup : (h1.map Prod.fst).Nodup)
    (hcase : ∀ a ∈ h1, ∀ b ∈ h1, L.toLower a.1 = L.toLower b.1 → a.1 = b.1)
    (cond : Condition) : evaluateCondition L cond h1 = evaluateCondition L cond h2 := by
  have hget : ∀ key, h1.get key = h2.get key := by
    intro key
    unfold StringMap.get
    rw [get?_perm h1 h2 hperm hnodup key]
  have hcookie : ∀ name, getCookie h1 name = getCookie h2 name := by
    intro name
    unfold getCookie
    rw [get?_perm h1 h2 hperm hnodup, get?_perm h1 h2 hperm hnodup]
  have hquery : ∀ key, getQueryParam h1 key = getQueryParam h2 key := by
    intro key
    unfold getQueryParam
    rw [hget]
  unfold evaluateCondition
  simp only [getHeader_perm L h1 h2 hperm hnodup hcase, hcookie, hquery, hget]

theorem allConditions_perm (L : Lib) (h1 h2 : StringMap)
    (hcond : ∀ cond, evaluateCondition L cond h1 = evaluateCondition L cond h2)
    (conds : List Condition) : allConditions L h1 conds = allConditions L h2 conds := by
  induction conds with
  | nil => rfl
  | cons c cs ih => simp only [allConditions, hcond c, ih]

theorem firstMatch_perm (L : Lib) (h1 h2 : StringMap)
    (hcond : ∀ cond, evaluateCondition L cond h1 = evaluateCondition L cond h2)
    (rules : List RoutingRule) : firstMatch L h1 rules = firstMatch L h2 rules := by
  induction rules with
  | nil => rfl
  | cons r rs ih =>
    simp only [firstMatch, evaluateRule, allConditions_perm L h1 h2 hcond, ih]

/-- C19, as stated, fails: the same map, holding two case variants of a header and not the
exact key, visited in two orders gives two decisions. -/
theorem C19_case_variants_depend_on_visiting_order :
    modeHeaders1.Perm modeHeaders2 ∧ (modeHeaders1.map Prod.fst).Nodup ∧
    (Evaluate exampleLib (NewRouter insertionSort_func modeConfig) modeHeaders1).Target
      = str "v2" ∧
    (Evaluate exampleLib (NewRouter insertionSort_func modeConfig) modeHeaders2).Target
      = str "v1" ∧
    Evaluate exampleLib (NewRouter insertionSort_func modeConfig) modeHeaders1 ≠
      Evaluate exampleLib (NewRouter insertionSort_func modeConfig) modeHeaders2 :=
  ⟨List.Perm.swap _ _ _, by decide, by decide, by decide, by decide⟩

/-- C19, amended: for every router, two evaluations on the same header map return the same
decision, in whatever order the map's entries are visited, provided the map holds no two
different keys that are equal after lower-casing. -/
theorem C19_evaluate_is_deterministic (L : Lib) (r : Router) (h1 h2 : StringMap)
    (hperm : h1.Perm h2) (hnodup : (h1.map Prod.fst).Nodup)
    (hcase : ∀ a ∈ h1, ∀ b ∈ h1, L.toLower a.1 = L.toLower b.1 → a.1 = b.1) :
    Evaluate L r h1 = Evaluate L r h2 := by
  unfold Evaluate
  rw [firstMatch_perm L h1 h2 (evaluateCondition_perm L h1 h2 hperm hnodup hcase)]

/-- C19 amended, at the request of `TestRouter_Evaluate_Priority` visited in both
orders. -/
theorem C19_evaluate_is_deterministic_witness :
    (priorityHeaders.Perm priorityHeadersRev ∧ (priorityHeaders.map Prod.fst).Nodup ∧
      ∀ a ∈ priorityHeaders, ∀ b ∈ priorityHeaders,
        exampleLib.toLower a.1 = exampleLib.toLower b.1 → a.1 = b.1) ∧
    Evaluate exampleLib (NewRouter insertionSort_func priorityConfig) priorityHeaders =
      Evaluate exampleLib (NewRouter insertionSort_func priorityConfig) priorityHeadersRev :=
  ⟨⟨List.Perm.swap _ _ _, by decide, by decide⟩,
   C19_evaluate_is_deterministic exampleLib (NewRouter insertionSort_func priorityConfig)
     priorityHeaders priorityHeadersRev (List.Perm.swap _ _ _) (by decide) (by decide)⟩

/-! ## Missing attributes -/

theorem getCookie_not_found (headers : StringMap) (name : GoString)
    (h : (getCookie headers name).2 = false) : getCookie headers name = ([], false) := by
  have hp : ∀ hdr, (ParseCookieValue hdr name).2 = false →
      ParseCookieValue hdr name = ([], false) := by
    intro hdr hnf
    rw [parseCookieValue_eq_loop] at hnf ⊢
    exact parseCookiePairs_not_found name _ hnf
  unfold getCookie at h ⊢
  cases h1 : headers.get? (str "cookie") with
  | some hdr =>
    simp only [h1] at h ⊢
    exact hp hdr h
  | none =>
    simp only [h1] at h ⊢
    cases h2 : headers.get? (str "Cookie") with
    | some hdr =>
      simp only [h2] at h ⊢
      exact hp hdr h
    | none => rfl

theorem getQueryParam_not_found (headers : StringMap) (key : GoString)
    (h : (getQueryParam headers key).2 = false) :
    getQueryParam headers key = ([], false) := by
  rw [getQueryParam_eq] at h ⊢
  split
  · rename_i hq
    rw [if_pos hq] at h
    split
    · rename_i pair hf
      rw [hf] at h
      simp at h
    · rfl
  · rfl

theorem evaluateCondition_cookie (L : Lib) (cond : Condition) (headers : StringMap)
    (ht : cond.Type_ = str "cookie") :
    evaluateCondition L cond headers =
      matchValue L cond.Operator (getCookie headers cond.Key).1 cond.Value
        (getCookie headers cond.Key).2 := by
  unfold evaluateCondition
  rw [ht, if_neg (by decide), if_pos rfl]

theorem evaluateCondition_query (L : Lib) (cond : Condition) (headers : StringMap)
    (ht : cond.Type_ = str "query") :
    evaluateCondition L cond headers =
      matchValue L cond.Operator (getQueryParam headers cond.Key).1 cond.Value
        (getQueryParam headers cond.Key).2 := by
  unfold evaluateCondition
  rw [ht, if_neg (by decide), if_neg (by decide), if_neg (by decide), if_pos rfl]

theorem evaluateCondition_header_of (L : Lib) (cond : Condition) (headers : StringMap)
    (ht : cond.Type_ = str "header") :
    evaluateCondition L cond headers =
      matchValue L cond.Operator (getHeader L headers cond.Key).1 cond.Value
        (getHeader L headers cond.Key).2 := by
  unfold evaluateCondition
  rw [ht, if_pos rfl]

/-- C20: with operator `equals` a missing attribute compares as the empty string: a
condition of type header, cookie or query on an attribute the lookup does not find is true
when its `Value` is empty and false otherwise, and a rule with that single condition matches
accordingly. -/
theorem C20_equals_on_missing_attribute (L : Lib) (cond : Condition) (headers : StringMap)
    (hop : cond.Operator = str "equals") :
    (cond.Type_ = str "header" →
      (∀ kv ∈ headers, L.toLower kv.1 ≠ L.toLower cond.Key) →
      evaluateCondition L cond headers = decide (cond.Value = [])) ∧
    (cond.Type_ = str "cookie" → (getCookie headers cond.Key).2 = false →
      evaluateCondition L cond headers = decide (cond.Value = [])) ∧
    (cond.Type_ = str "query" → (getQueryParam headers cond.Key).2 = false →
      evaluateCondition L cond headers = decide (cond.Value = [])) ∧
    (∀ rule : RoutingRule, rule.Conditions = [cond] →
      evaluateRule L rule headers = evaluateCondition L cond headers) := by
  have hdec : decide (([] : GoString) = cond.Value) = decide (cond.Value = []) := by
    by_cases h : cond.Value = []
    · simp [h]
    · have h2 : ¬ ([] : GoString) = cond.Value := fun h3 => h h3.symm
      simp [h, h2]
  refine ⟨?_, ?_, ?_, ?_⟩
  · intro ht habs
    have hnf : (getHeader L headers cond.Key).2 = false := by
      cases hf : (getHeader L headers cond.Key).2 with
      | false => rfl
      | true =>
        obtain ⟨kv, hkv, hl⟩ := (getHeader_found_iff L headers cond.Key).1 hf
        exact absurd hl (habs kv hkv)
    rw [evaluateCondition_header_of L cond headers ht, hop, matchValue_equals,
      getHeader_not_found L headers cond.Key hnf]
    exact hdec
  · intro ht hnf
    rw [evaluateCondition_cookie L cond headers ht, hop, matchValue_equals,
      getCookie_not_found headers cond.Key hnf]
    exact hdec
  · intro ht hnf
    rw [evaluateCondition_query L cond headers ht, hop, matchValue_equals,
      getQueryParam_not_found headers cond.Key hnf]
    exact hdec
  · intro rule hrule
    unfold evaluateRule
    rw [hrule]
    cases hc : evaluateCondition L cond headers <;> simp [allConditions, hc]

/-- C20 on the request of `TestRouter_Evaluate_Priority`, which has no header `X-Missing`,
no cookie and no query string. -/
theorem C20_equals_on_missing_attribute_witness :
    (headerCond "X-Missing" "equals" "").Operator = str "equals" ∧
    (∀ kv ∈ priorityHeaders,
      exampleLib.toLower kv.1 ≠ exampleLib.toLower (headerCond "X-Missing" "equals" "").Key) ∧
    evaluateCondition exampleLib (headerCond "X-Missing" "equals" "") priorityHeaders = true ∧
    evaluateCondition exampleLib (headerCond "X-Missing" "equals" "x") priorityHeaders
      = false ∧
    evaluateCondition exampleLib
      { Type_ := str "cookie", Key := str "beta", Operator := str "equals", Value := [] }
      priorityHeaders = true ∧
    evaluateCondition exampleLib (queryCond "beta" "equals" "") priorityHeaders = true ∧
    evaluateCondition exampleLib (queryCond "beta" "equals" "x") priorityHeaders = false :=
  have hthm := C20_equals_on_missing_attribute exampleLib (headerCond "X-Missing" "equals" "")
    priorityHeaders rfl
  ⟨rfl, by decide, by rw [hthm.1 rfl (by decide)]; decide, by decide, by decide, by decide,
   by decide⟩

/-! ## Cookie, path and unknown conditions -/

theorem matchValue_exists (L : Lib) (value pattern : GoString) (e : Bool) :
    matchValue L (str "exists") value pattern e = e := by
  unfold matchValue
  rw [if_pos rfl]

theorem matchValue_contains (L : Lib) (value pattern : GoString) (e : Bool) :
    matchValue L (str "contains") value pattern e = Contains value pattern := by
  unfold matchValue
  rw [if_neg (by decide), if_neg (by decide), if_pos rfl]

theorem matchValue_hasPrefix (L : Lib) (value pattern : GoString) (e : Bool) :
    matchValue L (str "prefix") value pattern e = HasPrefix value pattern := by
  unfold matchValue
  rw [if_neg (by decide), if_neg (by decide), if_neg (by decide), if_pos rfl]

theorem matchValue_hasSuffix (L : Lib) (value pattern : GoString) (e : Bool) :
    matchValue L (str "suffix") value pattern e = HasSuffix value pattern := by
  unfold matchValue
  rw [if_neg (by decide), if_neg (by decide), if_neg (by decide), if_neg (by decide),
    if_pos rfl]

theorem matchValue_unknown (L : Lib) (op value pattern : GoString) (e : Bool)
    (h : op ∉ knownOperators) : matchValue L op value pattern e = false := by
  simp only [knownOperators, List.mem_cons, List.mem_singleton, not_or, List.not_mem_nil,
    or_false] at h
  obtain ⟨h1, h2, h3, h4, h5, h6⟩ := h
  unfold matchValue
  rw [if_neg h1, if_neg h2, if_neg h3, if_neg h4, if_neg h5, if_neg h6]

theorem contains_iff_infix (s sub : GoString) : Contains s sub = true ↔ sub <:+: s := by
  unfold Contains
  rw [List.any_eq_true, List.infix_iff_prefix_suffix]
  constructor
  · rintro ⟨t, ht, hp⟩
    exact ⟨t, List.isPrefixOf_iff_prefix.1 hp, (List.mem_tails _ _).1 ht⟩
  · rintro ⟨t, hp, ht⟩
    exact ⟨t, (List.mem_tails _ _).2 ht, List.isPrefixOf_iff_prefix.2 hp⟩

theorem evaluateCondition_path_of (L : Lib) (cond : Condition) (headers : StringMap)
    (ht : cond.Type_ = str "path") :
    evaluateCondition L cond headers =
      matchValue L cond.Operator (headers.get (str ":path")) cond.Value
        (decide (headers.get (str ":path") ≠ [])) := by
  unfold evaluateCondition
  rw [ht, if_neg (by decide), if_neg (by decide), if_pos rfl]

theorem evaluateCondition_path (L : Lib) (headers : StringMap) (key op value : GoString) :
    evaluateCondition L (pathCond key op value) headers =
      matchValue L op (headers.get (str ":path")) value
        (decide (headers.get (str ":path") ≠ [])) :=
  evaluateCondition_path_of L (pathCond key op value) headers rfl

theorem evaluateCondition_unknown_type (L : Lib) (cond : Condition) (headers : StringMap)
    (h : cond.Type_ ∉ knownTypes) : evaluateCondition L cond headers = false := by
  simp only [knownTypes, List.mem_cons, List.mem_singleton, not_or, List.not_mem_nil,
    or_false] at h
  obtain ⟨h1, h2, h3, h4⟩ := h
  unfold evaluateCondition
  rw [if_neg h1, if_neg h2, if_neg h3, if_neg h4]

theorem evaluateCondition_unknown_operator (L : Lib) (cond : Condition)
    (headers : StringMap) (h : cond.Operator ∉ knownOperators) :
    evaluateCondition L cond headers = false := by
  unfold evaluateCondition
  split
  · exact matchValue_unknown L _ _ _ _ h
  · split
    · exact matchValue_unknown L _ _ _ _ h
    · split
      · exact matchValue_unknown L _ _ _ _ h
      · split
        · exact matchValue_unknown L _ _ _ _ h
        · rfl

/-- C21: for a cookie condition the Cookie header is the entry under "cookie" when there
is one, otherwise the entry under "Cookie", and the condition is resolved by
`ParseCookieValue` on it; with neither key the result is the empty string and false; no
other entry of the map has any influence. -/
theorem C21_cookie_header_lookup (headers : StringMap) (n : GoString) :
    (∀ hdr, headers.get? (str "cookie") = some hdr →
      getCookie headers n = ParseCookieValue hdr n) ∧
    (headers.get? (str "cookie") = none → ∀ hdr, headers.get? (str "Cookie") = some hdr →
      getCookie headers n = ParseCookieValue hdr n) ∧
    (headers.get? (str "cookie") = none → headers.get? (str "Cookie") = none →
      getCookie headers n = ([], false)) ∧
    (∀ headers2 : StringMap, headers2.get? (str "cookie") = headers.get? (str "cookie") →
      headers2.get? (str "Cookie") = headers.get? (str "Cookie") →
      getCookie headers2 n = getCookie headers n) ∧
    (∀ (L : Lib) (cond : Condition), cond.Type_ = str "cookie" →
      evaluateCondition L cond headers =
        matchValue L cond.Operator (getCookie headers cond.Key).1 cond.Value
          (getCookie headers cond.Key).2) ∧
    getCookie [(str "COOKIE", str "beta=true")] (str "beta") = ([], false) ∧
    getCookie [(str "Cookie", str "beta=false"), (str "cookie", str "beta=true")] (str "beta")
      = (str "true", true) := by
  refine ⟨?_, ?_, ?_, ?_, ?_, by decide, by decide⟩
  · intro hdr h
    unfold getCookie
    rw [h]
  · intro h1 hdr h2
    unfold getCookie
    rw [h1, h2]
  · intro h1 h2
    unfold getCookie
    rw [h1, h2]
  · intro headers2 h1 h2
    unfold getCookie
    rw [h1, h2]
  · intro L cond ht
    exact evaluateCondition_cookie L cond headers ht

/-- C22: a path condition tests the `:path` attribute as it stands and ignores its `Key`:
`exists` holds exactly when `:path` is present and non-empty, and `prefix`, `suffix`,
`contains` and `equals` are the corresponding string tests of the whole `:path` value
against the condition's `Value`. -/
theorem C22_path_condition (L : Lib) (headers : StringMap) (key value : GoString) :
    (evaluateCondition L (pathCond key (str "exists") value) headers = true ↔
      ∃ p, headers.get? (str ":path") = some p ∧ p ≠ []) ∧
    (evaluateCondition L (pathCond key (str "prefix") value) headers = true ↔
      value <+: headers.get (str ":path")) ∧
    (evaluateCondition L (pathCond key (str "suffix") value) headers = true ↔
      value <:+ headers.get (str ":path")) ∧
    (evaluateCondition L (pathCond key (str "contains") value) headers = true ↔
      value <:+: headers.get (str ":path")) ∧
    (evaluateCondition L (pathCond key (str "equals") value) headers = true ↔
      headers.get (str ":path") = value) ∧
    (∀ op key2, evaluateCondition L (pathCond key2 op value) headers =
      evaluateCondition L (pathCond key op value) headers) ∧
    evaluateCondition exampleLib (pathCond [] (str "prefix") (str "/v2/"))
      (pathOnly "/v2/api/test") = true ∧
    evaluateCondition exampleLib (pathCond [] (str "prefix") (str "/v2/"))
      (pathOnly "/v1/api/test") = false ∧
    evaluateCondition exampleLib (pathCond [] (str "suffix") (str "?a=1"))
      (pathOnly "/v1/api/test?a=1") = true := by
  refine ⟨?_, ?_, ?_, ?_, ?_, ?_, by decide, by decide, by decide⟩
  · rw [evaluateCondition_path, matchValue_exists]
    simp only [decide_eq_true_eq, StringMap.get]
    cases headers.get? (str ":path") with
    | none => simp
    | some p => simp
  · rw [evaluateCondition_path, matchValue_hasPrefix]
    exact List.isPrefixOf_iff_prefix
  · rw [evaluateCondition_path, matchValue_hasSuffix]
    exact List.isSuffixOf_iff_suffix
  · rw [evaluateCondition_path, matchValue_contains]
    exact contains_iff_infix _ _
  · rw [evaluateCondition_path, matchValue_equals]
    simp
  · intro op key2
    rw [evaluateCondition_path, evaluateCondition_path]

/-- C23: a condition of unknown type is false whatever its operator, a condition with an
unknown operator is false, a rule that contains such a condition never matches, and a
config made only of such rules always yields the default target. -/
theorem C23_unknown_conditions_never_match (L : Lib) (cond : Condition)
    (headers : StringMap) :
    (cond.Type_ ∉ knownTypes → evaluateCondition L cond headers = false) ∧
    (cond.Operator ∉ knownOperators → evaluateCondition L cond headers = false) ∧
    (∀ rule : RoutingRule, cond ∈ rule.Conditions →
      (cond.Type_ ∉ knownTypes ∨ cond.Operator ∉ knownOperators) →
      evaluateRule L rule headers = false) ∧
    (∀ (sortSlice : SliceSorter) (config : PluginConfig), SortSliceSpec sortSlice →
      (∀ rule ∈ config.Rules, ∃ c ∈ rule.Conditions,
        c.Type_ ∉ knownTypes ∨ c.Operator ∉ knownOperators) →
      (Evaluate L (NewRouter sortSlice config) headers).Target = config.DefaultTarget) ∧
    evaluateCondition exampleLib
      { Type_ := str "body", Key := str "x", Operator := str "equals", Value := [] }
      priorityHeaders = false ∧
    evaluateCondition exampleLib
      { Type_ := str "header", Key := str "X-Priority", Operator := str "matches",
        Value := str "high" } priorityHeaders = false := by
  have hfalse : ∀ c : Condition, (c.Type_ ∉ knownTypes ∨ c.Operator ∉ knownOperators) →
      evaluateCondition L c headers = false := by
    intro c hc
    rcases hc with h | h
    · exact evaluateCondition_unknown_type L c headers h
    · exact evaluateCondition_unknown_operator L c headers h
  have hrule : ∀ rule : RoutingRule, (∃ c ∈ rule.Conditions,
      c.Type_ ∉ knownTypes ∨ c.Operator ∉ knownOperators) → ¬ Matches L headers rule := by
    rintro rule ⟨c, hc, hu⟩ hm
    have := hm.2 c hc
    rw [hfalse c hu] at this
    exact absurd this (by simp)
  refine ⟨evaluateCondition_unknown_type L cond headers,
    evaluateCondition_unknown_operator L cond headers, ?_, ?_, by decide, by decide⟩
  · intro rule hc hu
    exact (evaluateRule_false_iff L headers rule).2 (hrule rule ⟨cond, hc, hu⟩)
  · intro sortSlice config hspec hall
    rw [evaluate_default L sortSlice hspec config headers (fun r hr => hrule r (hall r hr))]
    rfl

/-! ## DetermineRoute and the rule engine -/

theorem get?_none_of_no_key (m : StringMap) (k : GoString) (h : ∀ kv ∈ m, kv.1 ≠ k) :
    m.get? k = none := by
  unfold StringMap.get?
  have : m.find? (fun kv => decide (kv.1 = k)) = none := by
    rw [List.find?_eq_none]
    intro kv hkv
    simpa using h kv hkv
  rw [this]
  rfl

theorem getHeader_canonical (L : Lib) (hlow : ∀ a ∈ canonicalNames, L.toLower a = asciiToLower a)
    (headers : StringMap) (hkeys : ∀ kv ∈ headers, kv.1 ∈ canonicalNames) (c : GoString)
    (hc : c ∈ canonicalNames) : (getHeader L headers c).1 = headers.get c := by
  unfold getHeader StringMap.get
  cases hg : headers.get? c with
  | some v => rfl
  | none =>
    have hf : headers.find? (fun kv => decide (L.toLower kv.1 = L.toLower c)) = none := by
      rw [List.find?_eq_none]
      intro kv hkv hl
      simp only [decide_eq_true_eq] at hl
      rw [hlow kv.1 (hkeys kv hkv), hlow c hc] at hl
      have hkc : kv.1 = c := (canonical_lower_facts kv.1 (hkeys kv hkv) c hc).1 hl
      unfold StringMap.get? at hg
      have hnone : headers.find? (fun kv => decide (kv.1 = c)) = none := by
        cases hx : headers.find? (fun kv => decide (kv.1 = c)) with
        | none => rfl
        | some y => rw [hx] at hg; simp at hg
      have := List.find?_eq_none.1 hnone kv hkv
      simp [hkc] at this
    simp only [hf]
    rfl

theorem readHeader_canonical (headers : StringMap)
    (hkeys : ∀ kv ∈ headers, kv.1 ∈ canonicalNames) (c : GoString) (hc : c ∈ canonicalNames) :
    readHeader headers c (asciiToLower c) = headers.get c := by
  obtain ⟨-, -, h3⟩ := lowerKeys_get headers hkeys c hc
  unfold readHeader
  rw [h3]
  by_cases h0 : headers.get c = []
  · simp [h0]
  · simp [h0]

theorem getCookie_canonical (headers : StringMap)
    (hkeys : ∀ kv ∈ headers, kv.1 ∈ canonicalNames) (n : GoString) :
    (getCookie headers n).1 = (ParseCookieValue (headers.get (str "Cookie")) n).1 := by
  have hno : headers.get? (str "cookie") = none := by
    apply get?_none_of_no_key
    intro kv hkv
    have h := (canonical_lower_facts kv.1 (hkeys kv hkv) (str "Cookie") (by decide)).2.2
    have hl : asciiToLower (str "Cookie") = str "cookie" := by decide
    rw [hl] at h
    exact h
  unfold getCookie StringMap.get
  rw [hno]
  cases headers.get? (str "Cookie") with
  | some hdr => rfl
  | none => rfl

theorem betaRule_eval (L : Lib) (headers : StringMap) (name : GoString) (add : StringMap)
    (remove : List GoString) :
    evaluateRule L (betaRule name add remove) headers =
      (Contains (getHeader L headers (str "User-Agent")).1 (str "iPhone") &&
        decide ((getHeader L headers (str "X-Geo-Country")).1 = str "DE") &&
        decide ((getCookie headers (str "beta-tester")).1 = str "true")) := by
  have hc : evaluateCondition L
      { Type_ := str "cookie", Key := str "beta-tester", Operator := str "equals",
        Value := str "true" } headers =
      decide ((getCookie headers (str "beta-tester")).1 = str "true") := by
    rw [evaluateCondition_cookie L _ headers rfl]
    exact matchValue_equals L _ _ _
  unfold evaluateRule betaRule
  simp only [allConditions, evaluateCondition_header, hc, matchValue_contains,
    matchValue_equals]
  cases Contains (getHeader L headers (str "User-Agent")).1 (str "iPhone") <;>
    cases decide ((getHeader L headers (str "X-Geo-Country")).1 = str "DE") <;>
    cases decide ((getCookie headers (str "beta-tester")).1 = str "true") <;> rfl

theorem canaryRule_eval (L : Lib) (hL : AgreesWithFragment L) (headers : StringMap)
    (name : GoString) (add : StringMap) (remove : List GoString) :
    evaluateRule L (canaryRule name add remove) headers =
      searchFrom digitItems true (getHeader L headers (str "X-Request-Hash")).1 := by
  have hval : evaluateCondition L (digitCond (str "X-Request-Hash")) headers =
      searchFrom digitItems true (getHeader L headers (str "X-Request-Hash")).1 := by
    unfold digitCond
    rw [evaluateCondition_header, matchValue_regex, hL _ _ regexpFragment_digit]
  unfold evaluateRule canaryRule
  simp only [allConditions, hval]
  cases searchFrom digitItems true (getHeader L headers (str "X-Request-Hash")).1 <;> rfl

/-- C24: on a header map whose keys are all among the four canonical names,
`DetermineRoute` returns the target that the rule engine returns for the configuration with
default target "v1", the beta-testers rule at priority 1 and the canary rule at
priority 2. -/
theorem C24_determine_route_refines_engine (L : Lib) (hL : AgreesWithFragment L)
    (hlow : ∀ a ∈ canonicalNames, L.toLower a = asciiToLower a)
    (sortSlice : SliceSorter) (hspec : SortSliceSpec sortSlice)
    (logLevel name1 name2 : GoString) (add1 add2 : StringMap) (remove1 remove2 : List GoString)
    (headers : StringMap) (hkeys : ∀ kv ∈ headers, kv.1 ∈ canonicalNames) :
    DetermineRoute headers =
      (Evaluate L (NewRouter sortSlice
        (routeConfig logLevel (betaRule name1 add1 remove1) (canaryRule name2 add2 remove2)))
        headers).Target := by
  have l1 : asciiToLower (str "User-Agent") = str "user-agent" := by decide
  have l2 : asciiToLower (str "X-Geo-Country") = str "x-geo-country" := by decide
  have l3 : asciiToLower (str "Cookie") = str "cookie" := by decide
  have l4 : asciiToLower (str "X-Request-Hash") = str "x-request-hash" := by decide
  have hua := readHeader_canonical headers hkeys (str "User-Agent") (by decide)
  have hgeo := readHeader_canonical headers hkeys (str "X-Geo-Country") (by decide)
  have hck := readHeader_canonical headers hkeys (str "Cookie") (by decide)
  have hrh := readHeader_canonical headers hkeys (str "X-Request-Hash") (by decide)
  rw [l1] at hua
  rw [l2] at hgeo
  rw [l3] at hck
  rw [l4] at hrh
  have hbeta := betaRule_eval L headers name1 add1 remove1
  rw [getHeader_canonical L hlow headers hkeys _ (by decide),
    getHeader_canonical L hlow headers hkeys _ (by decide),
    getCookie_canonical headers hkeys] at hbeta
  have hcanary : evaluateRule L (canaryRule name2 add2 remove2) headers = true ↔
      (decide ((headers.get (str "X-Request-Hash")).length = 1) &&
        strLe (str "0") (headers.get (str "X-Request-Hash")) &&
        strLe (headers.get (str "X-Request-Hash")) (str "9")) = true := by
    rw [canaryRule_eval L hL, getHeader_canonical L hlow headers hkeys _ (by decide),
      searchFrom_digit, single_digit_iff]
  rw [determineRoute_eq, hua, hgeo, hck, hrh]
  by_cases hm : ∃ rule ∈ (routeConfig logLevel (betaRule name1 add1 remove1)
      (canaryRule name2 add2 remove2)).Rules, Matches L headers rule
  · obtain ⟨w, hw, -, he, -⟩ := evaluate_least L sortSlice hspec _ headers hm
    have htarget : (Evaluate L (NewRouter sortSlice (routeConfig logLevel
        (betaRule name1 add1 remove1) (canaryRule name2 add2 remove2))) headers).Target
        = str "v2" := by
      rw [he]
      simp only [routeConfig, List.mem_cons, List.mem_singleton, List.not_mem_nil,
        or_false] at hw
      rcases hw with rfl | rfl <;> rfl
    rw [htarget]
    obtain ⟨rule, hr, hmatch⟩ := hm
    have hev := (evaluateRule_iff L headers rule).2 hmatch
    simp only [routeConfig, List.mem_cons, List.mem_singleton, List.not_mem_nil,
      or_false] at hr
    rcases hr with rfl | rfl
    · rw [hbeta] at hev
      rw [if_pos hev]
    · have hB := hcanary.1 hev
      rw [if_pos hB]
      split <;> rfl
  · have hno : ∀ rule ∈ (routeConfig logLevel (betaRule name1 add1 remove1)
        (canaryRule name2 add2 remove2)).Rules, ¬ Matches L headers rule :=
      fun r hr hmr => hm ⟨r, hr, hmr⟩
    rw [evaluate_default L sortSlice hspec _ headers hno]
    have hA : ¬ (Contains (headers.get (str "User-Agent")) (str "iPhone") &&
        decide (headers.get (str "X-Geo-Country") = str "DE") &&
        decide ((ParseCookieValue (headers.get (str "Cookie")) (str "beta-tester")).1
          = str "true")) = true := by
      intro hA
      rw [← hbeta] at hA
      exact hno _ (by simp [routeConfig]) ((evaluateRule_iff L headers _).1 hA)
    have hB : ¬ (decide ((headers.get (str "X-Request-Hash")).length = 1) &&
        strLe (str "0") (headers.get (str "X-Request-Hash")) &&
        strLe (headers.get (str "X-Request-Hash")) (str "9")) = true := by
      intro hB
      exact hno _ (by simp [routeConfig]) ((evaluateRule_iff L headers _).1 (hcanary.2 hB))
    rw [if_neg hA, if_neg hB]
    rfl

/-- C24 at the requests of `TestDetermineRoute_BetaTester` and
`TestDetermineRoute_CanaryHash`. -/
theorem C24_determine_route_refines_engine_witness :
    (AgreesWithFragment fragmentLib ∧
      (∀ a ∈ canonicalNames, fragmentLib.toLower a = asciiToLower a) ∧
      SortSliceSpec insertionSort_func ∧
      ∀ kv ∈ betaTesterHeaders, kv.1 ∈ canonicalNames) ∧
    DetermineRoute betaTesterHeaders =
      (Evaluate fragmentLib (NewRouter insertionSort_func
        (routeConfig (str "info") (betaRule (str "beta-testers") [] [])
          (canaryRule (str "canary") [] []))) betaTesterHeaders).Target ∧
    DetermineRoute betaTesterHeaders = str "v2" ∧
    DetermineRoute canaryHeaders = str "v2" ∧
    (Evaluate fragmentLib (NewRouter insertionSort_func
      (routeConfig (str "info") (betaRule (str "beta-testers") [] [])
        (canaryRule (str "canary") [] []))) canaryHeaders).MatchedRule = str "canary" :=
  ⟨⟨agreesWithFragment_fragmentLib, fun _ _ => rfl, insertionSort_spec, by decide⟩,
   C24_determine_route_refines_engine fragmentLib agreesWithFragment_fragmentLib
     (fun _ _ => rfl) insertionSort_func insertionSort_spec (str "info")
     (str "beta-testers") (str "canary") [] [] [] [] betaTesterHeaders (by decide),
   by decide, by decide, by decide⟩

/-! ## Runs and the routing contract -/

theorem allConditionsRun_eq (L : Lib) (headers : StringMap) (orders : Nat → StringMap)
    (hvisit : ∀ j, (orders j).Perm headers) (hnodup : (headers.map Prod.fst).Nodup)
    (hcase : ∀ a ∈ headers, ∀ b ∈ headers, L.toLower a.1 = L.toLower b.1 → a.1 = b.1)
    (conds : List Condition) (j : Nat) :
    allConditionsRun L orders j conds = allConditions L headers conds := by
  induction conds generalizing j with
  | nil => rfl
  | cons c cs ih =>
    simp only [allConditionsRun, allConditions, ih,
      ← evaluateCondition_perm L headers (orders j) (hvisit j).symm hnodup hcase c]

theorem evaluateRuleRun_eq (L : Lib) (headers : StringMap) (orders : Nat → StringMap)
    (hvisit : ∀ j, (orders j).Perm headers) (hnodup : (headers.map Prod.fst).Nodup)
    (hcase : ∀ a ∈ headers, ∀ b ∈ headers, L.toLower a.1 = L.toLower b.1 → a.1 = b.1)
    (rule : RoutingRule) : evaluateRuleRun L rule orders = evaluateRule L rule headers := by
  unfold evaluateRuleRun evaluateRule
  rw [allConditionsRun_eq L headers orders hvisit hnodup hcase]

theorem firstMatchRun_eq (L : Lib) (headers : StringMap) (plan : VisitPlan)
    (hvisit : plan.Visits headers) (hnodup : (headers.map Prod.fst).Nodup)
    (hcase : ∀ a ∈ headers, ∀ b ∈ headers, L.toLower a.1 = L.toLower b.1 → a.1 = b.1)
    (rules : List RoutingRule) (i : Nat) :
    firstMatchRun L plan i rules = firstMatch L headers rules := by
  induction rules generalizing i with
  | nil => rfl
  | cons r rs ih =>
    simp only [firstMatchRun, firstMatch, ih,
      evaluateRuleRun_eq L headers (plan i) (hvisit i) hnodup hcase]

/-- On a map that holds no two different keys equal after lower-casing, every run of
`Evaluate` gives the decision of the run that visits the map in list order throughout. -/
theorem evaluateRun_eq (L : Lib) (r : Router) (headers : StringMap) (plan : VisitPlan)
    (hvisit : plan.Visits headers) (hnodup : (headers.map Prod.fst).Nodup)
    (hcase : ∀ a ∈ headers, ∀ b ∈ headers, L.toLower a.1 = L.toLower b.1 → a.1 = b.1) :
    EvaluateRun L r plan = Evaluate L r headers := by
  unfold EvaluateRun Evaluate
  rw [firstMatchRun_eq L headers plan hvisit hnodup hcase]

theorem allConditionsRun_const (L : Lib) (headers : StringMap) (conds : List Condition)
    (j : Nat) : allConditionsRun L (fun _ => headers) j conds = allConditions L headers conds := by
  induction conds generalizing j with
  | nil => rfl
  | cons c cs ih => simp only [allConditionsRun, allConditions, ih]

theorem firstMatchRun_const (L : Lib) (headers : StringMap) (rules : List RoutingRule)
    (i : Nat) : firstMatchRun L (fun _ _ => headers) i rules = firstMatch L headers rules := by
  induction rules generalizing i with
  | nil => rfl
  | cons r rs ih =>
    simp only [firstMatchRun, firstMatch, ih, evaluateRuleRun, evaluateRule,
      allConditionsRun_const]

/-- The run in which every loop draws the list order is the one `Evaluate` describes. -/
theorem evaluateRun_steady (L : Lib) (r : Router) (headers : StringMap) :
    EvaluateRun L r (steadyPlan headers) = Evaluate L r headers := by
  unfold EvaluateRun Evaluate steadyPlan
  rw [firstMatchRun_const]

theorem twinPlan_visits : twinPlan.Visits modeHeaders1 := by
  intro i j
  unfold twinPlan
  split
  · exact List.Perm.swap _ _ _
  · exact List.Perm.refl _

theorem splitPlan_visits : splitPlan.Visits modeHeaders1 := by
  intro i j
  unfold splitPlan
  split
  · exact List.Perm.refl _
  · exact List.Perm.swap _ _ _

theorem samplePlan_visits : samplePlan.Visits priorityHeaders := by
  intro i j
  unfold samplePlan
  split
  · exact List.Perm.swap _ _ _
  · exact List.Perm.refl _

/-- C1, as stated, fails: of two rules with one and the same condition the second is
returned, in a run on a map with two case variants of the header in which the lookup of the
first rule meets the variant that fails the condition and the lookup of the second rule
meets the other.  The first rule matches when the map is visited in the order of
`modeHeaders1`, and neither rule matches when it is visited in the other order. -/
theorem C1_case_variants_defeat_first_match :
    twinPlan.Visits modeHeaders1 ∧ (modeHeaders1.map Prod.fst).Nodup ∧
    (NewRouter insertionSort_func twinConfig).config.Rules = [twinFirst, twinSecond] ∧
    twinFirst.Conditions = twinSecond.Conditions ∧
    Matches exampleLib modeHeaders1 twinFirst ∧
    (∀ rule ∈ twinConfig.Rules, ¬ Matches exampleLib modeHeaders2 rule) ∧
    EvaluateRun exampleLib (NewRouter insertionSort_func twinConfig) twinPlan =
      { Target := twinSecond.Target, MatchedRule := twinSecond.Name,
        AddHeaders := twinSecond.AddHeaders, RemoveHeaders := twinSecond.RemoveHeaders } ∧
    twinSecond.Name ≠ twinFirst.Name :=
  ⟨twinPlan_visits, by decide, by decide, rfl,
   (evaluateRule_iff exampleLib modeHeaders1 twinFirst).1 (by decide),
   by
     intro rule hr
     rw [← evaluateRule_false_iff]
     revert rule
     decide,
   by decide, by decide⟩

/-- C1, amended: on a header map that holds no two different keys equal after lower-casing,
when some rule of a router built by `NewRouter` matches, every run of `Evaluate` returns the
target, name, added headers and removed headers of the first matching rule of the router's
sorted rule list. -/
theorem C1_first_matching_rule_wins (L : Lib) (sortSlice : SliceSorter) (config : PluginConfig)
    (headers : StringMap) (plan : VisitPlan) (hvisit : plan.Visits headers)
    (hnodup : (headers.map Prod.fst).Nodup)
    (hcase : ∀ a ∈ headers, ∀ b ∈ headers, L.toLower a.1 = L.toLower b.1 → a.1 = b.1)
    (h : ∃ rule ∈ (NewRouter sortSlice config).config.Rules, Matches L headers rule) :
    ∃ pre rule post, (NewRouter sortSlice config).config.Rules = pre ++ rule :: post ∧
      (∀ x ∈ pre, ¬ Matches L headers x) ∧ Matches L headers rule ∧
      EvaluateRun L (NewRouter sortSlice config) plan =
        { Target := rule.Target, MatchedRule := rule.Name, AddHeaders := rule.AddHeaders,
          RemoveHeaders := rule.RemoveHeaders } := by
  obtain ⟨d, hd⟩ := firstMatch_isSome L headers _ h
  obtain ⟨pre, rule, post, hsplit, hpre, hrule, hdr⟩ := firstMatch_split L headers _ d hd
  refine ⟨pre, rule, post, hsplit, hpre, hrule, ?_⟩
  rw [evaluateRun_eq L _ headers plan hvisit hnodup hcase]
  simp [Evaluate, hd, hdr, ruleDecision]

/-- C1 amended, at the request of `TestRouter_Evaluate_Priority`, the map visited in one
order for the first rule and in the other for the second: both rules match. -/
theorem C1_first_matching_rule_wins_witness :
    (samplePlan.Visits priorityHeaders ∧ (priorityHeaders.map Prod.fst).Nodup ∧
      (∀ a ∈ priorityHeaders, ∀ b ∈ priorityHeaders,
        exampleLib.toLower a.1 = exampleLib.toLower b.1 → a.1 = b.1) ∧
      ∃ rule ∈ (NewRouter insertionSort_func priorityConfig).config.Rules,
        Matches exampleLib priorityHeaders rule) ∧
    ∃ pre rule post,
      (NewRouter insertionSort_func priorityConfig).config.Rules = pre ++ rule :: post ∧
      (∀ x ∈ pre, ¬ Matches exampleLib priorityHeaders x) ∧
      Matches exampleLib priorityHeaders rule ∧
      EvaluateRun exampleLib (NewRouter insertionSort_func priorityConfig) samplePlan =
        { Target := rule.Target, MatchedRule := rule.Name, AddHeaders := rule.AddHeaders,
          RemoveHeaders := rule.RemoveHeaders } :=
  ⟨⟨samplePlan_visits, by decide, by decide, ruleHigh, by decide, matches_ruleHigh⟩,
   C1_first_matching_rule_wins exampleLib insertionSort_func priorityConfig priorityHeaders
     samplePlan samplePlan_visits (by decide) (by decide)
     ⟨ruleHigh, by decide, matches_ruleHigh⟩⟩

/-- C2, as stated, fails: a rule that asks one header to equal "a" and to equal "b" does not
match in whichever order the map with two case variants of that header is visited, yet the
run in which the lookup of the first condition meets one variant and the lookup of the
second condition the other returns the rule and not the default decision. -/
theorem C2_case_variants_defeat_default :
    splitPlan.Visits modeHeaders1 ∧ (modeHeaders1.map Prod.fst).Nodup ∧
    (∀ rule ∈ bothConfig.Rules, ¬ Matches exampleLib modeHeaders1 rule) ∧
    (∀ rule ∈ bothConfig.Rules, ¬ Matches exampleLib modeHeaders2 rule) ∧
    EvaluateRun exampleLib (NewRouter insertionSort_func bothConfig) splitPlan =
      { Target := str "v2", MatchedRule := str "both", AddHeaders := [],
        RemoveHeaders := [] } ∧
    bothConfig.DefaultTarget = str "v1" :=
  ⟨splitPlan_visits, by decide,
   by
     intro rule hr
     rw [← evaluateRule_false_iff]
     revert rule
     decide,
   by
     intro rule hr
     rw [← evaluateRule_false_iff]
     revert rule
     decide,
   by decide, rfl⟩

/-- C2, amended: on a header map that holds no two different keys equal after lower-casing,
when no rule of the config matches, every run of `Evaluate` on `NewRouter config` returns
the default target, an empty matched-rule name, the two attribution headers and no headers
to remove. -/
theorem C2_default_decision (L : Lib) (sortSlice : SliceSorter) (hspec : SortSliceSpec sortSlice)
    (config : PluginConfig) (headers : StringMap) (plan : VisitPlan)
    (hvisit : plan.Visits headers) (hnodup : (headers.map Prod.fst).Nodup)
    (hcase : ∀ a ∈ headers, ∀ b ∈ headers, L.toLower a.1 = L.toLower b.1 → a.1 = b.1)
    (h : ∀ rule ∈ config.Rules, ¬ Matches L headers rule) :
    EvaluateRun L (NewRouter sortSlice config) plan =
      { Target := config.DefaultTarget, MatchedRule := [],
        AddHeaders := [(str "X-Routed-By", str "smart-router"),
                       (str "X-Route-Reason", str "default")],
        RemoveHeaders := [] } := by
  rw [evaluateRun_eq L _ headers plan hvisit hnodup hcase,
    evaluate_default L sortSlice hspec config headers h]
  rfl

/-- C2 amended, at a request that no rule of `priorityConfig` matches. -/
theorem C2_default_decision_witness :
    ((steadyPlan plainHeaders).Visits plainHeaders ∧
      (plainHeaders.map Prod.fst).Nodup ∧
      (∀ a ∈ plainHeaders, ∀ b ∈ plainHeaders,
        exampleLib.toLower a.1 = exampleLib.toLower b.1 → a.1 = b.1) ∧
      ∀ rule ∈ priorityConfig.Rules, ¬ Matches exampleLib plainHeaders rule) ∧
    EvaluateRun exampleLib (NewRouter insertionSort_func priorityConfig)
      (steadyPlan plainHeaders) =
      { Target := str "v1", MatchedRule := [],
        AddHeaders := [(str "X-Routed-By", str "smart-router"),
                       (str "X-Route-Reason", str "default")],
        RemoveHeaders := [] } :=
  have hno : ∀ rule ∈ priorityConfig.Rules, ¬ Matches exampleLib plainHeaders rule := by
    intro rule hr
    rw [← evaluateRule_false_iff]
    revert rule
    decide
  ⟨⟨fun _ _ => List.Perm.refl _, by decide, by decide, hno⟩,
   C2_default_decision exampleLib insertionSort_func insertionSort_spec priorityConfig
     plainHeaders (steadyPlan plainHeaders) (fun _ _ => List.Perm.refl _) (by decide)
     (by decide) hno⟩

/-- C3, as stated, fails: in the run of `twinPlan` on a map with two case variants of the
header, `Evaluate` returns the rule of priority 2 although the rule of priority 1 has the
same condition, which holds when the map is visited in the order of `modeHeaders1`. -/
theorem C3_case_variants_defeat_priority :
    twinPlan.Visits modeHeaders1 ∧ (modeHeaders1.map Prod.fst).Nodup ∧
    twinFirst ∈ twinConfig.Rules ∧ Matches exampleLib modeHeaders1 twinFirst ∧
    Matches exampleLib modeHeaders1 twinSecond ∧
    twinFirst.Priority < twinSecond.Priority ∧
    (EvaluateRun exampleLib (NewRouter insertionSort_func twinConfig) twinPlan).MatchedRule =
      str "second" ∧
    ∀ w ∈ twinConfig.Rules,
      EvaluateRun exampleLib (NewRouter insertionSort_func twinConfig) twinPlan =
        { Target := w.Target, MatchedRule := w.Name, AddHeaders := w.AddHeaders,
          RemoveHeaders := w.RemoveHeaders } → w.Priority = 2 :=
  ⟨twinPlan_visits, by decide, by decide,
   (evaluateRule_iff exampleLib modeHeaders1 twinFirst).1 (by decide),
   (evaluateRule_iff exampleLib modeHeaders1 twinSecond).1 (by decide),
   by decide, by decide, by decide⟩

/-- C3, amended: on a header map that holds no two different keys equal after lower-casing,
when some rule of the config matches, the decision of every run of `Evaluate` on
`NewRouter config` is that of a matching rule whose priority is at most the priority of
every matching rule, wherever the rules stand in the input list. -/
theorem C3_lowest_priority_wins (L : Lib) (sortSlice : SliceSorter)
    (hspec : SortSliceSpec sortSlice) (config : PluginConfig) (headers : StringMap)
    (plan : VisitPlan) (hvisit : plan.Visits headers) (hnodup : (headers.map Prod.fst).Nodup)
    (hcase : ∀ a ∈ headers, ∀ b ∈ headers, L.toLower a.1 = L.toLower b.1 → a.1 = b.1)
    (h : ∃ rule ∈ config.Rules, Matches L headers rule) :
    ∃ w ∈ config.Rules, Matches L headers w ∧
      EvaluateRun L (NewRouter sortSlice config) plan =
        { Target := w.Target, MatchedRule := w.Name, AddHeaders := w.AddHeaders,
          RemoveHeaders := w.RemoveHeaders } ∧
      ∀ r ∈ config.Rules, Matches L headers r → w.Priority ≤ r.Priority := by
  obtain ⟨w, hw, hm, he, hle⟩ := evaluate_least L sortSlice hspec config headers h
  refine ⟨w, hw, hm, ?_, hle⟩
  rw [evaluateRun_eq L _ headers plan hvisit hnodup hcase]
  simpa [ruleDecision] using he

/-- C3 amended, at `TestRouter_Evaluate_Priority`: the rule of priority 1, listed second,
wins over the matching rule of priority 10. -/
theorem C3_lowest_priority_wins_witness :
    (samplePlan.Visits priorityHeaders ∧ (priorityHeaders.map Prod.fst).Nodup ∧
      (∀ a ∈ priorityHeaders, ∀ b ∈ priorityHeaders,
        exampleLib.toLower a.1 = exampleLib.toLower b.1 → a.1 = b.1) ∧
      ∃ rule ∈ priorityConfig.Rules, Matches exampleLib priorityHeaders rule) ∧
    (∃ w ∈ priorityConfig.Rules, Matches exampleLib priorityHeaders w ∧
      EvaluateRun exampleLib (NewRouter insertionSort_func priorityConfig) samplePlan =
        { Target := w.Target, MatchedRule := w.Name, AddHeaders := w.AddHeaders,
          RemoveHeaders := w.RemoveHeaders } ∧
      ∀ r ∈ priorityConfig.Rules, Matches exampleLib priorityHeaders r →
        w.Priority ≤ r.Priority) ∧
    (EvaluateRun exampleLib (NewRouter insertionSort_func priorityConfig) samplePlan).MatchedRule
      = str "high-priority" :=
  ⟨⟨samplePlan_visits, by decide, by decide, ruleLow, by decide, matches_ruleLow⟩,
   C3_lowest_priority_wins exampleLib insertionSort_func insertionSort_spec priorityConfig
     priorityHeaders samplePlan samplePlan_visits (by decide) (by decide)
     ⟨ruleLow, by decide, matches_ruleLow⟩,
   by decide⟩

/-- C4, as stated, fails: two configs with the same default target and the same two rules
in different order, both rules matching with equal priority, give different decisions. -/
theorem C4_tied_rules_depend_on_order :
    tieConfigA.DefaultTarget = tieConfigB.DefaultTarget ∧
    tieConfigA.Rules.Perm tieConfigB.Rules ∧
    (Evaluate exampleLib (NewRouter insertionSort_func tieConfigA) priorityHeaders).MatchedRule
      = str "low-priority" ∧
    (Evaluate exampleLib (NewRouter insertionSort_func tieConfigB) priorityHeaders).MatchedRule
      = str "tie" ∧
    Evaluate exampleLib (NewRouter insertionSort_func tieConfigA) priorityHeaders ≠
      Evaluate exampleLib (NewRouter insertionSort_func tieConfigB) priorityHeaders :=
  ⟨rfl, List.Perm.swap _ _ _, by decide, by decide, by decide⟩

/-- C4, amended: two configs with the same default target whose rule lists are permutations
of one another give identical decisions, in every run of either, on every header map that
holds no two different keys equal after lower-casing and on which the matching rules of
least priority all carry the same target, name, added headers and removed headers. -/
theorem C4_order_independent_without_ties (L : Lib) (sortSlice : SliceSorter)
    (hspec : SortSliceSpec sortSlice) (c1 c2 : PluginConfig) (headers : StringMap)
    (plan1 plan2 : VisitPlan) (hvisit1 : plan1.Visits headers) (hvisit2 : plan2.Visits headers)
    (hnodup : (headers.map Prod.fst).Nodup)
    (hcase : ∀ a ∈ headers, ∀ b ∈ headers, L.toLower a.1 = L.toLower b.1 → a.1 = b.1)
    (hdef : c1.DefaultTarget = c2.DefaultTarget) (hperm : c1.Rules.Perm c2.Rules)
    (hties : ∀ a ∈ c1.Rules, ∀ b ∈ c1.Rules, Matches L headers a → Matches L headers b →
      (∀ r ∈ c1.Rules, Matches L headers r → a.Priority ≤ r.Priority) →
      a.Priority = b.Priority →
      a.Target = b.Target ∧ a.Name = b.Name ∧ a.AddHeaders = b.AddHeaders ∧
        a.RemoveHeaders = b.RemoveHeaders) :
    EvaluateRun L (NewRouter sortSlice c1) plan1 =
      EvaluateRun L (NewRouter sortSlice c2) plan2 := by
  rw [evaluateRun_eq L _ headers plan1 hvisit1 hnodup hcase,
    evaluateRun_eq L _ headers plan2 hvisit2 hnodup hcase]
  by_cases h : ∃ rule ∈ c1.Rules, Matches L headers rule
  · have h2 : ∃ rule ∈ c2.Rules, Matches L headers rule := by
      obtain ⟨r, hr, hm⟩ := h
      exact ⟨r, hperm.mem_iff.1 hr, hm⟩
    obtain ⟨w1, hw1, hm1, he1, hle1⟩ := evaluate_least L sortSlice hspec c1 headers h
    obtain ⟨w2, hw2, hm2, he2, hle2⟩ := evaluate_least L sortSlice hspec c2 headers h2
    have hw2c : w2 ∈ c1.Rules := hperm.mem_iff.2 hw2
    obtain ⟨ht, hn, hadd, hrem⟩ := hties w1 hw1 w2 hw2c hm1 hm2 hle1
      (le_antisymm (hle1 w2 hw2c hm2) (hle2 w1 (hperm.mem_iff.1 hw1) hm1))
    rw [he1, he2]
    simp [ruleDecision, ht, hn, hadd, hrem]
  · have hno1 : ∀ rule ∈ c1.Rules, ¬ Matches L headers rule := fun r hr hm => h ⟨r, hr, hm⟩
    have hno2 : ∀ rule ∈ c2.Rules, ¬ Matches L headers rule :=
      fun r hr hm => h ⟨r, hperm.mem_iff.2 hr, hm⟩
    rw [evaluate_default L sortSlice hspec c1 headers hno1,
      evaluate_default L sortSlice hspec c2 headers hno2, hdef]

/-- C4 amended, at the request of `TestRouter_Evaluate_Priority` and three matching rules in
two orders: the two rules that tie on priority 10 stand behind the rule of priority 1. -/
theorem C4_order_independent_without_ties_witness :
    (samplePlan.Visits priorityHeaders ∧
     (steadyPlan priorityHeaders).Visits priorityHeaders ∧
     (priorityHeaders.map Prod.fst).Nodup ∧
     (∀ a ∈ priorityHeaders, ∀ b ∈ priorityHeaders,
        exampleLib.toLower a.1 = exampleLib.toLower b.1 → a.1 = b.1) ∧
     shadowedTieConfigA.DefaultTarget = shadowedTieConfigB.DefaultTarget ∧
     shadowedTieConfigA.Rules.Perm shadowedTieConfigB.Rules ∧
     ∀ a ∈ shadowedTieConfigA.Rules, ∀ b ∈ shadowedTieConfigA.Rules,
       Matches exampleLib priorityHeaders a → Matches exampleLib priorityHeaders b →
       (∀ r ∈ shadowedTieConfigA.Rules, Matches exampleLib priorityHeaders r →
         a.Priority ≤ r.Priority) →
       a.Priority = b.Priority →
       a.Target = b.Target ∧ a.Name = b.Name ∧ a.AddHeaders = b.AddHeaders ∧
         a.RemoveHeaders = b.RemoveHeaders) ∧
    EvaluateRun exampleLib (NewRouter insertionSort_func shadowedTieConfigA) samplePlan =
      EvaluateRun exampleLib (NewRouter insertionSort_func shadowedTieConfigB)
        (steadyPlan priorityHeaders) ∧
    (EvaluateRun exampleLib (NewRouter insertionSort_func shadowedTieConfigA)
      samplePlan).MatchedRule = str "high-priority" :=
  have hperm : shadowedTieConfigA.Rules.Perm shadowedTieConfigB.Rules := by decide
  have hties : ∀ a ∈ shadowedTieConfigA.Rules, ∀ b ∈ shadowedTieConfigA.Rules,
      Matches exampleLib priorityHeaders a → Matches exampleLib priorityHeaders b →
      (∀ r ∈ shadowedTieConfigA.Rules, Matches exampleLib priorityHeaders r →
        a.Priority ≤ r.Priority) →
      a.Priority = b.Priority →
      a.Target = b.Target ∧ a.Name = b.Name ∧ a.AddHeaders = b.AddHeaders ∧
        a.RemoveHeaders = b.RemoveHeaders := by
    intro a ha b hb hma hmb hleast
    have hle : a.Priority ≤ ruleHigh.Priority := hleast ruleHigh (by decide) matches_ruleHigh
    clear hma hmb hleast
    revert a b
    decide
  ⟨⟨samplePlan_visits, fun _ _ => List.Perm.refl _, by decide, by decide, rfl, hperm, hties⟩,
   C4_order_independent_without_ties exampleLib insertionSort_func insertionSort_spec
     shadowedTieConfigA shadowedTieConfigB priorityHeaders samplePlan
     (steadyPlan priorityHeaders) samplePlan_visits (fun _ _ => List.Perm.refl _)
     (by decide) (by decide) rfl hperm hties,
   by decide⟩

/-- C7, as stated, fails: in the run of `splitPlan` on a map with two case variants of the
header, `evaluateRule` returns true for a rule whose conditions do not all hold in
whichever order the map is visited, and false for the same rule with its two conditions
in the other order. -/
theorem C7_case_variants_defeat_rule_match :
    (∀ j, (splitPlan 0 j).Perm modeHeaders1) ∧ (modeHeaders1.map Prod.fst).Nodup ∧
    evaluateRuleRun exampleLib ruleBoth (splitPlan 0) = true ∧
    ¬ (∀ c ∈ ruleBoth.Conditions, evaluateCondition exampleLib c modeHeaders1 = true) ∧
    ¬ (∀ c ∈ ruleBoth.Conditions, evaluateCondition exampleLib c modeHeaders2 = true) ∧
    ruleBothRev.Conditions.Perm ruleBoth.Conditions ∧
    evaluateRuleRun exampleLib ruleBothRev (splitPlan 0) = false :=
  ⟨splitPlan_visits 0, by decide, by decide, by decide, by decide, List.Perm.swap _ _ _,
   by decide⟩

/-- C7, amended: a rule without conditions never matches, in any run.  On a header map that
holds no two different keys equal after lower-casing, `evaluateRule` returns true, in every
run, exactly when the rule has at least one condition and every condition evaluates true,
and reordering the conditions does not change the outcome. -/
theorem C7_rule_matches_iff_all_conditions (L : Lib) (rule : RoutingRule)
    (orders : Nat → StringMap) :
    (rule.Conditions = [] → evaluateRuleRun L rule orders = false) ∧
    (∀ headers : StringMap, (∀ j, (orders j).Perm headers) → (headers.map Prod.fst).Nodup →
      (∀ a ∈ headers, ∀ b ∈ headers, L.toLower a.1 = L.toLower b.1 → a.1 = b.1) →
      (evaluateRuleRun L rule orders = true ↔
        (rule.Conditions.length > 0 ∧
          ∀ c ∈ rule.Conditions, evaluateCondition L c headers = true)) ∧
      (∀ (rule2 : RoutingRule) (orders2 : Nat → StringMap),
        (∀ j, (orders2 j).Perm headers) → rule2.Conditions.Perm rule.Conditions →
        evaluateRuleRun L rule2 orders2 = evaluateRuleRun L rule orders)) := by
  refine ⟨?_, ?_⟩
  · intro hnil
    simp [evaluateRuleRun, hnil]
  · intro headers hvisit hnodup hcase
    have hiff : ∀ (r : RoutingRule) (o : Nat → StringMap), (∀ j, (o j).Perm headers) →
        (evaluateRuleRun L r o = true ↔
          (r.Conditions.length > 0 ∧
            ∀ c ∈ r.Conditions, evaluateCondition L c headers = true)) := by
      intro r o ho
      rw [evaluateRuleRun_eq L headers o ho hnodup hcase, evaluateRule_iff]
      simp [Matches, List.length_pos]
    refine ⟨hiff rule orders hvisit, ?_⟩
    intro rule2 orders2 hvisit2 hperm
    rw [Bool.eq_iff_iff, hiff rule2 orders2 hvisit2, hiff rule orders hvisit, hperm.length_eq]
    constructor
    · intro hh
      exact ⟨hh.1, fun c hc => hh.2 c (hperm.mem_iff.2 hc)⟩
    · intro hh
      exact ⟨hh.1, fun c hc => hh.2 c (hperm.mem_iff.1 hc)⟩

/-- C7 amended, at the request of `TestRouter_Evaluate_Priority`: a rule with two conditions
matches, and so does the rule with the two conditions in the other order, in a run that
visits the map in another order. -/
theorem C7_rule_matches_iff_all_conditions_witness :
    ((∀ j, (samplePlan 0 j).Perm priorityHeaders) ∧
      (∀ j, (samplePlan 1 j).Perm priorityHeaders) ∧
      (priorityHeaders.map Prod.fst).Nodup ∧
      (∀ a ∈ priorityHeaders, ∀ b ∈ priorityHeaders,
        exampleLib.toLower a.1 = exampleLib.toLower b.1 → a.1 = b.1) ∧
      rulePairRev.Conditions.Perm rulePair.Conditions) ∧
    (evaluateRuleRun exampleLib rulePair (samplePlan 0) = true ↔
      (rulePair.Conditions.length > 0 ∧
        ∀ c ∈ rulePair.Conditions, evaluateCondition exampleLib c priorityHeaders = true)) ∧
    evaluateRuleRun exampleLib rulePairRev (samplePlan 1) =
      evaluateRuleRun exampleLib rulePair (samplePlan 0) ∧
    evaluateRuleRun exampleLib rulePair (samplePlan 0) = true :=
  have hthm := (C7_rule_matches_iff_all_conditions exampleLib rulePair (samplePlan 0)).2
    priorityHeaders (samplePlan_visits 0) (by decide) (by decide)
  ⟨⟨samplePlan_visits 0, samplePlan_visits 1, by decide, by decide, List.Perm.swap _ _ _⟩,
   hthm.1, hthm.2 rulePairRev (samplePlan 1) (samplePlan_visits 1) (List.Perm.swap _ _ _),
   by decide⟩

end SmartRouter
